import Mathlib

/-!
# WitMotion IMU acquisition: record assembly, register interpretation, persistence

A shallow embedding of `src/gui/src/serial/datatypes.h` (`IMUData`) and
`src/gui/src/serial/witmotion/witmotion.cpp` (`WitMotion`).

`QString` is `String`, `QSet<QString>` is `Finset String`, `std::deque` is `List`
(front = head).  Qt's conversions between `float` and text are not part of the
repository; they are the fields of `QtNum`, and what a proof needs from them is
stated as a named law on that record.  The register addresses of the vendor's `REG.h`
are the fields of `Regs`.  The byte decoder of the vendor library is not among the
sources either: `Decoder.feed` follows the description of the specification.
-/

namespace WitIMU

/-- The `float` type together with the Qt conversions the sources call on it:
`QString::toFloat(&ok)`, `QString::number(x, 'f', 4)`, the conversion of an `int`
(or of a literal such as `32768.0f`) to `float`, and `float` division and
multiplication. -/
structure QtNum where
  /-- The C++ type float. -/
  F : Type
  /-- The literal zero of the default member initialisers and of clear(). -/
  zero : F
  /-- QString::toFloat: the parsed value and the ok flag. -/
  toFloat : String → F × Bool
  /-- QString::number(x, 'f', 4). -/
  number : F → String
  /-- Conversion of an integer to float. -/
  ofInt : Int → F
  /-- Division of floats. -/
  div : F → F → F
  /-- Multiplication of floats. -/
  mul : F → F → F

/-- The struct IMUData of datatypes.h. -/
structure IMUData (L : QtNum) where
  system_time : String
  timestamp : String
  accX : L.F
  accY : L.F
  accZ : L.F
  gyroX : L.F
  gyroY : L.F
  gyroZ : L.F
  roll : L.F
  pitch : L.F
  yaw : L.F
  qX : L.F
  qY : L.F
  qZ : L.F
  qW : L.F
  validFields : Finset String

namespace IMUData

variable {L : QtNum}

/-- A default-constructed IMUData: empty strings, every float 0, empty set. -/
def init : IMUData L where
  system_time := ""
  timestamp := ""
  accX := L.zero
  accY := L.zero
  accZ := L.zero
  gyroX := L.zero
  gyroY := L.zero
  gyroZ := L.zero
  roll := L.zero
  pitch := L.zero
  yaw := L.zero
  qX := L.zero
  qY := L.zero
  qZ := L.zero
  qW := L.zero
  validFields := ∅

/-- IMUData::fieldOrder. -/
def fieldOrder : List String :=
  ["system_time", "timestamp",
   "accX", "accY", "accZ",
   "gyroX", "gyroY", "gyroZ",
   "roll", "pitch", "yaw",
   "qX", "qY", "qZ", "qW"]

/-- IMUData::set. -/
def set (d : IMUData L) (key value : String) : IMUData L :=
  let f := (L.toFloat value).1
  let ok := (L.toFloat value).2
  let d1 : IMUData L :=
    if key = "system_time" then { d with system_time := value }
    else if key = "timestamp" then { d with timestamp := value }
    else if ok then
      if key = "accX" then { d with accX := f }
      else if key = "accY" then { d with accY := f }
      else if key = "accZ" then { d with accZ := f }
      else if key = "gyroX" then { d with gyroX := f }
      else if key = "gyroY" then { d with gyroY := f }
      else if key = "gyroZ" then { d with gyroZ := f }
      else if key = "roll" then { d with roll := f }
      else if key = "pitch" then { d with pitch := f }
      else if key = "yaw" then { d with yaw := f }
      else if key = "qX" then { d with qX := f }
      else if key = "qY" then { d with qY := f }
      else if key = "qZ" then { d with qZ := f }
      else if key = "qW" then { d with qW := f }
      else d
    else d
  { d1 with validFields := insert key d1.validFields }

/-- IMUData::getAsString. -/
def getAsString (d : IMUData L) (key : String) : String :=
  if key = "system_time" then d.system_time
  else if key = "timestamp" then d.timestamp
  else if key = "accX" then L.number d.accX
  else if key = "accY" then L.number d.accY
  else if key = "accZ" then L.number d.accZ
  else if key = "gyroX" then L.number d.gyroX
  else if key = "gyroY" then L.number d.gyroY
  else if key = "gyroZ" then L.number d.gyroZ
  else if key = "roll" then L.number d.roll
  else if key = "pitch" then L.number d.pitch
  else if key = "yaw" then L.number d.yaw
  else if key = "qX" then L.number d.qX
  else if key = "qY" then L.number d.qY
  else if key = "qZ" then L.number d.qZ
  else if key = "qW" then L.number d.qW
  else ""

/-- IMUData::toCSVRow. -/
def toCSVRow (d : IMUData L) : String :=
  ",".intercalate (fieldOrder.map d.getAsString)

/-- IMUData::full. -/
def full (d : IMUData L) : Bool :=
  fieldOrder.all fun key => decide (key ∈ d.validFields)

/-- The loop of IMUData::add over a list of keys. -/
def addKeys (other : IMUData L) : List String → IMUData L → IMUData L
  | [], d => d
  | key :: keys, d =>
    addKeys other keys
      (if key ∈ other.validFields then d.set key (other.getAsString key) else d)

/-- IMUData::add. -/
def add (d other : IMUData L) : IMUData L :=
  addKeys other fieldOrder d

/-- IMUData::clear. -/
def clear (d : IMUData L) : IMUData L :=
  { d with
    system_time := ""
    timestamp := ""
    accX := L.zero
    accY := L.zero
    accZ := L.zero
    gyroX := L.zero
    gyroY := L.zero
    gyroZ := L.zero
    roll := L.zero
    pitch := L.zero
    yaw := L.zero
    qX := L.zero
    qY := L.zero
    qZ := L.zero
    qW := L.zero
    validFields := ∅ }

end IMUData

/-! ## Text in fixed notation and an exact-arithmetic instance of the conversions -/



/-- Text with exactly four digits after the decimal point: an optional minus sign,
at least one digit, a point, four digits. -/
def isFixed4 (s : String) : Bool :=
  let cs := s.data
  let body := if cs.head? = some '-' then cs.tail else cs
  let ip := body.takeWhile Char.isDigit
  match body.dropWhile Char.isDigit with
  | ['.', a, b, c, d] => !ip.isEmpty && a.isDigit && b.isDigit && c.isDigit && d.isDigit
  | _ => false

namespace Ref

/-- An exact fraction num / den (not normalised). -/
structure Frac where
  num : Int
  den : Nat
  deriving DecidableEq

/-- Decimal digits of n, least significant first, by recursion on a bound. -/
def digitsLE : Nat → Nat → List Nat
  | 0, _ => []
  | fuel + 1, n => if n = 0 then [] else (n % 10) :: digitsLE fuel (n / 10)

/-- Decimal digits of a natural number, most significant first, "0" for zero. -/
def natChars (n : Nat) : List Char :=
  if n = 0 then ['0'] else (digitsLE n n).reverse.map Nat.digitChar

/-- The four decimal digits of m (m < 10000), most significant first. -/
def fracChars (m : Nat) : List Char :=
  [Nat.digitChar (m / 1000 % 10), Nat.digitChar (m / 100 % 10),
   Nat.digitChar (m / 10 % 10), Nat.digitChar (m % 10)]

/-- Value of a list of decimal digit characters. -/
def parseNat (cs : List Char) : Nat :=
  cs.foldl (fun acc c => 10 * acc + (c.toNat - 48)) 0

/-- Rounding to a whole number of ten-thousandths, halves away from zero. -/
def round4 (x : Frac) : Int :=
  let m : Nat := (2 * x.num.natAbs * 10000 + x.den) / (2 * x.den)
  if x.num < 0 then -(m : Int) else (m : Int)

/-- The characters of showFixed4 after the sign. -/
def bodyChars (z : Int) : List Char :=
  natChars (z.natAbs / 10000) ++ '.' :: fracChars (z.natAbs % 10000)

/-- Fixed notation with four decimals of z ten-thousandths. -/
def showFixed4 (z : Int) : String :=
  String.mk ((if z < 0 then ['-'] else []) ++ bodyChars z)

/-- Reading of a decimal numeral: optional minus sign, digits, optionally a point
and more digits. -/
def parseDecimal (s : String) : Option Frac :=
  let cs := s.data
  let neg := cs.head? = some '-'
  let body := if neg then cs.tail else cs
  let ip := body.takeWhile Char.isDigit
  let sign : Int := if neg then -1 else 1
  match body.dropWhile Char.isDigit with
  | [] => if ip.isEmpty then none else some ⟨sign * parseNat ip, 1⟩
  | '.' :: fr =>
    if !ip.isEmpty && fr.all Char.isDigit then
      some ⟨sign * (parseNat ip * 10 ^ fr.length + parseNat fr), 10 ^ fr.length⟩
    else none
  | _ => none

/-- A float with a sign bit, of value (-1)^neg * num / den: zero has both signs. -/
structure SFrac where
  neg : Bool
  num : Nat
  den : Nat
  deriving DecidableEq

/-- Fixed notation with four decimals of m ten-thousandths, after a minus sign when
neg is set. -/
def showSigned (neg : Bool) (m : Nat) : String :=
  String.mk ((if neg then ['-'] else []) ++ bodyChars (m : Int))

/-- Reading of a decimal numeral that keeps the sign also when the digits are all
zero. -/
def parseSigned (s : String) : Option SFrac :=
  let cs := s.data
  let neg := decide (cs.head? = some '-')
  let body := if neg then cs.tail else cs
  let ip := body.takeWhile Char.isDigit
  match body.dropWhile Char.isDigit with
  | [] => if ip.isEmpty then none else some ⟨neg, parseNat ip, 1⟩
  | '.' :: fr =>
    if !ip.isEmpty && fr.all Char.isDigit then
      some ⟨neg, parseNat ip * 10 ^ fr.length + parseNat fr, 10 ^ fr.length⟩
    else none
  | _ => none

end Ref

/-- An exact-arithmetic instance of the conversions: floats are fractions, number
rounds to four decimals (halves away from zero), toFloat reads a decimal numeral. -/
def refNum : QtNum where
  F := Ref.Frac
  zero := ⟨0, 1⟩
  toFloat s := match Ref.parseDecimal s with
    | some q => (q, true)
    | none => (⟨0, 1⟩, false)
  number x := Ref.showFixed4 (Ref.round4 x)
  ofInt r := ⟨r, 1⟩
  div x y := ⟨x.num * y.den * (if y.num < 0 then -1 else 1), x.den * y.num.natAbs⟩
  mul x y := ⟨x.num * y.num, x.den * y.den⟩

/-- An exact-arithmetic instance of the conversions that keeps the sign of zero, as
IEEE floats do.  number rounds the magnitude to four decimals (halves away from zero)
and prints a minus sign for every negative float other than zero, also when the digits
round to zero ("-0.0000"); a zero of either sign prints as "0.0000".  toFloat reads a
decimal numeral and keeps its sign, so "-0.0000" is read as negative zero. -/
def signNum : QtNum where
  F := Ref.SFrac
  zero := ⟨false, 0, 1⟩
  toFloat s := match Ref.parseSigned s with
    | some q => (q, true)
    | none => (⟨false, 0, 1⟩, false)
  number x :=
    Ref.showSigned (x.neg && decide (x.num ≠ 0)) ((2 * x.num * 10000 + x.den) / (2 * x.den))
  ofInt r := ⟨decide (r < 0), r.natAbs, 1⟩
  div x y := ⟨xor x.neg y.neg, x.num * y.den, x.den * y.num⟩
  mul x y := ⟨xor x.neg y.neg, x.num * y.num, x.den * y.den⟩

/-! ## The register interpreter (callback registered in `WitMotion::startReading`) -/

/-- The register addresses of REG.h that the callback names.  The header belongs to
the vendor SDK and is not among the sources; its constants are parameters. -/
structure Regs where
  YYMM : Nat
  DDHH : Nat
  MMSS : Nat
  MS : Nat
  AX : Nat
  AZ : Nat
  GX : Nat
  GZ : Nat
  Roll : Nat
  Yaw : Nat
  q0 : Nat
  q3 : Nat

/-- The case labels of the switch are pairwise different (as C++ requires). -/
def Regs.CaseLabelsDistinct (R : Regs) : Prop :=
  [R.MS, R.AZ, R.GZ, R.Yaw, R.q3].Nodup

instance (R : Regs) : Decidable R.CaseLabelsDistinct :=
  inferInstanceAs (Decidable ([R.MS, R.AZ, R.GZ, R.Yaw, R.q3].Nodup))

/-- The conversion "%0<width>d" of printf. -/
def fmtInt (width : Nat) (n : Int) : String :=
  let digits := toString n.natAbs
  if n < 0 then
    "-" ++ String.mk (List.replicate (width - 1 - digits.length) '0') ++ digits
  else
    String.mk (List.replicate (width - digits.length) '0') ++ digits

/-- The text built by QString::asprintf("%02d-%02d-%02dT%02d:%02d:%02d.%03dZ", ...) in
case MS.  On the `int` a register is promoted to, `x & 0xff` is `x % 256` and
`(x & 0xff00) >> 8` is `x / 256 % 256` (floor division). -/
def deviceTimestamp (R : Regs) (sReg : Nat → Int) : String :=
  let YY := sReg R.YYMM % 256
  let Mo := sReg R.YYMM / 256 % 256
  let DD := sReg R.DDHH % 256
  let HH := sReg R.DDHH / 256 % 256
  let Mi := sReg R.MMSS % 256
  let SS := sReg R.MMSS / 256 % 256
  let Ms := sReg R.MS
  fmtInt 2 YY ++ "-" ++ fmtInt 2 Mo ++ "-" ++ fmtInt 2 DD ++ "T" ++ fmtInt 2 HH ++ ":" ++
    fmtInt 2 Mi ++ ":" ++ fmtInt 2 SS ++ "." ++ fmtInt 3 Ms ++ "Z"

/-- The float expression `raw / 32768.0f`. -/
def QtNum.ratio (L : QtNum) (raw : Int) : L.F :=
  L.div (L.ofInt raw) (L.ofInt 32768)

/-- The float expression `raw / 32768.0f * k` for the literal k. -/
def QtNum.scaled (L : QtNum) (raw : Int) (k : Int) : L.F :=
  L.mul (L.ratio raw) (L.ofInt k)

/-- The key QString("acc%1").arg(QChar('X' + j)), and likewise for "gyro%1". -/
def axisKey (stem : String) (j : Nat) : String :=
  stem ++ String.singleton (Char.ofNat ('X'.toNat + j))

/-- The key QStringList{"roll", "pitch", "yaw"}[j]. -/
def angleKey (j : Nat) : String :=
  ["roll", "pitch", "yaw"].getD j ""

/-- The key QString("q%1").arg(axisLabels[j]) with axisLabels = "XYZW". -/
def quatKey (j : Nat) : String :=
  "q" ++ String.singleton ("XYZW".data.getD j ' ')

/-- One pass of the switch in the callback, for the register address uiReg.
sReg is the register bank and now the text of the wall clock
(QDateTime::currentDateTimeUtc().toString(...)). -/
def regCase {L : QtNum} (R : Regs) (sReg : Nat → Int) (now : String) (uiReg : Nat)
    (temp : IMUData L) : IMUData L :=
  if uiReg = R.MS then
    (temp.set "timestamp" (deviceTimestamp R sReg)).set "system_time" now
  else if uiReg = R.AZ then
    (List.range 3).foldl
      (fun t j => t.set (axisKey "acc" j) (L.number (L.scaled (sReg (R.AX + j)) 16))) temp
  else if uiReg = R.GZ then
    (List.range 3).foldl
      (fun t j => t.set (axisKey "gyro" j) (L.number (L.scaled (sReg (R.GX + j)) 2000))) temp
  else if uiReg = R.Yaw then
    (List.range 3).foldl
      (fun t j => t.set (angleKey j) (L.number (L.scaled (sReg (R.Roll + j)) 180))) temp
  else if uiReg = R.q3 then
    (List.range 4).foldl
      (fun t j => t.set (quatKey j) (L.number (L.ratio (sReg (R.q0 + j))))) temp
  else temp

/-- The loop `for (uint32_t i = 0; i < uiRegNum; ++i) { switch (uiReg) ...; uiReg++; }`:
the first argument counts the remaining iterations, uiReg is a uint32_t. -/
def regLoop {L : QtNum} (R : Regs) (sReg : Nat → Int) (now : String) :
    Nat → Nat → IMUData L → IMUData L
  | 0, _, temp => temp
  | n + 1, uiReg, temp =>
    regLoop R sReg now n ((uiReg + 1) % 2 ^ 32) (regCase R sReg now uiReg temp)

/-- The update `temp` the callback builds for the event (uiReg, uiRegNum). -/
def regCallback {L : QtNum} (R : Regs) (sReg : Nat → Int) (now : String)
    (uiReg uiRegNum : Nat) : IMUData L :=
  regLoop R sReg now uiRegNum uiReg IMUData.init

/-- The values uiReg takes at the switch during the loop, in order. -/
def visitedRegs : Nat → Nat → List Nat
  | _, 0 => []
  | uiReg, n + 1 => uiReg :: visitedRegs ((uiReg + 1) % 2 ^ 32) n

/-- A register bank holds int16_t values. -/
def IsInt16Bank (sReg : Nat → Int) : Prop :=
  ∀ i, -32768 ≤ sReg i ∧ sReg i < 32768

/-- Law of the Qt conversions: zero, a float read successfully from text in fixed
notation, and the scaled value of a 16-bit register all print in fixed notation
with four decimals (none of them is an infinity or a NaN). -/
def QtNum.PrintsFixed4 (L : QtNum) : Prop :=
  isFixed4 (L.number L.zero) = true ∧
  (∀ s : String, isFixed4 s = true → (L.toFloat s).2 = true →
    isFixed4 (L.number (L.toFloat s).1) = true) ∧
  (∀ raw : Int, -32768 ≤ raw → raw < 32768 →
    isFixed4 (L.number (L.ratio raw)) = true ∧
    isFixed4 (L.number (L.scaled raw 16)) = true ∧
    isFixed4 (L.number (L.scaled raw 2000)) = true ∧
    isFixed4 (L.number (L.scaled raw 180)) = true)

/-- A text that the conversions keep: toFloat accepts it, and the float read from it
prints as the same text. -/
def QtNum.Stable (L : QtNum) (s : String) : Prop :=
  (L.toFloat s).2 = true ∧ L.number (L.toFloat s).1 = s

/-- Law of the Qt conversions on a float that prints in fixed notation with four
decimals: the text parses back (ok is true), and the float read prints as the same
text, with one exception: "-0.0000", printed for a negative float whose digits round to
zero, is read as negative zero, which prints as "0.0000". -/
def QtNum.Reprints (L : QtNum) : Prop :=
  ∀ x : L.F, isFixed4 (L.number x) = true →
    (L.toFloat (L.number x)).2 = true ∧
    L.number (L.toFloat (L.number x)).1 =
      if L.number x = "-0.0000" then "0.0000" else L.number x

/-! ## The controller `WitMotion` -/

/-- The signals of the class WitMotion. -/
inductive Signal (L : QtNum) where
  | newData (data : IMUData L)
  | finished

/-- The members of the class WitMotion.  The output file and its text stream are
represented by whether the file is open and by the text sent to the stream; mutex_ is
not a member here, each operation below runs as a whole. -/
structure WitMotion (L : QtNum) where
  port_ : String
  baudRate_ : Int
  saveData_ : Bool
  savePath_ : String
  /-- Whether saveFile_.isOpen() holds. -/
  saveFileOpen : Bool
  /-- The text written so far to stream_, which Qt hands to saveFile_ at flush() and
  at the latest when the file is closed: the content of the output file. -/
  saveFileText : String
  fd : Int
  /-- Whether socketNotifier_ is non-null. -/
  socketNotifier_ : Bool
  data_buffer_ : List (IMUData L)
  lastData : IMUData L

/-- What the constructor asks of the file system. -/
structure FileSystem where
  /-- The answer of QFile::exists. -/
  fileExists : String → Bool
  /-- Whether QFile::open(WriteOnly | Text) succeeds on a path. -/
  canOpen : String → Bool

/-- The value an `int` holds after an arithmetic result x (two's complement). -/
def wrapInt32 (x : Int) : Int :=
  (x + 2 ^ 31) % 2 ^ 32 - 2 ^ 31

/-- The name saveDir + QString("/WitMotion_%1.csv").arg(count). -/
def probeName (saveDir : String) (count : Int) : String :=
  saveDir ++ "/WitMotion_" ++ toString count ++ ".csv"

/-- The loop `while (QFile::exists(filename)) filename = ... .arg(count++)` of the
constructor, with a bound on the number of tests of the loop condition; none when
the bound is reached. -/
def probeLoop (fs : FileSystem) (saveDir : String) : Nat → String → Int → Option String
  | 0, _, _ => none
  | fuel + 1, filename, count =>
    if fs.fileExists filename then
      probeLoop fs saveDir fuel (probeName saveDir count) (wrapInt32 (count + 1))
    else some filename

/-- The header row IMUData::fieldOrder().join(','). -/
def headerRow : String :=
  ",".intercalate IMUData.fieldOrder

namespace WitMotion

variable {L : QtNum}

/-- The constructor WitMotion::WitMotion; none when the probing loop has not ended
within fuel tests.  The entry it makes in the static map g_instances is not
represented: nothing in the sources reads that map. -/
def new (fs : FileSystem) (port : String) (baudRate : Int) (saveData : Bool)
    (saveDir : String) (fuel : Nat) : Option (WitMotion L) :=
  match probeLoop fs saveDir fuel (saveDir ++ "/WitMotion_0.csv") 0 with
  | none => none
  | some filename =>
    let w : WitMotion L :=
      { port_ := port
        baudRate_ := baudRate
        saveData_ := saveData
        savePath_ := filename
        saveFileOpen := false
        saveFileText := ""
        fd := -1
        socketNotifier_ := false
        data_buffer_ := []
        lastData := IMUData.init }
    if saveData then
      if fs.canOpen filename then
        some { w with saveFileOpen := true, saveFileText := headerRow ++ "\n" }
      else
        some { w with saveData_ := false }
    else some w

/-- WitMotion::writeDataIfNeeded.  The call stream_.flush() changes none of the members
represented here. -/
def writeDataIfNeeded (w : WitMotion L) (data : IMUData L) : WitMotion L :=
  if w.saveData_ && w.saveFileOpen then
    { w with saveFileText := w.saveFileText ++ data.toCSVRow ++ "\n" }
  else w

/-- WitMotion::processTempData: the new state and the signals emitted. -/
def processTempData (w : WitMotion L) : WitMotion L × List (Signal L) :=
  match w.data_buffer_ with
  | [] => (w, [])
  | temp :: rest =>
    let w1 := { w with data_buffer_ := rest }
    let w2 := { w1 with lastData := w1.lastData.add temp }
    if w2.lastData.full then
      let w3 := w2.writeDataIfNeeded w2.lastData
      ({ w3 with lastData := w3.lastData.clear }, [Signal.newData w2.lastData])
    else (w2, [])

/-- The end of the callback: data_buffer_.push_back(temp). -/
def pushUpdate (w : WitMotion L) (temp : IMUData L) : WitMotion L :=
  { w with data_buffer_ := w.data_buffer_ ++ [temp] }

/-- The callback run for the event (uiReg, uiRegNum) with this object as owner. -/
def onRegisterUpdate (w : WitMotion L) (R : Regs) (sReg : Nat → Int) (now : String)
    (uiReg uiRegNum : Nat) : WitMotion L :=
  w.pushUpdate (regCallback R sReg now uiReg uiRegNum)

end WitMotion

/-- A step of the pipeline: the callback pushes an update, or processTempData runs. -/
inductive Op (L : QtNum) where
  | push (u : IMUData L)
  | drain

namespace WitMotion

variable {L : QtNum}

/-- The effect of one step. -/
def step (w : WitMotion L) : Op L → WitMotion L × List (Signal L)
  | Op.push u => (w.pushUpdate u, [])
  | Op.drain => w.processTempData

/-- The effect of a sequence of steps: the final state and all signals, in order. -/
def run : List (Op L) → WitMotion L → WitMotion L × List (Signal L)
  | [], w => (w, [])
  | op :: ops, w =>
    ((run ops (w.step op).1).1, (w.step op).2 ++ (run ops (w.step op).1).2)

/-- The samples carried by the newData signals of a list of signals. -/
def samples : List (Signal L) → List (IMUData L)
  | [] => []
  | Signal.newData d :: sigs => d :: samples sigs
  | Signal.finished :: sigs => samples sigs

end WitMotion

/-- The last update of a list in which the key is present. -/
def lastWith {L : QtNum} (key : String) (us : List (IMUData L)) : Option (IMUData L) :=
  us.reverse.find? fun u => decide (key ∈ u.validFields)

/-- An update is one the callback can build from an int16 register bank. -/
def IsDecoded {L : QtNum} (u : IMUData L) : Prop :=
  ∃ (R : Regs) (sReg : Nat → Int) (now : String) (uiReg uiRegNum : Nat),
    IsInt16Bank sReg ∧ u = regCallback R sReg now uiReg uiRegNum

/-- Every numeric field of a record is reported in fixed notation with four decimals. -/
def IMUData.NumericFixed4 {L : QtNum} (d : IMUData L) : Prop :=
  ∀ k ∈ IMUData.fieldOrder, k ≠ "system_time" → k ≠ "timestamp" →
    isFixed4 (d.getAsString k) = true

/-- Every numeric field present in a record reports a text that the conversions keep. -/
def IMUData.StableFields {L : QtNum} (d : IMUData L) : Prop :=
  ∀ k ∈ IMUData.fieldOrder, k ≠ "system_time" → k ≠ "timestamp" → k ∈ d.validFields →
    L.Stable (d.getAsString k)

/-- The keys the switch writes when it is entered with the register address a. -/
def regKeys (R : Regs) (a : Nat) : List String :=
  if a = R.MS then ["timestamp", "system_time"]
  else if a = R.AZ then ["accX", "accY", "accZ"]
  else if a = R.GZ then ["gyroX", "gyroY", "gyroZ"]
  else if a = R.Yaw then ["roll", "pitch", "yaw"]
  else if a = R.q3 then ["qX", "qY", "qZ", "qW"]
  else []

/-- The text of a file made of the given lines, each ended by a newline. -/
def linesText : List String → String
  | [] => ""
  | l :: ls => l ++ "\n" ++ linesText ls

/-! ## Lifecycle: startReading and stop -/

namespace WitMotion

variable {L : QtNum}

/-- WitMotion::startReading, after the registration of the callback: openResult is the
value serial_open returns. -/
def startReading (w : WitMotion L) (openResult : Int) : WitMotion L × List (Signal L) :=
  let w1 := { w with fd := openResult }
  if w1.fd < 0 then (w1, [Signal.finished])
  else ({ w1 with socketNotifier_ := true }, [])

/-- WitMotion::stop. -/
def stop (w : WitMotion L) : WitMotion L × List (Signal L) :=
  let w1 := if w.socketNotifier_ then { w with socketNotifier_ := false } else w
  let w2 := if 0 ≤ w1.fd then { w1 with fd := -1 } else w1
  (w2, [Signal.finished])

end WitMotion

/-- A step of the controller: startReading (with the result of serial_open), a run of
the readiness handler that ends with the callback pushing the given updates,
processTempData, or stop. -/
inductive LifeOp (L : QtNum) where
  | start (openResult : Int)
  | ready (us : List (IMUData L))
  | drain
  | stop

namespace WitMotion

variable {L : QtNum}

/-- The effect of one step of the controller.  The readiness handler is connected to
socketNotifier_, so it runs only while the notifier exists. -/
def lifeStep (w : WitMotion L) : LifeOp L → WitMotion L × List (Signal L)
  | LifeOp.start openResult => w.startReading openResult
  | LifeOp.ready us =>
    if w.socketNotifier_ then (us.foldl pushUpdate w, []) else (w, [])
  | LifeOp.drain => w.processTempData
  | LifeOp.stop => w.stop

/-- The effect of a sequence of steps of the controller. -/
def lifeRun : List (LifeOp L) → WitMotion L → WitMotion L × List (Signal L)
  | [], w => (w, [])
  | op :: ops, w =>
    ((lifeRun ops (w.lifeStep op).1).1,
      (w.lifeStep op).2 ++ (lifeRun ops (w.lifeStep op).1).2)

end WitMotion

/-! ## The pipeline as a fold -/

/-- The updates pushed by a sequence of steps, in push order. -/
def pushedUpdates {L : QtNum} : List (Op L) → List (IMUData L)
  | [] => []
  | Op.push u :: ops => u :: pushedUpdates ops
  | Op.drain :: ops => pushedUpdates ops

/-- The fold of merge-then-drain-if-complete over a list of updates: the final
accumulator and the Completed Samples produced, in order. -/
def foldMergeDrain {L : QtNum} : List (IMUData L) → IMUData L → IMUData L × List (IMUData L)
  | [], acc => (acc, [])
  | u :: us, acc =>
    if (acc.add u).full then
      ((foldMergeDrain us (acc.add u).clear).1,
        acc.add u :: (foldMergeDrain us (acc.add u).clear).2)
    else foldMergeDrain us (acc.add u)

/-! ## The protocol decoder -/

/-- Modelled from the spec: the frame layout of the vendor protocol.  The decoder
library (thirdparty/witmotion/wit_c_sdk, not among the sources) fixes it and the spec
names its parts only: frame header (synchronization), declared packet type, payload
length, checksum, and the register range (base address and values) a valid frame
carries.  Bytes are natural numbers. -/
structure FrameFormat where
  /-- The number of bytes of a frame, header and checksum byte included. -/
  frameLength : Nat
  /-- Whether a byte is a frame header. -/
  isHeader : Nat → Bool
  /-- Whether the checksum byte of a complete frame matches its other bytes. -/
  checksumOk : List Nat → Bool
  /-- The base address of the registers a frame updates. -/
  baseAddress : List Nat → Nat
  /-- The register values a frame carries. -/
  values : List Nat → List Int

/-- Modelled from the spec: the state of the decoder of the vendor library
(thirdparty/witmotion/wit_c_sdk, not among the sources): the bytes of the frame in
progress and the register bank sReg. -/
structure Decoder where
  pending : List Nat
  sReg : Nat → Int

/-- The register bank after the values are written from address base on. -/
def writeRegs (sReg : Nat → Int) (base : Nat) (values : List Int) : Nat → Int :=
  fun i => if base ≤ i ∧ i < base + values.length then values.getD (i - base) 0 else sReg i

/-- Modelled from the spec: WitSerialDataIn of the vendor library
(thirdparty/witmotion/wit_c_sdk, not among the sources), one byte at a time.  A byte
that is no frame header while no frame is in progress is discarded (framing failure).
A byte that completes a valid frame updates the register bank and yields one
RegisterUpdateEvent (base address, count).  On checksum failure the frame in progress
is discarded without an event, and the decoder waits for the next frame header. -/
def Decoder.feed (F : FrameFormat) (d : Decoder) (byte : Nat) : Decoder × Option (Nat × Nat) :=
  if d.pending = [] ∧ F.isHeader byte = false then (d, none)
  else if (d.pending ++ [byte]).length < F.frameLength then
    ({ d with pending := d.pending ++ [byte] }, none)
  else if F.checksumOk (d.pending ++ [byte]) = true then
    ({ pending := []
       sReg := writeRegs d.sReg (F.baseAddress (d.pending ++ [byte]))
         (F.values (d.pending ++ [byte])) },
      some (F.baseAddress (d.pending ++ [byte]), (F.values (d.pending ++ [byte])).length))
  else ({ d with pending := [] }, none)

/-- WitMotion::handleSerialData on the bytes serial_read_data delivers: each byte goes
to the decoder, and each event of the decoder runs the callback with this object as
owner. -/
def WitMotion.handleSerialData {L : QtNum} (F : FrameFormat) (R : Regs) (now : String) :
    List Nat → WitMotion L → Decoder → WitMotion L × Decoder
  | [], w, d => (w, d)
  | c :: cs, w, d =>
    match (d.feed F c).2 with
    | some ev =>
      WitMotion.handleSerialData F R now cs
        (w.onRegisterUpdate R (d.feed F c).1.sReg now ev.1 ev.2) (d.feed F c).1
    | none => WitMotion.handleSerialData F R now cs w (d.feed F c).1

/-- Modelled from the spec: the decoder of the vendor library
(thirdparty/witmotion/wit_c_sdk, not among the sources) fed a sequence of bytes: the
final state and the RegisterUpdateEvents emitted, in order. -/
def Decoder.feedAll (F : FrameFormat) : List Nat → Decoder → Decoder × List (Nat × Nat)
  | [], d => (d, [])
  | c :: cs, d =>
    ((Decoder.feedAll F cs (d.feed F c).1).1,
      (d.feed F c).2.toList ++ (Decoder.feedAll F cs (d.feed F c).1).2)

/-! ## Example data -/

/-- Example register addresses: those of the vendor's REG.h. -/
def sdkRegs : Regs where
  YYMM := 0x30
  DDHH := 0x31
  MMSS := 0x32
  MS := 0x33
  AX := 0x34
  AZ := 0x36
  GX := 0x37
  GZ := 0x39
  Roll := 0x3d
  Yaw := 0x3f
  q0 := 0x51
  q3 := 0x54

/-- An update of the exact-arithmetic instance in which only accX is present (1.5). -/
def exampleUpdate : IMUData refNum :=
  { (IMUData.init : IMUData refNum) with accX := ⟨3, 2⟩, validFields := {"accX"} }

/-- An accumulator of the exact-arithmetic instance that already holds accX = 7. -/
def exampleAccumulator : IMUData refNum :=
  { (IMUData.init : IMUData refNum) with accX := ⟨7, 1⟩, validFields := {"accX", "qW"} }

/-- An update of the exact-arithmetic instance in which all 15 fields are present. -/
def exampleFull : IMUData refNum :=
  { system_time := "2025-01-01T00:00:00.000Z"
    timestamp := "25-01-01T00:00:00.000Z"
    accX := ⟨8, 1⟩
    accY := ⟨0, 1⟩
    accZ := ⟨1, 1⟩
    gyroX := ⟨0, 1⟩
    gyroY := ⟨0, 1⟩
    gyroZ := ⟨0, 1⟩
    roll := ⟨90, 1⟩
    pitch := ⟨0, 1⟩
    yaw := ⟨0, 1⟩
    qX := ⟨1, 1⟩
    qY := ⟨0, 1⟩
    qZ := ⟨0, 1⟩
    qW := ⟨0, 1⟩
    validFields := IMUData.fieldOrder.toFinset }

/-- A controller with an empty accumulator, persistence on and the file open, and the
given updates queued. -/
def exampleController (queue : List (IMUData refNum)) : WitMotion refNum :=
  { port_ := "/dev/ttyUSB0"
    baudRate_ := 115200
    saveData_ := true
    savePath_ := "rec/WitMotion_0.csv"
    saveFileOpen := true
    saveFileText := headerRow ++ "\n"
    fd := 3
    socketNotifier_ := true
    data_buffer_ := queue
    lastData := IMUData.init }

/-- A register bank in which every register holds 16384. -/
def exampleBank : Nat → Int :=
  fun _ => 16384

/-- The update the callback builds, with the SDK addresses, for an event that covers
the registers 0x30 to 0x54 of the example bank: all 15 fields are present. -/
def exampleDecoded : IMUData refNum :=
  regCallback sdkRegs exampleBank "2025-01-01T00:00:00.000Z" 0x30 0x25

/-- A directory in which WitMotion_0.csv and WitMotion_1.csv exist and every file can
be opened for writing. -/
def exampleFileSystem : FileSystem where
  fileExists p := decide (p = "rec/WitMotion_0.csv") || decide (p = "rec/WitMotion_1.csv")
  canOpen _ := true

/-- The same directory when no file can be opened for writing. -/
def exampleReadOnlyFileSystem : FileSystem where
  fileExists p := decide (p = "rec/WitMotion_0.csv") || decide (p = "rec/WitMotion_1.csv")
  canOpen _ := false

/-- The controller the constructor builds in exampleFileSystem with saveData = true. -/
def exampleConstructed : WitMotion refNum :=
  { port_ := "/dev/ttyUSB0"
    baudRate_ := 115200
    saveData_ := true
    savePath_ := "rec/WitMotion_2.csv"
    saveFileOpen := true
    saveFileText := headerRow ++ "\n"
    fd := -1
    socketNotifier_ := false
    data_buffer_ := []
    lastData := IMUData.init }

/-- The controller the constructor builds in exampleReadOnlyFileSystem with
saveData = true. -/
def exampleDecodeOnly : WitMotion refNum :=
  { port_ := "/dev/ttyUSB0"
    baudRate_ := 115200
    saveData_ := false
    savePath_ := "rec/WitMotion_2.csv"
    saveFileOpen := false
    saveFileText := ""
    fd := -1
    socketNotifier_ := false
    data_buffer_ := []
    lastData := IMUData.init }

/-- An update of the sign-keeping instance, built through set, whose qX is -0.00003. -/
def exampleTinyNegative : IMUData signNum :=
  (IMUData.init : IMUData signNum).set "qX" "-0.00003"

/-- The update the callback builds in the sign-keeping instance, with the SDK addresses,
for an event that covers the registers 0x30 to 0x54 of the example bank. -/
def signDecoded : IMUData signNum :=
  regCallback sdkRegs exampleBank "2025-01-01T00:00:00.000Z" 0x30 0x25

/-- A register bank in which every register holds 8192. -/
def exampleHalfBank : Nat → Int :=
  fun _ => 8192

/-- The update the callback builds in the sign-keeping instance for an event that covers
the acceleration registers 0x34 to 0x36 of the bank holding 8192. -/
def signDecodedAcc : IMUData signNum :=
  regCallback sdkRegs exampleHalfBank "2025-01-01T00:00:00.000Z" 0x34 3

/-- An update of the sign-keeping instance with all 15 fields present and qX = -0.00003. -/
def exampleFullTiny : IMUData signNum :=
  signDecoded.set "qX" "-0.00003"

/-- A register bank in which every register holds -1. -/
def exampleMinusOneBank : Nat → Int :=
  fun _ => -1

/-- The update the callback builds in the sign-keeping instance for an event that covers
the quaternion registers 0x51 to 0x54 of the bank holding -1. -/
def signDecodedMinusOne : IMUData signNum :=
  regCallback sdkRegs exampleMinusOneBank "2025-01-01T00:00:00.000Z" 0x51 4

/-- A controller of the sign-keeping instance with an empty accumulator, persistence off,
and the given updates queued. -/
def signController (queue : List (IMUData signNum)) : WitMotion signNum :=
  { port_ := "/dev/ttyUSB0"
    baudRate_ := 115200
    saveData_ := false
    savePath_ := "rec/WitMotion_0.csv"
    saveFileOpen := false
    saveFileText := ""
    fd := 3
    socketNotifier_ := true
    data_buffer_ := queue
    lastData := IMUData.init }

/-- The int16_t made of a low and a high byte. -/
def exampleInt16 (lo hi : Nat) : Int :=
  if lo + 256 * hi < 32768 then (lo + 256 * hi : Nat) else ((lo + 256 * hi : Nat) : Int) - 65536

/-- An example frame layout: 11 bytes, header 0x55, a type byte, four little-endian
16-bit values, and the sum of the first ten bytes modulo 256 as checksum; the type
byte 0x50 + g selects the registers from 0x30 + 4 g on. -/
def exampleFormat : FrameFormat where
  frameLength := 11
  isHeader b := decide (b = 0x55)
  checksumOk fr := decide ((fr.take 10).sum % 256 = fr.getD 10 0)
  baseAddress fr := 0x30 + 4 * (fr.getD 1 0 - 0x50)
  values fr :=
    [exampleInt16 (fr.getD 2 0) (fr.getD 3 0), exampleInt16 (fr.getD 4 0) (fr.getD 5 0),
     exampleInt16 (fr.getD 6 0) (fr.getD 7 0), exampleInt16 (fr.getD 8 0) (fr.getD 9 0)]

/-- A decoder with no frame in progress and all registers zero. -/
def exampleDecoder : Decoder where
  pending := []
  sReg := fun _ => 0

/-- An acceleration frame of exampleFormat (first value 16384) with a valid checksum. -/
def exampleGoodFrame : List Nat :=
  [0x55, 0x51, 0x00, 0x40, 0, 0, 0, 0, 0, 0, 0xE6]

/-- The same frame with its checksum byte corrupted. -/
def exampleBadFrame : List Nat :=
  [0x55, 0x51, 0x00, 0x40, 0, 0, 0, 0, 0, 0, 0x00]

/-! ## Lemmas on set / getAsString / add -/

namespace IMUData

variable {L : QtNum}

theorem mem_fieldOrder_iff (k : String) :
    k ∈ fieldOrder ↔
      k = "system_time" ∨ k = "timestamp" ∨ k = "accX" ∨ k = "accY" ∨ k = "accZ" ∨
      k = "gyroX" ∨ k = "gyroY" ∨ k = "gyroZ" ∨ k = "roll" ∨ k = "pitch" ∨ k = "yaw" ∨
      k = "qX" ∨ k = "qY" ∨ k = "qZ" ∨ k = "qW" := by
  simp [fieldOrder]

theorem fieldOrder_nodup : fieldOrder.Nodup := by decide

theorem fieldOrder_length : fieldOrder.length = 15 := rfl

theorem set_validFields (d : IMUData L) (key value : String) :
    (d.set key value).validFields = insert key d.validFields := by
  unfold set
  simp only [apply_ite IMUData.validFields, ite_self]

theorem set_system_time_ne (d : IMUData L) (key value : String) (h : key ≠ "system_time") :
    (d.set key value).system_time = d.system_time := by
  unfold set
  simp only [apply_ite IMUData.system_time, if_neg h, ite_self]

theorem set_timestamp_ne (d : IMUData L) (key value : String) (h : key ≠ "timestamp") :
    (d.set key value).timestamp = d.timestamp := by
  unfold set
  simp only [apply_ite IMUData.timestamp, if_neg h, ite_self]

theorem set_accX_ne (d : IMUData L) (key value : String) (h : key ≠ "accX") :
    (d.set key value).accX = d.accX := by
  unfold set
  simp only [apply_ite IMUData.accX, if_neg h, ite_self]

theorem set_accY_ne (d : IMUData L) (key value : String) (h : key ≠ "accY") :
    (d.set key value).accY = d.accY := by
  unfold set
  simp only [apply_ite IMUData.accY, if_neg h, ite_self]

theorem set_accZ_ne (d : IMUData L) (key value : String) (h : key ≠ "accZ") :
    (d.set key value).accZ = d.accZ := by
  unfold set
  simp only [apply_ite IMUData.accZ, if_neg h, ite_self]

theorem set_gyroX_ne (d : IMUData L) (key value : String) (h : key ≠ "gyroX") :
    (d.set key value).gyroX = d.gyroX := by
  unfold set
  simp only [apply_ite IMUData.gyroX, if_neg h, ite_self]

theorem set_gyroY_ne (d : IMUData L) (key value : String) (h : key ≠ "gyroY") :
    (d.set key value).gyroY = d.gyroY := by
  unfold set
  simp only [apply_ite IMUData.gyroY, if_neg h, ite_self]

theorem set_gyroZ_ne (d : IMUData L) (key value : String) (h : key ≠ "gyroZ") :
    (d.set key value).gyroZ = d.gyroZ := by
  unfold set
  simp only [apply_ite IMUData.gyroZ, if_neg h, ite_self]

theorem set_roll_ne (d : IMUData L) (key value : String) (h : key ≠ "roll") :
    (d.set key value).roll = d.roll := by
  unfold set
  simp only [apply_ite IMUData.roll, if_neg h, ite_self]

theorem set_pitch_ne (d : IMUData L) (key value : String) (h : key ≠ "pitch") :
    (d.set key value).pitch = d.pitch := by
  unfold set
  simp only [apply_ite IMUData.pitch, if_neg h, ite_self]

theorem set_yaw_ne (d : IMUData L) (key value : String) (h : key ≠ "yaw") :
    (d.set key value).yaw = d.yaw := by
  unfold set
  simp only [apply_ite IMUData.yaw, if_neg h, ite_self]

theorem set_qX_ne (d : IMUData L) (key value : String) (h : key ≠ "qX") :
    (d.set key value).qX = d.qX := by
  unfold set
  simp only [apply_ite IMUData.qX, if_neg h, ite_self]

theorem set_qY_ne (d : IMUData L) (key value : String) (h : key ≠ "qY") :
    (d.set key value).qY = d.qY := by
  unfold set
  simp only [apply_ite IMUData.qY, if_neg h, ite_self]

theorem set_qZ_ne (d : IMUData L) (key value : String) (h : key ≠ "qZ") :
    (d.set key value).qZ = d.qZ := by
  unfold set
  simp only [apply_ite IMUData.qZ, if_neg h, ite_self]

theorem set_qW_ne (d : IMUData L) (key value : String) (h : key ≠ "qW") :
    (d.set key value).qW = d.qW := by
  unfold set
  simp only [apply_ite IMUData.qW, if_neg h, ite_self]

theorem getAsString_system_time (d : IMUData L) : d.getAsString "system_time" = d.system_time := by
  simp [getAsString]

theorem getAsString_timestamp (d : IMUData L) : d.getAsString "timestamp" = d.timestamp := by
  simp [getAsString]

theorem getAsString_accX (d : IMUData L) : d.getAsString "accX" = L.number d.accX := by
  simp [getAsString]

theorem getAsString_accY (d : IMUData L) : d.getAsString "accY" = L.number d.accY := by
  simp [getAsString]

theorem getAsString_accZ (d : IMUData L) : d.getAsString "accZ" = L.number d.accZ := by
  simp [getAsString]

theorem getAsString_gyroX (d : IMUData L) : d.getAsString "gyroX" = L.number d.gyroX := by
  simp [getAsString]

theorem getAsString_gyroY (d : IMUData L) : d.getAsString "gyroY" = L.number d.gyroY := by
  simp [getAsString]

theorem getAsString_gyroZ (d : IMUData L) : d.getAsString "gyroZ" = L.number d.gyroZ := by
  simp [getAsString]

theorem getAsString_roll (d : IMUData L) : d.getAsString "roll" = L.number d.roll := by
  simp [getAsString]

theorem getAsString_pitch (d : IMUData L) : d.getAsString "pitch" = L.number d.pitch := by
  simp [getAsString]

theorem getAsString_yaw (d : IMUData L) : d.getAsString "yaw" = L.number d.yaw := by
  simp [getAsString]

theorem getAsString_qX (d : IMUData L) : d.getAsString "qX" = L.number d.qX := by
  simp [getAsString]

theorem getAsString_qY (d : IMUData L) : d.getAsString "qY" = L.number d.qY := by
  simp [getAsString]

theorem getAsString_qZ (d : IMUData L) : d.getAsString "qZ" = L.number d.qZ := by
  simp [getAsString]

theorem getAsString_qW (d : IMUData L) : d.getAsString "qW" = L.number d.qW := by
  simp [getAsString]

theorem getAsString_of_not_mem (d : IMUData L) (k : String) (h : k ∉ fieldOrder) :
    d.getAsString k = "" := by
  simp only [mem_fieldOrder_iff, not_or] at h
  obtain ⟨h1, h2, h3, h4, h5, h6, h7, h8, h9, h10, h11, h12, h13, h14, h15⟩ := h
  unfold getAsString
  rw [if_neg h1, if_neg h2, if_neg h3, if_neg h4, if_neg h5, if_neg h6, if_neg h7, if_neg h8,
    if_neg h9, if_neg h10, if_neg h11, if_neg h12, if_neg h13, if_neg h14, if_neg h15]

/-- Writing one key leaves what getAsString reports for every other key unchanged. -/
theorem set_getAsString_ne (d : IMUData L) (key value k : String) (h : k ≠ key) :
    (d.set key value).getAsString k = d.getAsString k := by
  have h1 : key ≠ k := Ne.symm h
  by_cases hk : k ∈ fieldOrder
  · rw [mem_fieldOrder_iff] at hk
    rcases hk with e | e | e | e | e | e | e | e | e | e | e | e | e | e | e <;> subst e
    · rw [getAsString_system_time, getAsString_system_time, set_system_time_ne _ _ _ h1]
    · rw [getAsString_timestamp, getAsString_timestamp, set_timestamp_ne _ _ _ h1]
    · rw [getAsString_accX, getAsString_accX, set_accX_ne _ _ _ h1]
    · rw [getAsString_accY, getAsString_accY, set_accY_ne _ _ _ h1]
    · rw [getAsString_accZ, getAsString_accZ, set_accZ_ne _ _ _ h1]
    · rw [getAsString_gyroX, getAsString_gyroX, set_gyroX_ne _ _ _ h1]
    · rw [getAsString_gyroY, getAsString_gyroY, set_gyroY_ne _ _ _ h1]
    · rw [getAsString_gyroZ, getAsString_gyroZ, set_gyroZ_ne _ _ _ h1]
    · rw [getAsString_roll, getAsString_roll, set_roll_ne _ _ _ h1]
    · rw [getAsString_pitch, getAsString_pitch, set_pitch_ne _ _ _ h1]
    · rw [getAsString_yaw, getAsString_yaw, set_yaw_ne _ _ _ h1]
    · rw [getAsString_qX, getAsString_qX, set_qX_ne _ _ _ h1]
    · rw [getAsString_qY, getAsString_qY, set_qY_ne _ _ _ h1]
    · rw [getAsString_qZ, getAsString_qZ, set_qZ_ne _ _ _ h1]
    · rw [getAsString_qW, getAsString_qW, set_qW_ne _ _ _ h1]
  · rw [getAsString_of_not_mem _ _ hk, getAsString_of_not_mem _ _ hk]

theorem addKeys_getAsString_of_not_mem (other : IMUData L) (keys : List String)
    (d : IMUData L) (k : String) (hk : k ∉ keys) :
    (addKeys other keys d).getAsString k = d.getAsString k := by
  induction keys generalizing d with
  | nil => rfl
  | cons key keys ih =>
    have hne : k ≠ key := fun e => hk (e ▸ List.mem_cons_self _ _)
    have hrest : k ∉ keys := fun m => hk (List.mem_cons_of_mem _ m)
    rw [addKeys, ih _ hrest]
    split_ifs
    · exact set_getAsString_ne d key _ k hne
    · rfl

theorem addKeys_getAsString_of_not_valid (other : IMUData L) (keys : List String)
    (d : IMUData L) (k : String) (hk : k ∉ other.validFields) :
    (addKeys other keys d).getAsString k = d.getAsString k := by
  induction keys generalizing d with
  | nil => rfl
  | cons key keys ih =>
    rw [addKeys, ih]
    split_ifs with hkey
    · exact set_getAsString_ne d key _ k (fun e => hk (e ▸ hkey))
    · rfl

theorem addKeys_validFields (other : IMUData L) (keys : List String) (d : IMUData L) :
    (addKeys other keys d).validFields =
      d.validFields ∪ (keys.toFinset ∩ other.validFields) := by
  induction keys generalizing d with
  | nil => simp [addKeys]
  | cons key keys ih =>
    rw [addKeys, ih]
    split_ifs with hkey
    · rw [set_validFields]
      ext x
      simp only [Finset.mem_union, Finset.mem_insert, Finset.mem_inter, List.mem_toFinset,
        List.mem_cons]
      constructor
      · rintro ((rfl | h) | ⟨h1, h2⟩)
        · exact Or.inr ⟨Or.inl rfl, hkey⟩
        · exact Or.inl h
        · exact Or.inr ⟨Or.inr h1, h2⟩
      · rintro (h | ⟨rfl | h1, h2⟩)
        · exact Or.inl (Or.inr h)
        · exact Or.inl (Or.inl rfl)
        · exact Or.inr ⟨h1, h2⟩
    · ext x
      simp only [Finset.mem_union, Finset.mem_inter, List.mem_toFinset, List.mem_cons]
      constructor
      · rintro (h | ⟨h1, h2⟩)
        · exact Or.inl h
        · exact Or.inr ⟨Or.inr h1, h2⟩
      · rintro (h | ⟨rfl | h1, h2⟩)
        · exact Or.inl h
        · exact absurd h2 hkey
        · exact Or.inr ⟨h1, h2⟩

/-- What add does to the present set: the canonical keys present in the update are added. -/
theorem add_validFields (d other : IMUData L) :
    (d.add other).validFields =
      d.validFields ∪ (fieldOrder.toFinset ∩ other.validFields) :=
  addKeys_validFields other fieldOrder d

/-- After add, a key absent from the update reports what it reported before. -/
theorem add_getAsString_of_not_valid (d other : IMUData L) (k : String)
    (hv : k ∉ other.validFields) :
    (d.add other).getAsString k = d.getAsString k :=
  addKeys_getAsString_of_not_valid other fieldOrder d k hv

theorem mem_add_validFields (d other : IMUData L) (k : String) :
    k ∈ (d.add other).validFields ↔
      k ∈ d.validFields ∨ (k ∈ fieldOrder ∧ k ∈ other.validFields) := by
  rw [add_validFields]
  simp

theorem full_iff (d : IMUData L) : d.full = true ↔ ∀ k ∈ fieldOrder, k ∈ d.validFields := by
  simp [full]

end IMUData

/-! ## Lemmas on processTempData and on sequences of merges -/

namespace WitMotion

variable {L : QtNum}

theorem processTempData_nil (w : WitMotion L) (hq : w.data_buffer_ = []) :
    w.processTempData = (w, []) := by
  unfold processTempData
  rw [hq]

theorem processTempData_full (w : WitMotion L) (temp : IMUData L) (rest : List (IMUData L))
    (hq : w.data_buffer_ = temp :: rest) (hfull : (w.lastData.add temp).full = true) :
    w.processTempData =
      ({ (writeDataIfNeeded { w with data_buffer_ := rest, lastData := w.lastData.add temp }
            (w.lastData.add temp)) with lastData := IMUData.init },
        [Signal.newData (w.lastData.add temp)]) := by
  unfold processTempData
  rw [hq]
  simp only [hfull, if_true]
  unfold writeDataIfNeeded
  split_ifs <;> rfl

theorem processTempData_not_full (w : WitMotion L) (temp : IMUData L)
    (rest : List (IMUData L)) (hq : w.data_buffer_ = temp :: rest)
    (hfull : (w.lastData.add temp).full = false) :
    w.processTempData =
      ({ w with data_buffer_ := rest, lastData := w.lastData.add temp }, []) := by
  unfold processTempData
  rw [hq]
  simp only [hfull, Bool.false_eq_true, if_false]

theorem writeDataIfNeeded_lastData (w : WitMotion L) (d : IMUData L) :
    (w.writeDataIfNeeded d).lastData = w.lastData ∧
      (w.writeDataIfNeeded d).data_buffer_ = w.data_buffer_ := by
  unfold writeDataIfNeeded
  split_ifs <;> exact ⟨rfl, rfl⟩

/-- Steps that emit nothing only merge: the accumulator is the fold of add over the
updates popped. -/
theorem run_drain_quiet (us : List (IMUData L)) (rest : List (IMUData L)) (w : WitMotion L)
    (hq : w.data_buffer_ = us ++ rest)
    (hquiet : (run (List.replicate us.length Op.drain) w).2 = []) :
    (run (List.replicate us.length Op.drain) w).1.lastData = us.foldl IMUData.add w.lastData ∧
      (run (List.replicate us.length Op.drain) w).1.data_buffer_ = rest := by
  induction us generalizing w with
  | nil => exact ⟨rfl, hq⟩
  | cons u us ih =>
    simp only [List.length_cons, List.replicate_succ, run, step, List.append_eq_nil] at hquiet ⊢
    rw [List.cons_append] at hq
    cases hf : (w.lastData.add u).full with
    | true =>
      rw [processTempData_full w u _ hq hf] at hquiet
      exact absurd hquiet.1 (by simp)
    | false =>
      rw [processTempData_not_full w u _ hq hf] at hquiet ⊢
      exact ih _ rfl hquiet.2

/-- The sample emitted by the step that pops un, after steps that popped us and emitted
nothing, is the fold of add over us and un, and it is complete. -/
theorem emitted_after_quiet (w : WitMotion L) (us : List (IMUData L)) (un s : IMUData L)
    (hq : w.data_buffer_ = us ++ [un])
    (hquiet : (run (List.replicate us.length Op.drain) w).2 = [])
    (hemit : (run (List.replicate us.length Op.drain) w).1.processTempData.2 =
      [Signal.newData s]) :
    s = (us ++ [un]).foldl IMUData.add w.lastData ∧ s.full = true := by
  obtain ⟨hacc, hbuf⟩ := run_drain_quiet us [un] w hq hquiet
  cases hf : ((run (List.replicate us.length Op.drain) w).1.lastData.add un).full with
  | true =>
    rw [processTempData_full _ un [] hbuf hf] at hemit
    simp only [List.cons.injEq, Signal.newData.injEq, and_true] at hemit
    rw [← hemit, hacc, List.foldl_append, List.foldl_cons, List.foldl_nil]
    rw [hacc] at hf
    exact ⟨rfl, hf⟩
  | false =>
    rw [processTempData_not_full _ un [] hbuf hf] at hemit
    exact absurd hemit (by simp)

end WitMotion

theorem lastWith_append_singleton {L : QtNum} (k : String) (us : List (IMUData L))
    (u : IMUData L) :
    lastWith k (us ++ [u]) = if k ∈ u.validFields then some u else lastWith k us := by
  unfold lastWith
  rw [List.reverse_append, List.reverse_singleton, List.singleton_append, List.find?_cons]
  by_cases h : k ∈ u.validFields <;> simp [h]

theorem foldl_add_validFields {L : QtNum} (k : String) (us : List (IMUData L))
    (d : IMUData L) (h : k ∈ (us.foldl IMUData.add d).validFields) :
    k ∈ d.validFields ∨ (lastWith k us).isSome = true := by
  induction us using List.reverseRecOn with
  | nil => exact Or.inl h
  | append_singleton us u ih =>
    rw [List.foldl_append, List.foldl_cons, List.foldl_nil, IMUData.mem_add_validFields] at h
    rw [lastWith_append_singleton]
    by_cases hu : k ∈ u.validFields
    · right; rw [if_pos hu]; rfl
    · rw [if_neg hu]
      rcases h with h | h
      · exact ih h
      · exact absurd h.2 hu

/-! ## Lemmas on the register interpreter -/

section Interpreter

variable {L : QtNum}

theorem regCase_MS (R : Regs) (sReg : Nat → Int) (now : String) (temp : IMUData L) :
    regCase R sReg now R.MS temp =
      (temp.set "timestamp" (deviceTimestamp R sReg)).set "system_time" now := by
  unfold regCase
  rw [if_pos rfl]

theorem regCase_AZ (R : Regs) (sReg : Nat → Int) (now : String) (temp : IMUData L)
    (h1 : R.AZ ≠ R.MS) :
    regCase R sReg now R.AZ temp =
      ((temp.set "accX" (L.number (L.scaled (sReg (R.AX + 0)) 16))).set "accY"
        (L.number (L.scaled (sReg (R.AX + 1)) 16))).set "accZ"
        (L.number (L.scaled (sReg (R.AX + 2)) 16)) := by
  unfold regCase
  rw [if_neg h1, if_pos rfl]
  rfl

theorem regCase_GZ (R : Regs) (sReg : Nat → Int) (now : String) (temp : IMUData L)
    (h1 : R.GZ ≠ R.MS) (h2 : R.GZ ≠ R.AZ) :
    regCase R sReg now R.GZ temp =
      ((temp.set "gyroX" (L.number (L.scaled (sReg (R.GX + 0)) 2000))).set "gyroY"
        (L.number (L.scaled (sReg (R.GX + 1)) 2000))).set "gyroZ"
        (L.number (L.scaled (sReg (R.GX + 2)) 2000)) := by
  unfold regCase
  rw [if_neg h1, if_neg h2, if_pos rfl]
  rfl

theorem regCase_Yaw (R : Regs) (sReg : Nat → Int) (now : String) (temp : IMUData L)
    (h1 : R.Yaw ≠ R.MS) (h2 : R.Yaw ≠ R.AZ) (h3 : R.Yaw ≠ R.GZ) :
    regCase R sReg now R.Yaw temp =
      ((temp.set "roll" (L.number (L.scaled (sReg (R.Roll + 0)) 180))).set "pitch"
        (L.number (L.scaled (sReg (R.Roll + 1)) 180))).set "yaw"
        (L.number (L.scaled (sReg (R.Roll + 2)) 180)) := by
  unfold regCase
  rw [if_neg h1, if_neg h2, if_neg h3, if_pos rfl]
  rfl

theorem regCase_q3 (R : Regs) (sReg : Nat → Int) (now : String) (temp : IMUData L)
    (h1 : R.q3 ≠ R.MS) (h2 : R.q3 ≠ R.AZ) (h3 : R.q3 ≠ R.GZ) (h4 : R.q3 ≠ R.Yaw) :
    regCase R sReg now R.q3 temp =
      (((temp.set "qX" (L.number (L.ratio (sReg (R.q0 + 0))))).set "qY"
        (L.number (L.ratio (sReg (R.q0 + 1))))).set "qZ"
        (L.number (L.ratio (sReg (R.q0 + 2))))).set "qW"
        (L.number (L.ratio (sReg (R.q0 + 3)))) := by
  unfold regCase
  rw [if_neg h1, if_neg h2, if_neg h3, if_neg h4, if_pos rfl]
  rfl

theorem regCase_default (R : Regs) (sReg : Nat → Int) (now : String) (uiReg : Nat)
    (temp : IMUData L) (h1 : uiReg ≠ R.MS) (h2 : uiReg ≠ R.AZ) (h3 : uiReg ≠ R.GZ)
    (h4 : uiReg ≠ R.Yaw) (h5 : uiReg ≠ R.q3) :
    regCase R sReg now uiReg temp = temp := by
  unfold regCase
  rw [if_neg h1, if_neg h2, if_neg h3, if_neg h4, if_neg h5]

theorem Regs.CaseLabelsDistinct.ne (R : Regs) (h : R.CaseLabelsDistinct) :
    R.MS ≠ R.AZ ∧ R.MS ≠ R.GZ ∧ R.MS ≠ R.Yaw ∧ R.MS ≠ R.q3 ∧ R.AZ ≠ R.GZ ∧ R.AZ ≠ R.Yaw ∧
      R.AZ ≠ R.q3 ∧ R.GZ ≠ R.Yaw ∧ R.GZ ≠ R.q3 ∧ R.Yaw ≠ R.q3 := by
  unfold Regs.CaseLabelsDistinct at h
  simp only [List.nodup_cons, List.mem_cons, List.mem_singleton, not_or, List.not_mem_nil,
    not_false_eq_true, List.nodup_nil, and_true] at h
  obtain ⟨⟨a1, a2, a3, a4⟩, ⟨b1, b2, b3⟩, ⟨c1, c2⟩, d1⟩ := h
  exact ⟨a1, a2, a3, a4, b1, b2, b3, c1, c2, d1⟩

/-- The loop is the fold of the switch over the addresses visited. -/
theorem regLoop_eq_foldl (R : Regs) (sReg : Nat → Int) (now : String) (n uiReg : Nat)
    (temp : IMUData L) :
    regLoop R sReg now n uiReg temp =
      (visitedRegs uiReg n).foldl (fun t a => regCase R sReg now a t) temp := by
  induction n generalizing uiReg temp with
  | zero => rfl
  | succ n ih =>
    rw [regLoop, visitedRegs, List.foldl_cons, ih]

theorem mem_visitedRegs (a uiReg n : Nat) (hu : uiReg < 2 ^ 32) :
    a ∈ visitedRegs uiReg n ↔ ∃ i, i < n ∧ a = (uiReg + i) % 2 ^ 32 := by
  induction n generalizing uiReg with
  | zero => simp [visitedRegs]
  | succ n ih =>
    rw [visitedRegs, List.mem_cons, ih _ (Nat.mod_lt _ (by norm_num))]
    constructor
    · rintro (h | ⟨i, hi, h⟩)
      · exact ⟨0, Nat.succ_pos n, by omega⟩
      · exact ⟨i + 1, Nat.succ_lt_succ hi, by omega⟩
    · rintro ⟨i, hi, h⟩
      rcases Nat.eq_zero_or_pos i with h0 | h0
      · left; omega
      · right; exact ⟨i - 1, by omega, by omega⟩

/-- Without wrap-around the addresses visited are uiReg, ..., uiReg + n - 1. -/
theorem mem_visitedRegs_of_le (a uiReg n : Nat) (hn : uiReg + n ≤ 2 ^ 32) :
    a ∈ visitedRegs uiReg n ↔ uiReg ≤ a ∧ a < uiReg + n := by
  rcases Nat.eq_zero_or_pos n with h0 | h0
  · subst h0; simp [visitedRegs]
  · rw [mem_visitedRegs a uiReg n (by omega)]
    constructor
    · rintro ⟨i, hi, h⟩
      omega
    · rintro ⟨h1, h2⟩
      exact ⟨a - uiReg, by omega, by omega⟩

end Interpreter

/-! ## Fixed notation is an invariant of the pipeline -/

section Fixed4

variable {L : QtNum}

theorem IMUData.set_getAsString_numeric (d : IMUData L) (k value : String)
    (hk : k ∈ IMUData.fieldOrder) (h1 : k ≠ "system_time") (h2 : k ≠ "timestamp") :
    (d.set k value).getAsString k =
      if (L.toFloat value).2 = true then L.number (L.toFloat value).1
      else d.getAsString k := by
  rw [IMUData.mem_fieldOrder_iff] at hk
  rcases hk with h | h | h | h | h | h | h | h | h | h | h | h | h | h | h <;>
    first
      | exact absurd h h1
      | exact absurd h h2
      | (subst h
         cases hok : (L.toFloat value).2 <;>
           simp [IMUData.set, IMUData.getAsString, hok])

theorem IMUData.init_numericFixed4 (hP : L.PrintsFixed4) :
    (IMUData.init : IMUData L).NumericFixed4 := by
  intro k hk h1 h2
  rw [IMUData.mem_fieldOrder_iff] at hk
  rcases hk with h | h | h | h | h | h | h | h | h | h | h | h | h | h | h <;>
    first
      | exact absurd h h1
      | exact absurd h h2
      | (subst h; simpa [IMUData.getAsString, IMUData.init] using hP.1)

theorem IMUData.set_numericFixed4 (hP : L.PrintsFixed4) (d : IMUData L) (key value : String)
    (hd : d.NumericFixed4)
    (hv : key = "system_time" ∨ key = "timestamp" ∨ isFixed4 value = true) :
    (d.set key value).NumericFixed4 := by
  intro k hk h1 h2
  by_cases e : k = key
  · subst e
    rcases hv with hv | hv | hv
    · exact absurd hv h1
    · exact absurd hv h2
    · rw [IMUData.set_getAsString_numeric d k value hk h1 h2]
      split_ifs with hok
      · exact hP.2.1 value hv hok
      · exact hd k hk h1 h2
  · rw [IMUData.set_getAsString_ne d key value k e]
    exact hd k hk h1 h2

theorem IMUData.addKeys_numericFixed4 (hP : L.PrintsFixed4) (other : IMUData L)
    (ho : other.NumericFixed4) (keys : List String) (hs : ∀ x ∈ keys, x ∈ IMUData.fieldOrder)
    (d : IMUData L) (hd : d.NumericFixed4) :
    (IMUData.addKeys other keys d).NumericFixed4 := by
  induction keys generalizing d with
  | nil => exact hd
  | cons key keys ih =>
    rw [IMUData.addKeys]
    apply ih (fun x hx => hs x (List.mem_cons_of_mem _ hx))
    split_ifs
    · apply IMUData.set_numericFixed4 hP d key _ hd
      by_cases h1 : key = "system_time"
      · exact Or.inl h1
      · by_cases h2 : key = "timestamp"
        · exact Or.inr (Or.inl h2)
        · exact Or.inr (Or.inr (ho key (hs key (List.mem_cons_self _ _)) h1 h2))
    · exact hd

theorem IMUData.add_numericFixed4 (hP : L.PrintsFixed4) (d other : IMUData L)
    (hd : d.NumericFixed4) (ho : other.NumericFixed4) : (d.add other).NumericFixed4 :=
  IMUData.addKeys_numericFixed4 hP other ho IMUData.fieldOrder (fun _ h => h) d hd

theorem regCase_numericFixed4 (hP : L.PrintsFixed4) (R : Regs) (sReg : Nat → Int)
    (hbank : IsInt16Bank sReg) (now : String) (uiReg : Nat) (temp : IMUData L)
    (ht : temp.NumericFixed4) : (regCase R sReg now uiReg temp).NumericFixed4 := by
  have hreg := fun i => hP.2.2 (sReg i) (hbank i).1 (hbank i).2
  by_cases h1 : uiReg = R.MS
  · subst h1
    rw [regCase_MS]
    exact IMUData.set_numericFixed4 hP _ _ _
      (IMUData.set_numericFixed4 hP _ _ _ ht (Or.inr (Or.inl rfl))) (Or.inl rfl)
  by_cases h2 : uiReg = R.AZ
  · subst h2
    rw [regCase_AZ R sReg now temp h1]
    exact IMUData.set_numericFixed4 hP _ _ _
      (IMUData.set_numericFixed4 hP _ _ _
        (IMUData.set_numericFixed4 hP _ _ _ ht (Or.inr (Or.inr (hreg _).2.1)))
        (Or.inr (Or.inr (hreg _).2.1))) (Or.inr (Or.inr (hreg _).2.1))
  by_cases h3 : uiReg = R.GZ
  · subst h3
    rw [regCase_GZ R sReg now temp h1 h2]
    exact IMUData.set_numericFixed4 hP _ _ _
      (IMUData.set_numericFixed4 hP _ _ _
        (IMUData.set_numericFixed4 hP _ _ _ ht (Or.inr (Or.inr (hreg _).2.2.1)))
        (Or.inr (Or.inr (hreg _).2.2.1))) (Or.inr (Or.inr (hreg _).2.2.1))
  by_cases h4 : uiReg = R.Yaw
  · subst h4
    rw [regCase_Yaw R sReg now temp h1 h2 h3]
    exact IMUData.set_numericFixed4 hP _ _ _
      (IMUData.set_numericFixed4 hP _ _ _
        (IMUData.set_numericFixed4 hP _ _ _ ht (Or.inr (Or.inr (hreg _).2.2.2)))
        (Or.inr (Or.inr (hreg _).2.2.2))) (Or.inr (Or.inr (hreg _).2.2.2))
  by_cases h5 : uiReg = R.q3
  · subst h5
    rw [regCase_q3 R sReg now temp h1 h2 h3 h4]
    exact IMUData.set_numericFixed4 hP _ _ _
      (IMUData.set_numericFixed4 hP _ _ _
        (IMUData.set_numericFixed4 hP _ _ _
          (IMUData.set_numericFixed4 hP _ _ _ ht (Or.inr (Or.inr (hreg _).1)))
          (Or.inr (Or.inr (hreg _).1))) (Or.inr (Or.inr (hreg _).1)))
      (Or.inr (Or.inr (hreg _).1))
  rw [regCase_default R sReg now uiReg temp h1 h2 h3 h4 h5]
  exact ht

theorem regLoop_numericFixed4 (hP : L.PrintsFixed4) (R : Regs) (sReg : Nat → Int)
    (hbank : IsInt16Bank sReg) (now : String) (n uiReg : Nat) (temp : IMUData L)
    (ht : temp.NumericFixed4) : (regLoop R sReg now n uiReg temp).NumericFixed4 := by
  induction n generalizing uiReg temp with
  | zero => exact ht
  | succ n ih =>
    rw [regLoop]
    exact ih _ _ (regCase_numericFixed4 hP R sReg hbank now uiReg temp ht)

theorem IsDecoded.numericFixed4 (hP : L.PrintsFixed4) (u : IMUData L) (hu : IsDecoded u) :
    u.NumericFixed4 := by
  obtain ⟨R, sReg, now, uiReg, uiRegNum, hbank, rfl⟩ := hu
  exact regLoop_numericFixed4 hP R sReg hbank now uiRegNum uiReg _
    (IMUData.init_numericFixed4 hP)

theorem WitMotion.samples_append (a b : List (Signal L)) :
    WitMotion.samples (a ++ b) = WitMotion.samples a ++ WitMotion.samples b := by
  induction a with
  | nil => rfl
  | cons x a ih =>
    cases x with
    | newData d => simp [WitMotion.samples, ih]
    | finished => simp [WitMotion.samples, ih]

/-- What processTempData does, in one statement. -/
theorem WitMotion.processTempData_cases (w : WitMotion L) :
    (w.data_buffer_ = [] ∧ w.processTempData = (w, [])) ∨
    (∃ temp rest, w.data_buffer_ = temp :: rest ∧ (w.lastData.add temp).full = true ∧
      w.processTempData.2 = [Signal.newData (w.lastData.add temp)] ∧
      w.processTempData.1.lastData = IMUData.init ∧
      w.processTempData.1.data_buffer_ = rest) ∨
    (∃ temp rest, w.data_buffer_ = temp :: rest ∧ (w.lastData.add temp).full = false ∧
      w.processTempData.2 = [] ∧
      w.processTempData.1.lastData = w.lastData.add temp ∧
      w.processTempData.1.data_buffer_ = rest) := by
  cases hq : w.data_buffer_ with
  | nil => exact Or.inl ⟨rfl, WitMotion.processTempData_nil w hq⟩
  | cons temp rest =>
    cases hf : (w.lastData.add temp).full with
    | true =>
      refine Or.inr (Or.inl ⟨temp, rest, rfl, hf, ?_⟩)
      rw [WitMotion.processTempData_full w temp rest hq hf]
      exact ⟨rfl, rfl, (WitMotion.writeDataIfNeeded_lastData _ _).2⟩
    | false =>
      refine Or.inr (Or.inr ⟨temp, rest, rfl, hf, ?_⟩)
      rw [WitMotion.processTempData_not_full w temp rest hq hf]
      exact ⟨rfl, rfl, rfl⟩

theorem WitMotion.run_samples_fixed4 (hP : L.PrintsFixed4) (ops : List (Op L))
    (w : WitMotion L) (hacc : w.lastData.NumericFixed4)
    (hbuf : ∀ u ∈ w.data_buffer_, u.NumericFixed4)
    (hops : ∀ u, Op.push u ∈ ops → u.NumericFixed4) :
    ∀ s ∈ WitMotion.samples (WitMotion.run ops w).2, s.full = true ∧ s.NumericFixed4 := by
  induction ops generalizing w with
  | nil => intro s hs; cases hs
  | cons op ops ih =>
    have hops1 : ∀ u, Op.push u ∈ ops → u.NumericFixed4 :=
      fun u hu => hops u (List.mem_cons_of_mem _ hu)
    intro s hs
    rw [WitMotion.run, WitMotion.samples_append, List.mem_append] at hs
    cases op with
    | push u =>
      rcases hs with hs | hs
      · cases hs
      · refine ih (w.pushUpdate u) hacc ?_ hops1 s hs
        intro x hx
        rcases List.mem_append.mp hx with hx | hx
        · exact hbuf x hx
        · rw [List.mem_singleton] at hx
          subst hx
          exact hops x (List.mem_cons_self _ _)
    | drain =>
      simp only [WitMotion.step] at hs
      rcases WitMotion.processTempData_cases w with ⟨_, h⟩ | ⟨temp, rest, hq, hf, h1, h2, h3⟩ |
          ⟨temp, rest, hq, hf, h1, h2, h3⟩
      · rw [h] at hs
        rcases hs with hs | hs
        · cases hs
        · exact ih w hacc hbuf hops1 s hs
      · have hmem : ∀ u ∈ rest, u.NumericFixed4 :=
          fun u hu => hbuf u (hq ▸ List.mem_cons_of_mem _ hu)
        have hmerged : (w.lastData.add temp).NumericFixed4 :=
          IMUData.add_numericFixed4 hP _ _ hacc (hbuf temp (hq ▸ List.mem_cons_self _ _))
        rcases hs with hs | hs
        · rw [h1] at hs
          simp only [WitMotion.samples, List.mem_singleton] at hs
          subst hs
          exact ⟨hf, hmerged⟩
        · exact ih _ (h2 ▸ IMUData.init_numericFixed4 hP) (h3 ▸ hmem) hops1 s hs
      · have hmem : ∀ u ∈ rest, u.NumericFixed4 :=
          fun u hu => hbuf u (hq ▸ List.mem_cons_of_mem _ hu)
        have hmerged : (w.lastData.add temp).NumericFixed4 :=
          IMUData.add_numericFixed4 hP _ _ hacc (hbuf temp (hq ▸ List.mem_cons_self _ _))
        rcases hs with hs | hs
        · rw [h1] at hs
          cases hs
        · exact ih _ (h2 ▸ hmerged) (h3 ▸ hmem) hops1 s hs

end Fixed4

/-! ## What the callback writes -/

section Decode

variable {L : QtNum}

theorem foldl_preserve {α β : Type} (f : β → α → β) (P : β → Prop) (l : List α)
    (hpres : ∀ t b, P t → P (f t b)) (init : β) (h : P init) : P (l.foldl f init) := by
  induction l generalizing init with
  | nil => exact h
  | cons x l ih => exact ih _ (hpres _ _ h)

theorem foldl_establish {α β : Type} (f : β → α → β) (P : β → Prop) (a : α)
    (l : List α) (ha : a ∈ l) (hest : ∀ t, P (f t a)) (hpres : ∀ t b, P t → P (f t b))
    (init : β) : P (l.foldl f init) := by
  induction l generalizing init with
  | nil => cases ha
  | cons x l ih =>
    rw [List.foldl_cons]
    rcases List.mem_cons.mp ha with e | hmem
    · subst e
      exact foldl_preserve f P l hpres _ (hest init)
    · exact ih hmem _

theorem regCase_validFields (R : Regs) (sReg : Nat → Int) (now : String) (a : Nat)
    (temp : IMUData L) :
    (regCase R sReg now a temp).validFields = temp.validFields ∪ (regKeys R a).toFinset := by
  unfold regKeys
  by_cases h1 : a = R.MS
  · subst h1
    rw [regCase_MS, if_pos rfl]
    simp only [IMUData.set_validFields]
    ext x; simp; tauto
  by_cases h2 : a = R.AZ
  · subst h2
    rw [regCase_AZ R sReg now temp h1, if_neg h1, if_pos rfl]
    simp only [IMUData.set_validFields]
    ext x; simp; tauto
  by_cases h3 : a = R.GZ
  · subst h3
    rw [regCase_GZ R sReg now temp h1 h2, if_neg h1, if_neg h2, if_pos rfl]
    simp only [IMUData.set_validFields]
    ext x; simp; tauto
  by_cases h4 : a = R.Yaw
  · subst h4
    rw [regCase_Yaw R sReg now temp h1 h2 h3, if_neg h1, if_neg h2, if_neg h3, if_pos rfl]
    simp only [IMUData.set_validFields]
    ext x; simp; tauto
  by_cases h5 : a = R.q3
  · subst h5
    rw [regCase_q3 R sReg now temp h1 h2 h3 h4, if_neg h1, if_neg h2, if_neg h3, if_neg h4,
      if_pos rfl]
    simp only [IMUData.set_validFields]
    ext x; simp; tauto
  rw [regCase_default R sReg now a temp h1 h2 h3 h4 h5, if_neg h1, if_neg h2, if_neg h3,
    if_neg h4, if_neg h5]
  simp

theorem regCase_getAsString_of_not_mem (R : Regs) (sReg : Nat → Int) (now : String) (a : Nat)
    (temp : IMUData L) (k : String) (hk : k ∉ regKeys R a) :
    (regCase R sReg now a temp).getAsString k = temp.getAsString k := by
  unfold regKeys at hk
  by_cases h1 : a = R.MS
  · subst h1
    rw [if_pos rfl] at hk
    simp only [List.mem_cons, List.mem_singleton, not_or, List.not_mem_nil, or_false] at hk
    rw [regCase_MS, IMUData.set_getAsString_ne _ _ _ _ hk.2,
      IMUData.set_getAsString_ne _ _ _ _ hk.1]
  by_cases h2 : a = R.AZ
  · subst h2
    rw [if_neg h1, if_pos rfl] at hk
    simp only [List.mem_cons, List.mem_singleton, not_or, List.not_mem_nil, or_false] at hk
    rw [regCase_AZ R sReg now temp h1, IMUData.set_getAsString_ne _ _ _ _ hk.2.2,
      IMUData.set_getAsString_ne _ _ _ _ hk.2.1, IMUData.set_getAsString_ne _ _ _ _ hk.1]
  by_cases h3 : a = R.GZ
  · subst h3
    rw [if_neg h1, if_neg h2, if_pos rfl] at hk
    simp only [List.mem_cons, List.mem_singleton, not_or, List.not_mem_nil, or_false] at hk
    rw [regCase_GZ R sReg now temp h1 h2, IMUData.set_getAsString_ne _ _ _ _ hk.2.2,
      IMUData.set_getAsString_ne _ _ _ _ hk.2.1, IMUData.set_getAsString_ne _ _ _ _ hk.1]
  by_cases h4 : a = R.Yaw
  · subst h4
    rw [if_neg h1, if_neg h2, if_neg h3, if_pos rfl] at hk
    simp only [List.mem_cons, List.mem_singleton, not_or, List.not_mem_nil, or_false] at hk
    rw [regCase_Yaw R sReg now temp h1 h2 h3, IMUData.set_getAsString_ne _ _ _ _ hk.2.2,
      IMUData.set_getAsString_ne _ _ _ _ hk.2.1, IMUData.set_getAsString_ne _ _ _ _ hk.1]
  by_cases h5 : a = R.q3
  · subst h5
    rw [if_neg h1, if_neg h2, if_neg h3, if_neg h4, if_pos rfl] at hk
    simp only [List.mem_cons, List.mem_singleton, not_or, List.not_mem_nil, or_false] at hk
    rw [regCase_q3 R sReg now temp h1 h2 h3 h4, IMUData.set_getAsString_ne _ _ _ _ hk.2.2.2,
      IMUData.set_getAsString_ne _ _ _ _ hk.2.2.1, IMUData.set_getAsString_ne _ _ _ _ hk.2.1,
      IMUData.set_getAsString_ne _ _ _ _ hk.1]
  rw [regCase_default R sReg now a temp h1 h2 h3 h4 h5]

/-- Writing the text of a float under a numeric key makes the record report the text of
the float read back from it. -/
theorem IMUData.set_number_getAsString (d : IMUData L) (k : String)
    (x : L.F) (hk : k ∈ IMUData.fieldOrder) (h1 : k ≠ "system_time")
    (h2 : k ≠ "timestamp") (hok : (L.toFloat (L.number x)).2 = true) :
    (d.set k (L.number x)).getAsString k = L.number (L.toFloat (L.number x)).1 := by
  rw [IMUData.set_getAsString_numeric d k _ hk h1 h2, if_pos hok]

/-- The text reported for key k is e, unless it is overwritten. -/
theorem regCallback_getAsString (R : Regs) (sReg : Nat → Int) (now : String)
    (uiReg uiRegNum a : Nat) (k e : String)
    (ha : a ∈ visitedRegs uiReg uiRegNum)
    (hest : ∀ t : IMUData L, (regCase R sReg now a t).getAsString k = e)
    (hother : ∀ b, k ∈ regKeys R b → b = a) :
    (regCallback R sReg now uiReg uiRegNum : IMUData L).getAsString k = e := by
  unfold regCallback
  rw [regLoop_eq_foldl]
  refine foldl_establish (fun t a => regCase R sReg now a t)
    (fun t => t.getAsString k = e) a _ ha hest ?_ _
  intro t b ht
  by_cases hb : k ∈ regKeys R b
  · rw [hother b hb]; exact hest t
  · show (regCase R sReg now b t).getAsString k = e
    rw [regCase_getAsString_of_not_mem R sReg now b t k hb]; exact ht

theorem regCallback_validFields (R : Regs) (sReg : Nat → Int) (now : String)
    (uiReg uiRegNum : Nat) (k : String) :
    k ∈ (regCallback R sReg now uiReg uiRegNum : IMUData L).validFields ↔
      ∃ a ∈ visitedRegs uiReg uiRegNum, k ∈ regKeys R a := by
  unfold regCallback
  rw [regLoop_eq_foldl]
  have hgen : ∀ (l : List Nat) (t : IMUData L),
      k ∈ (l.foldl (fun t a => regCase R sReg now a t) t).validFields ↔
        k ∈ t.validFields ∨ ∃ a ∈ l, k ∈ regKeys R a := by
    intro l
    induction l with
    | nil => intro t; simp
    | cons x l ih =>
      intro t
      rw [List.foldl_cons, ih, regCase_validFields]
      simp only [Finset.mem_union, List.mem_toFinset, List.mem_cons, exists_eq_or_imp]
      tauto
  rw [hgen]
  simp [IMUData.init]

theorem mem_regKeys (R : Regs) (hR : R.CaseLabelsDistinct) (a : Nat) (k : String) :
    k ∈ regKeys R a ↔
      (a = R.MS ∧ k ∈ ["timestamp", "system_time"]) ∨
      (a = R.AZ ∧ k ∈ ["accX", "accY", "accZ"]) ∨
      (a = R.GZ ∧ k ∈ ["gyroX", "gyroY", "gyroZ"]) ∨
      (a = R.Yaw ∧ k ∈ ["roll", "pitch", "yaw"]) ∨
      (a = R.q3 ∧ k ∈ ["qX", "qY", "qZ", "qW"]) := by
  obtain ⟨n1, n2, n3, n4, n5, n6, n7, n8, n9, n10⟩ := hR.ne
  unfold regKeys
  by_cases h1 : a = R.MS
  · subst h1
    simp [n1, n2, n3, n4]
  by_cases h2 : a = R.AZ
  · subst h2
    simp [h1, n5, n6, n7]
  by_cases h3 : a = R.GZ
  · subst h3
    simp [h1, h2, n8, n9]
  by_cases h4 : a = R.Yaw
  · subst h4
    simp [h1, h2, h3, n10]
  by_cases h5 : a = R.q3
  · subst h5
    simp [h1, h2, h3, h4]
  simp [h1, h2, h3, h4, h5]

end Decode

section DecodeFields

variable {L : QtNum}

theorem regCallback_accX (R : Regs) (hR : R.CaseLabelsDistinct)
    (sReg : Nat → Int) (now : String) (uiReg uiRegNum : Nat)
    (hv : R.AZ ∈ visitedRegs uiReg uiRegNum)
    (hok : (L.toFloat (L.number (L.scaled (sReg (R.AX + 0)) 16))).2 = true) :
    (regCallback R sReg now uiReg uiRegNum : IMUData L).getAsString "accX" =
      L.number (L.toFloat (L.number (L.scaled (sReg (R.AX + 0)) 16))).1 := by
  obtain ⟨n1, n2, n3, n4, n5, n6, n7, n8, n9, n10⟩ := hR.ne
  refine regCallback_getAsString R sReg now uiReg uiRegNum R.AZ "accX" _ hv ?_ ?_
  · intro t
    rw [regCase_AZ R sReg now t n1.symm, IMUData.set_getAsString_ne _ _ _ _ (by decide), IMUData.set_getAsString_ne _ _ _ _ (by decide)]
    exact IMUData.set_number_getAsString _ _ _ (by decide) (by decide) (by decide) hok
  · intro b hb
    rw [mem_regKeys R hR] at hb
    simpa using hb

theorem regCallback_accY (R : Regs) (hR : R.CaseLabelsDistinct)
    (sReg : Nat → Int) (now : String) (uiReg uiRegNum : Nat)
    (hv : R.AZ ∈ visitedRegs uiReg uiRegNum)
    (hok : (L.toFloat (L.number (L.scaled (sReg (R.AX + 1)) 16))).2 = true) :
    (regCallback R sReg now uiReg uiRegNum : IMUData L).getAsString "accY" =
      L.number (L.toFloat (L.number (L.scaled (sReg (R.AX + 1)) 16))).1 := by
  obtain ⟨n1, n2, n3, n4, n5, n6, n7, n8, n9, n10⟩ := hR.ne
  refine regCallback_getAsString R sReg now uiReg uiRegNum R.AZ "accY" _ hv ?_ ?_
  · intro t
    rw [regCase_AZ R sReg now t n1.symm, IMUData.set_getAsString_ne _ _ _ _ (by decide)]
    exact IMUData.set_number_getAsString _ _ _ (by decide) (by decide) (by decide) hok
  · intro b hb
    rw [mem_regKeys R hR] at hb
    simpa using hb

theorem regCallback_accZ (R : Regs) (hR : R.CaseLabelsDistinct)
    (sReg : Nat → Int) (now : String) (uiReg uiRegNum : Nat)
    (hv : R.AZ ∈ visitedRegs uiReg uiRegNum)
    (hok : (L.toFloat (L.number (L.scaled (sReg (R.AX + 2)) 16))).2 = true) :
    (regCallback R sReg now uiReg uiRegNum : IMUData L).getAsString "accZ" =
      L.number (L.toFloat (L.number (L.scaled (sReg (R.AX + 2)) 16))).1 := by
  obtain ⟨n1, n2, n3, n4, n5, n6, n7, n8, n9, n10⟩ := hR.ne
  refine regCallback_getAsString R sReg now uiReg uiRegNum R.AZ "accZ" _ hv ?_ ?_
  · intro t
    rw [regCase_AZ R sReg now t n1.symm]
    exact IMUData.set_number_getAsString _ _ _ (by decide) (by decide) (by decide) hok
  · intro b hb
    rw [mem_regKeys R hR] at hb
    simpa using hb

theorem regCallback_gyroX (R : Regs) (hR : R.CaseLabelsDistinct)
    (sReg : Nat → Int) (now : String) (uiReg uiRegNum : Nat)
    (hv : R.GZ ∈ visitedRegs uiReg uiRegNum)
    (hok : (L.toFloat (L.number (L.scaled (sReg (R.GX + 0)) 2000))).2 = true) :
    (regCallback R sReg now uiReg uiRegNum : IMUData L).getAsString "gyroX" =
      L.number (L.toFloat (L.number (L.scaled (sReg (R.GX + 0)) 2000))).1 := by
  obtain ⟨n1, n2, n3, n4, n5, n6, n7, n8, n9, n10⟩ := hR.ne
  refine regCallback_getAsString R sReg now uiReg uiRegNum R.GZ "gyroX" _ hv ?_ ?_
  · intro t
    rw [regCase_GZ R sReg now t n2.symm n5.symm, IMUData.set_getAsString_ne _ _ _ _ (by decide), IMUData.set_getAsString_ne _ _ _ _ (by decide)]
    exact IMUData.set_number_getAsString _ _ _ (by decide) (by decide) (by decide) hok
  · intro b hb
    rw [mem_regKeys R hR] at hb
    simpa using hb

theorem regCallback_gyroY (R : Regs) (hR : R.CaseLabelsDistinct)
    (sReg : Nat → Int) (now : String) (uiReg uiRegNum : Nat)
    (hv : R.GZ ∈ visitedRegs uiReg uiRegNum)
    (hok : (L.toFloat (L.number (L.scaled (sReg (R.GX + 1)) 2000))).2 = true) :
    (regCallback R sReg now uiReg uiRegNum : IMUData L).getAsString "gyroY" =
      L.number (L.toFloat (L.number (L.scaled (sReg (R.GX + 1)) 2000))).1 := by
  obtain ⟨n1, n2, n3, n4, n5, n6, n7, n8, n9, n10⟩ := hR.ne
  refine regCallback_getAsString R sReg now uiReg uiRegNum R.GZ "gyroY" _ hv ?_ ?_
  · intro t
    rw [regCase_GZ R sReg now t n2.symm n5.symm, IMUData.set_getAsString_ne _ _ _ _ (by decide)]
    exact IMUData.set_number_getAsString _ _ _ (by decide) (by decide) (by decide) hok
  · intro b hb
    rw [mem_regKeys R hR] at hb
    simpa using hb

theorem regCallback_gyroZ (R : Regs) (hR : R.CaseLabelsDistinct)
    (sReg : Nat → Int) (now : String) (uiReg uiRegNum : Nat)
    (hv : R.GZ ∈ visitedRegs uiReg uiRegNum)
    (hok : (L.toFloat (L.number (L.scaled (sReg (R.GX + 2)) 2000))).2 = true) :
    (regCallback R sReg now uiReg uiRegNum : IMUData L).getAsString "gyroZ" =
      L.number (L.toFloat (L.number (L.scaled (sReg (R.GX + 2)) 2000))).1 := by
  obtain ⟨n1, n2, n3, n4, n5, n6, n7, n8, n9, n10⟩ := hR.ne
  refine regCallback_getAsString R sReg now uiReg uiRegNum R.GZ "gyroZ" _ hv ?_ ?_
  · intro t
    rw [regCase_GZ R sReg now t n2.symm n5.symm]
    exact IMUData.set_number_getAsString _ _ _ (by decide) (by decide) (by decide) hok
  · intro b hb
    rw [mem_regKeys R hR] at hb
    simpa using hb

theorem regCallback_roll (R : Regs) (hR : R.CaseLabelsDistinct)
    (sReg : Nat → Int) (now : String) (uiReg uiRegNum : Nat)
    (hv : R.Yaw ∈ visitedRegs uiReg uiRegNum)
    (hok : (L.toFloat (L.number (L.scaled (sReg (R.Roll + 0)) 180))).2 = true) :
    (regCallback R sReg now uiReg uiRegNum : IMUData L).getAsString "roll" =
      L.number (L.toFloat (L.number (L.scaled (sReg (R.Roll + 0)) 180))).1 := by
  obtain ⟨n1, n2, n3, n4, n5, n6, n7, n8, n9, n10⟩ := hR.ne
  refine regCallback_getAsString R sReg now uiReg uiRegNum R.Yaw "roll" _ hv ?_ ?_
  · intro t
    rw [regCase_Yaw R sReg now t n3.symm n6.symm n8.symm, IMUData.set_getAsString_ne _ _ _ _ (by decide), IMUData.set_getAsString_ne _ _ _ _ (by decide)]
    exact IMUData.set_number_getAsString _ _ _ (by decide) (by decide) (by decide) hok
  · intro b hb
    rw [mem_regKeys R hR] at hb
    simpa using hb

theorem regCallback_pitch (R : Regs) (hR : R.CaseLabelsDistinct)
    (sReg : Nat → Int) (now : String) (uiReg uiRegNum : Nat)
    (hv : R.Yaw ∈ visitedRegs uiReg uiRegNum)
    (hok : (L.toFloat (L.number (L.scaled (sReg (R.Roll + 1)) 180))).2 = true) :
    (regCallback R sReg now uiReg uiRegNum : IMUData L).getAsString "pitch" =
      L.number (L.toFloat (L.number (L.scaled (sReg (R.Roll + 1)) 180))).1 := by
  obtain ⟨n1, n2, n3, n4, n5, n6, n7, n8, n9, n10⟩ := hR.ne
  refine regCallback_getAsString R sReg now uiReg uiRegNum R.Yaw "pitch" _ hv ?_ ?_
  · intro t
    rw [regCase_Yaw R sReg now t n3.symm n6.symm n8.symm, IMUData.set_getAsString_ne _ _ _ _ (by decide)]
    exact IMUData.set_number_getAsString _ _ _ (by decide) (by decide) (by decide) hok
  · intro b hb
    rw [mem_regKeys R hR] at hb
    simpa using hb

theorem regCallback_yaw (R : Regs) (hR : R.CaseLabelsDistinct)
    (sReg : Nat → Int) (now : String) (uiReg uiRegNum : Nat)
    (hv : R.Yaw ∈ visitedRegs uiReg uiRegNum)
    (hok : (L.toFloat (L.number (L.scaled (sReg (R.Roll + 2)) 180))).2 = true) :
    (regCallback R sReg now uiReg uiRegNum : IMUData L).getAsString "yaw" =
      L.number (L.toFloat (L.number (L.scaled (sReg (R.Roll + 2)) 180))).1 := by
  obtain ⟨n1, n2, n3, n4, n5, n6, n7, n8, n9, n10⟩ := hR.ne
  refine regCallback_getAsString R sReg now uiReg uiRegNum R.Yaw "yaw" _ hv ?_ ?_
  · intro t
    rw [regCase_Yaw R sReg now t n3.symm n6.symm n8.symm]
    exact IMUData.set_number_getAsString _ _ _ (by decide) (by decide) (by decide) hok
  · intro b hb
    rw [mem_regKeys R hR] at hb
    simpa using hb

theorem regCallback_qX (R : Regs) (hR : R.CaseLabelsDistinct)
    (sReg : Nat → Int) (now : String) (uiReg uiRegNum : Nat)
    (hv : R.q3 ∈ visitedRegs uiReg uiRegNum)
    (hok : (L.toFloat (L.number (L.ratio (sReg (R.q0 + 0))))).2 = true) :
    (regCallback R sReg now uiReg uiRegNum : IMUData L).getAsString "qX" =
      L.number (L.toFloat (L.number (L.ratio (sReg (R.q0 + 0))))).1 := by
  obtain ⟨n1, n2, n3, n4, n5, n6, n7, n8, n9, n10⟩ := hR.ne
  refine regCallback_getAsString R sReg now uiReg uiRegNum R.q3 "qX" _ hv ?_ ?_
  · intro t
    rw [regCase_q3 R sReg now t n4.symm n7.symm n9.symm n10.symm, IMUData.set_getAsString_ne _ _ _ _ (by decide), IMUData.set_getAsString_ne _ _ _ _ (by decide), IMUData.set_getAsString_ne _ _ _ _ (by decide)]
    exact IMUData.set_number_getAsString _ _ _ (by decide) (by decide) (by decide) hok
  · intro b hb
    rw [mem_regKeys R hR] at hb
    simpa using hb

theorem regCallback_qY (R : Regs) (hR : R.CaseLabelsDistinct)
    (sReg : Nat → Int) (now : String) (uiReg uiRegNum : Nat)
    (hv : R.q3 ∈ visitedRegs uiReg uiRegNum)
    (hok : (L.toFloat (L.number (L.ratio (sReg (R.q0 + 1))))).2 = true) :
    (regCallback R sReg now uiReg uiRegNum : IMUData L).getAsString "qY" =
      L.number (L.toFloat (L.number (L.ratio (sReg (R.q0 + 1))))).1 := by
  obtain ⟨n1, n2, n3, n4, n5, n6, n7, n8, n9, n10⟩ := hR.ne
  refine regCallback_getAsString R sReg now uiReg uiRegNum R.q3 "qY" _ hv ?_ ?_
  · intro t
    rw [regCase_q3 R sReg now t n4.symm n7.symm n9.symm n10.symm, IMUData.set_getAsString_ne _ _ _ _ (by decide), IMUData.set_getAsString_ne _ _ _ _ (by decide)]
    exact IMUData.set_number_getAsString _ _ _ (by decide) (by decide) (by decide) hok
  · intro b hb
    rw [mem_regKeys R hR] at hb
    simpa using hb

theorem regCallback_qZ (R : Regs) (hR : R.CaseLabelsDistinct)
    (sReg : Nat → Int) (now : String) (uiReg uiRegNum : Nat)
    (hv : R.q3 ∈ visitedRegs uiReg uiRegNum)
    (hok : (L.toFloat (L.number (L.ratio (sReg (R.q0 + 2))))).2 = true) :
    (regCallback R sReg now uiReg uiRegNum : IMUData L).getAsString "qZ" =
      L.number (L.toFloat (L.number (L.ratio (sReg (R.q0 + 2))))).1 := by
  obtain ⟨n1, n2, n3, n4, n5, n6, n7, n8, n9, n10⟩ := hR.ne
  refine regCallback_getAsString R sReg now uiReg uiRegNum R.q3 "qZ" _ hv ?_ ?_
  · intro t
    rw [regCase_q3 R sReg now t n4.symm n7.symm n9.symm n10.symm, IMUData.set_getAsString_ne _ _ _ _ (by decide)]
    exact IMUData.set_number_getAsString _ _ _ (by decide) (by decide) (by decide) hok
  · intro b hb
    rw [mem_regKeys R hR] at hb
    simpa using hb

theorem regCallback_qW (R : Regs) (hR : R.CaseLabelsDistinct)
    (sReg : Nat → Int) (now : String) (uiReg uiRegNum : Nat)
    (hv : R.q3 ∈ visitedRegs uiReg uiRegNum)
    (hok : (L.toFloat (L.number (L.ratio (sReg (R.q0 + 3))))).2 = true) :
    (regCallback R sReg now uiReg uiRegNum : IMUData L).getAsString "qW" =
      L.number (L.toFloat (L.number (L.ratio (sReg (R.q0 + 3))))).1 := by
  obtain ⟨n1, n2, n3, n4, n5, n6, n7, n8, n9, n10⟩ := hR.ne
  refine regCallback_getAsString R sReg now uiReg uiRegNum R.q3 "qW" _ hv ?_ ?_
  · intro t
    rw [regCase_q3 R sReg now t n4.symm n7.symm n9.symm n10.symm]
    exact IMUData.set_number_getAsString _ _ _ (by decide) (by decide) (by decide) hok
  · intro b hb
    rw [mem_regKeys R hR] at hb
    simpa using hb

end DecodeFields

/-! ## Texts that read back unchanged -/

section ReadBack

variable {L : QtNum}

theorem IMUData.set_getAsString_time (d : IMUData L) (k value : String)
    (hk : k = "system_time" ∨ k = "timestamp") : (d.set k value).getAsString k = value := by
  rcases hk with h | h <;> subst h <;> simp [IMUData.set, IMUData.getAsString]

/-- What set leaves under a canonical key depends on the record only through the text it
reported for that key. -/
theorem IMUData.set_getAsString_congr (d1 d2 : IMUData L) (k value : String)
    (hk : k ∈ IMUData.fieldOrder) (h : d1.getAsString k = d2.getAsString k) :
    (d1.set k value).getAsString k = (d2.set k value).getAsString k := by
  by_cases h1 : k = "system_time"
  · rw [IMUData.set_getAsString_time _ _ _ (Or.inl h1),
      IMUData.set_getAsString_time _ _ _ (Or.inl h1)]
  by_cases h2 : k = "timestamp"
  · rw [IMUData.set_getAsString_time _ _ _ (Or.inr h2),
      IMUData.set_getAsString_time _ _ _ (Or.inr h2)]
  rw [IMUData.set_getAsString_numeric _ _ _ hk h1 h2,
    IMUData.set_getAsString_numeric _ _ _ hk h1 h2, h]

theorem IMUData.addKeys_getAsString_present (other : IMUData L) (keys : List String)
    (hn : keys.Nodup) (hs : ∀ x ∈ keys, x ∈ IMUData.fieldOrder) (d : IMUData L) (k : String)
    (hk : k ∈ keys) (hv : k ∈ other.validFields) :
    (IMUData.addKeys other keys d).getAsString k =
      (d.set k (other.getAsString k)).getAsString k := by
  induction keys generalizing d with
  | nil => cases hk
  | cons key keys ih =>
    have hkf := hs k hk
    rw [List.nodup_cons] at hn
    rw [IMUData.addKeys]
    rcases List.mem_cons.mp hk with e | hmem
    · subst e
      rw [IMUData.addKeys_getAsString_of_not_mem _ _ _ _ hn.1, if_pos hv]
    · have hne : k ≠ key := fun e => hn.1 (e ▸ hmem)
      rw [ih hn.2 (fun x hx => hs x (List.mem_cons_of_mem _ hx)) _ hmem]
      apply IMUData.set_getAsString_congr _ _ _ _ hkf
      split_ifs
      · exact IMUData.set_getAsString_ne d key _ k hne
      · rfl

/-- After add, a canonical key present in the update reports what it reports after
set(key, other.getAsString(key)). -/
theorem IMUData.add_getAsString_present (d other : IMUData L) (k : String)
    (hk : k ∈ IMUData.fieldOrder) (hv : k ∈ other.validFields) :
    (d.add other).getAsString k = (d.set k (other.getAsString k)).getAsString k :=
  IMUData.addKeys_getAsString_present other IMUData.fieldOrder IMUData.fieldOrder_nodup
    (fun _ h => h) d k hk hv

/-- Writing, under a time key or under a numeric key, a text that the conversions keep
makes the record report that text. -/
theorem IMUData.set_getAsString_of_stable (d : IMUData L) (k value : String)
    (hk : k ∈ IMUData.fieldOrder)
    (hst : k = "system_time" ∨ k = "timestamp" ∨ L.Stable value) :
    (d.set k value).getAsString k = value := by
  by_cases h1 : k = "system_time"
  · exact IMUData.set_getAsString_time _ _ _ (Or.inl h1)
  by_cases h2 : k = "timestamp"
  · exact IMUData.set_getAsString_time _ _ _ (Or.inr h2)
  rcases hst with h | h | h
  · exact absurd h h1
  · exact absurd h h2
  · rw [IMUData.set_getAsString_numeric _ _ _ hk h1 h2, if_pos h.1, h.2]

/-- Under the law, writing under a numeric key the text of a float that prints in fixed
notation makes the record report that text, or "0.0000" when the text is "-0.0000". -/
theorem IMUData.set_getAsString_reprints (hL : L.Reprints) (d : IMUData L) (k : String)
    (x : L.F) (hk : k ∈ IMUData.fieldOrder) (h1 : k ≠ "system_time") (h2 : k ≠ "timestamp")
    (hx : isFixed4 (L.number x) = true) :
    (d.set k (L.number x)).getAsString k =
      if L.number x = "-0.0000" then "0.0000" else L.number x := by
  rw [IMUData.set_getAsString_numeric _ _ _ hk h1 h2, if_pos (hL x hx).1, (hL x hx).2]

/-- After add, a time key present in the update reports the update's text, and so does a
numeric key whose text the conversions keep. -/
theorem IMUData.add_getAsString_of_stable (d other : IMUData L) (k : String)
    (hk : k ∈ IMUData.fieldOrder) (hv : k ∈ other.validFields)
    (hst : k = "system_time" ∨ k = "timestamp" ∨ L.Stable (other.getAsString k)) :
    (d.add other).getAsString k = other.getAsString k := by
  rw [IMUData.add_getAsString_present d other k hk hv]
  exact IMUData.set_getAsString_of_stable _ _ _ hk hst

theorem IMUData.StableFields.key (u : IMUData L) (hu : u.StableFields) (k : String)
    (hk : k ∈ IMUData.fieldOrder) (hv : k ∈ u.validFields) :
    k = "system_time" ∨ k = "timestamp" ∨ L.Stable (u.getAsString k) := by
  by_cases h1 : k = "system_time"
  · exact Or.inl h1
  by_cases h2 : k = "timestamp"
  · exact Or.inr (Or.inl h2)
  exact Or.inr (Or.inr (hu k hk h1 h2 hv))

/-- The text a numeric key reports is the text of a float. -/
theorem IMUData.getAsString_numeric_eq (d : IMUData L) (k : String)
    (hk : k ∈ IMUData.fieldOrder) (h1 : k ≠ "system_time") (h2 : k ≠ "timestamp") :
    ∃ x : L.F, d.getAsString k = L.number x := by
  rw [IMUData.mem_fieldOrder_iff] at hk
  rcases hk with h | h | h | h | h | h | h | h | h | h | h | h | h | h | h
  · exact absurd h h1
  · exact absurd h h2
  · subst h; exact ⟨_, IMUData.getAsString_accX d⟩
  · subst h; exact ⟨_, IMUData.getAsString_accY d⟩
  · subst h; exact ⟨_, IMUData.getAsString_accZ d⟩
  · subst h; exact ⟨_, IMUData.getAsString_gyroX d⟩
  · subst h; exact ⟨_, IMUData.getAsString_gyroY d⟩
  · subst h; exact ⟨_, IMUData.getAsString_gyroZ d⟩
  · subst h; exact ⟨_, IMUData.getAsString_roll d⟩
  · subst h; exact ⟨_, IMUData.getAsString_pitch d⟩
  · subst h; exact ⟨_, IMUData.getAsString_yaw d⟩
  · subst h; exact ⟨_, IMUData.getAsString_qX d⟩
  · subst h; exact ⟨_, IMUData.getAsString_qY d⟩
  · subst h; exact ⟨_, IMUData.getAsString_qZ d⟩
  · subst h; exact ⟨_, IMUData.getAsString_qW d⟩

/-- What a sequence of merges reports for a canonical key: what set(key, text) leaves,
for the text of the last update in which the key is present; or the text held before
when there is none. -/
theorem foldl_add_getAsString (k : String) (hk : k ∈ IMUData.fieldOrder)
    (us : List (IMUData L)) (d : IMUData L) :
    match lastWith k us with
    | some u => ∃ d1 : IMUData L,
        (us.foldl IMUData.add d).getAsString k = (d1.set k (u.getAsString k)).getAsString k
    | none => (us.foldl IMUData.add d).getAsString k = d.getAsString k := by
  induction us using List.reverseRecOn with
  | nil => rfl
  | append_singleton us u ih =>
    rw [List.foldl_append, List.foldl_cons, List.foldl_nil, lastWith_append_singleton]
    by_cases h : k ∈ u.validFields
    · rw [if_pos h]
      exact ⟨_, IMUData.add_getAsString_present _ u k hk h⟩
    · rw [if_neg h, IMUData.add_getAsString_of_not_valid _ u k h]
      exact ih

/-- Merging updates in which a key is absent does not change what is reported for it. -/
theorem foldl_add_getAsString_absent (k : String) (vs : List (IMUData L))
    (hvs : ∀ v ∈ vs, k ∉ v.validFields) (d : IMUData L) :
    (vs.foldl IMUData.add d).getAsString k = d.getAsString k := by
  induction vs generalizing d with
  | nil => rfl
  | cons v vs ih =>
    rw [List.foldl_cons, ih (fun x hx => hvs x (List.mem_cons_of_mem _ hx)),
      IMUData.add_getAsString_of_not_valid _ v k (hvs v (List.mem_cons_self _ _))]

/-- Under the law, the text of a float that was read back from printed text is kept. -/
theorem QtNum.Reprints.stable (hL : L.Reprints) (x : L.F)
    (hx : isFixed4 (L.number x) = true) :
    L.Stable (L.number (L.toFloat (L.number x)).1) := by
  have h := hL x hx
  have hy : L.number (L.toFloat (L.number x)).1 ≠ "-0.0000" ∧
      isFixed4 (L.number (L.toFloat (L.number x)).1) = true := by
    rw [h.2]
    split_ifs with hz
    · exact ⟨by decide, by decide⟩
    · exact ⟨hz, hx⟩
  have h2 := hL (L.toFloat (L.number x)).1 hy.2
  rw [if_neg hy.1] at h2
  exact h2

theorem IMUData.init_stableFields : (IMUData.init : IMUData L).StableFields := by
  intro k _ _ _ hv
  exact absurd hv (Finset.not_mem_empty k)

theorem IMUData.set_stableFields (d : IMUData L) (key value : String) (hd : d.StableFields)
    (hv : key = "system_time" ∨ key = "timestamp" ∨
      ((L.toFloat value).2 = true ∧ L.Stable (L.number (L.toFloat value).1))) :
    (d.set key value).StableFields := by
  intro k hk h1 h2 hmem
  by_cases e : k = key
  · subst e
    rcases hv with hv | hv | hv
    · exact absurd hv h1
    · exact absurd hv h2
    · rw [IMUData.set_getAsString_numeric d k value hk h1 h2, if_pos hv.1]
      exact hv.2
  · rw [IMUData.set_getAsString_ne d key value k e]
    rw [IMUData.set_validFields, Finset.mem_insert] at hmem
    exact hd k hk h1 h2 (hmem.resolve_left e)

theorem IMUData.set_number_stableFields (hL : L.Reprints) (d : IMUData L) (key : String)
    (x : L.F) (hd : d.StableFields) (hx : isFixed4 (L.number x) = true) :
    (d.set key (L.number x)).StableFields :=
  IMUData.set_stableFields d key _ hd (Or.inr (Or.inr ⟨(hL x hx).1, hL.stable x hx⟩))

theorem regCase_stableFields (hL : L.Reprints) (hP : L.PrintsFixed4) (R : Regs)
    (sReg : Nat → Int) (hbank : IsInt16Bank sReg) (now : String) (uiReg : Nat)
    (temp : IMUData L) (ht : temp.StableFields) :
    (regCase R sReg now uiReg temp).StableFields := by
  have hreg := fun i => hP.2.2 (sReg i) (hbank i).1 (hbank i).2
  by_cases h1 : uiReg = R.MS
  · subst h1
    rw [regCase_MS]
    exact IMUData.set_stableFields _ _ _
      (IMUData.set_stableFields _ _ _ ht (Or.inr (Or.inl rfl))) (Or.inl rfl)
  by_cases h2 : uiReg = R.AZ
  · subst h2
    rw [regCase_AZ R sReg now temp h1]
    exact IMUData.set_number_stableFields hL _ _ _
      (IMUData.set_number_stableFields hL _ _ _
        (IMUData.set_number_stableFields hL _ _ _ ht (hreg _).2.1)
        (hreg _).2.1) (hreg _).2.1
  by_cases h3 : uiReg = R.GZ
  · subst h3
    rw [regCase_GZ R sReg now temp h1 h2]
    exact IMUData.set_number_stableFields hL _ _ _
      (IMUData.set_number_stableFields hL _ _ _
        (IMUData.set_number_stableFields hL _ _ _ ht (hreg _).2.2.1)
        (hreg _).2.2.1) (hreg _).2.2.1
  by_cases h4 : uiReg = R.Yaw
  · subst h4
    rw [regCase_Yaw R sReg now temp h1 h2 h3]
    exact IMUData.set_number_stableFields hL _ _ _
      (IMUData.set_number_stableFields hL _ _ _
        (IMUData.set_number_stableFields hL _ _ _ ht (hreg _).2.2.2)
        (hreg _).2.2.2) (hreg _).2.2.2
  by_cases h5 : uiReg = R.q3
  · subst h5
    rw [regCase_q3 R sReg now temp h1 h2 h3 h4]
    exact IMUData.set_number_stableFields hL _ _ _
      (IMUData.set_number_stableFields hL _ _ _
        (IMUData.set_number_stableFields hL _ _ _
          (IMUData.set_number_stableFields hL _ _ _ ht (hreg _).1)
          (hreg _).1) (hreg _).1)
      (hreg _).1
  rw [regCase_default R sReg now uiReg temp h1 h2 h3 h4 h5]
  exact ht

theorem regLoop_stableFields (hL : L.Reprints) (hP : L.PrintsFixed4) (R : Regs)
    (sReg : Nat → Int) (hbank : IsInt16Bank sReg) (now : String) (n uiReg : Nat)
    (temp : IMUData L) (ht : temp.StableFields) :
    (regLoop R sReg now n uiReg temp).StableFields := by
  induction n generalizing uiReg temp with
  | zero => exact ht
  | succ n ih =>
    rw [regLoop]
    exact ih _ _ (regCase_stableFields hL hP R sReg hbank now uiReg temp ht)

/-- Every numeric text of an update built by the callback is kept by the conversions. -/
theorem IsDecoded.stableFields (hL : L.Reprints) (hP : L.PrintsFixed4) (u : IMUData L)
    (hu : IsDecoded u) : u.StableFields := by
  obtain ⟨R, sReg, now, uiReg, uiRegNum, hbank, rfl⟩ := hu
  exact regLoop_stableFields hL hP R sReg hbank now uiRegNum uiReg _
    IMUData.init_stableFields

/-- The texts the callback's update reports for the four numeric groups, under the laws
of the conversions: the text printed for the scaled register, with "-0.0000" reported
as "0.0000". -/
theorem regCallback_scale_text (hL : L.Reprints) (hP : L.PrintsFixed4) (R : Regs)
    (hR : R.CaseLabelsDistinct) (sReg : Nat → Int) (hbank : IsInt16Bank sReg) (now : String)
    (uiReg uiRegNum : Nat) :
    (R.AZ ∈ visitedRegs uiReg uiRegNum → ∀ j, j < 3 →
      (regCallback R sReg now uiReg uiRegNum : IMUData L).getAsString
          (["accX", "accY", "accZ"].getD j "") =
        if L.number (L.scaled (sReg (R.AX + j)) 16) = "-0.0000" then "0.0000"
        else L.number (L.scaled (sReg (R.AX + j)) 16)) ∧
    (R.GZ ∈ visitedRegs uiReg uiRegNum → ∀ j, j < 3 →
      (regCallback R sReg now uiReg uiRegNum : IMUData L).getAsString
          (["gyroX", "gyroY", "gyroZ"].getD j "") =
        if L.number (L.scaled (sReg (R.GX + j)) 2000) = "-0.0000" then "0.0000"
        else L.number (L.scaled (sReg (R.GX + j)) 2000)) ∧
    (R.Yaw ∈ visitedRegs uiReg uiRegNum → ∀ j, j < 3 →
      (regCallback R sReg now uiReg uiRegNum : IMUData L).getAsString
          (["roll", "pitch", "yaw"].getD j "") =
        if L.number (L.scaled (sReg (R.Roll + j)) 180) = "-0.0000" then "0.0000"
        else L.number (L.scaled (sReg (R.Roll + j)) 180)) ∧
    (R.q3 ∈ visitedRegs uiReg uiRegNum → ∀ j, j < 4 →
      (regCallback R sReg now uiReg uiRegNum : IMUData L).getAsString
          (["qX", "qY", "qZ", "qW"].getD j "") =
        if L.number (L.ratio (sReg (R.q0 + j))) = "-0.0000" then "0.0000"
        else L.number (L.ratio (sReg (R.q0 + j)))) := by
  have hreg := fun i => hP.2.2 (sReg i) (hbank i).1 (hbank i).2
  refine ⟨?_, ?_, ?_, ?_⟩
  · intro hv j hj
    interval_cases j
    · exact (regCallback_accX R hR sReg now uiReg uiRegNum hv (hL _ (hreg _).2.1).1).trans
        (hL _ (hreg _).2.1).2
    · exact (regCallback_accY R hR sReg now uiReg uiRegNum hv (hL _ (hreg _).2.1).1).trans
        (hL _ (hreg _).2.1).2
    · exact (regCallback_accZ R hR sReg now uiReg uiRegNum hv (hL _ (hreg _).2.1).1).trans
        (hL _ (hreg _).2.1).2
  · intro hv j hj
    interval_cases j
    · exact (regCallback_gyroX R hR sReg now uiReg uiRegNum hv (hL _ (hreg _).2.2.1).1).trans
        (hL _ (hreg _).2.2.1).2
    · exact (regCallback_gyroY R hR sReg now uiReg uiRegNum hv (hL _ (hreg _).2.2.1).1).trans
        (hL _ (hreg _).2.2.1).2
    · exact (regCallback_gyroZ R hR sReg now uiReg uiRegNum hv (hL _ (hreg _).2.2.1).1).trans
        (hL _ (hreg _).2.2.1).2
  · intro hv j hj
    interval_cases j
    · exact (regCallback_roll R hR sReg now uiReg uiRegNum hv (hL _ (hreg _).2.2.2).1).trans
        (hL _ (hreg _).2.2.2).2
    · exact (regCallback_pitch R hR sReg now uiReg uiRegNum hv (hL _ (hreg _).2.2.2).1).trans
        (hL _ (hreg _).2.2.2).2
    · exact (regCallback_yaw R hR sReg now uiReg uiRegNum hv (hL _ (hreg _).2.2.2).1).trans
        (hL _ (hreg _).2.2.2).2
  · intro hv j hj
    interval_cases j
    · exact (regCallback_qX R hR sReg now uiReg uiRegNum hv (hL _ (hreg _).1).1).trans
        (hL _ (hreg _).1).2
    · exact (regCallback_qY R hR sReg now uiReg uiRegNum hv (hL _ (hreg _).1).1).trans
        (hL _ (hreg _).1).2
    · exact (regCallback_qZ R hR sReg now uiReg uiRegNum hv (hL _ (hreg _).1).1).trans
        (hL _ (hreg _).1).2
    · exact (regCallback_qW R hR sReg now uiReg uiRegNum hv (hL _ (hreg _).1).1).trans
        (hL _ (hreg _).1).2

/-- What becomes of a field present in the popped update u whose text the conversions
keep: the merged accumulator reports u's text; and when the updates vs queued behind u
do not hold the field, are merged by steps that emit nothing until the last one, and
the last step emits the sample s, then s reports u's text. -/
theorem WitMotion.merge_keeps_text (w : WitMotion L) (u : IMUData L)
    (vs : List (IMUData L)) (hq : w.data_buffer_ = u :: vs) (k : String)
    (hk : k ∈ IMUData.fieldOrder) (hv : k ∈ u.validFields)
    (hst : k = "system_time" ∨ k = "timestamp" ∨ L.Stable (u.getAsString k)) :
    (w.lastData.add u).getAsString k = u.getAsString k ∧
      ∀ s : IMUData L, (∀ v ∈ vs, k ∉ v.validFields) →
        (WitMotion.run (List.replicate vs.length Op.drain) w).2 = [] →
        (WitMotion.run (List.replicate vs.length Op.drain) w).1.processTempData.2 =
          [Signal.newData s] →
        s.getAsString k = u.getAsString k := by
  have h := IMUData.add_getAsString_of_stable w.lastData u k hk hv hst
  refine ⟨h, ?_⟩
  intro s hvs hquiet hemit
  have hne : u :: vs ≠ [] := List.cons_ne_nil u vs
  have hsplit : (u :: vs).dropLast ++ [(u :: vs).getLast hne] = u :: vs :=
    List.dropLast_append_getLast hne
  have hlen : (u :: vs).dropLast.length = vs.length := by
    rw [List.length_dropLast, List.length_cons, Nat.add_sub_cancel]
  have hq1 : w.data_buffer_ = (u :: vs).dropLast ++ [(u :: vs).getLast hne] := by
    rw [hsplit]; exact hq
  rw [← hlen] at hquiet hemit
  have hs := (WitMotion.emitted_after_quiet w _ _ s hq1 hquiet hemit).1
  rw [hsplit, List.foldl_cons] at hs
  rw [hs, foldl_add_getAsString_absent k vs hvs, h]

end ReadBack

/-! ## The output file and the constructor -/

section Persistence

variable {L : QtNum}

theorem headerRow_eq :
    headerRow =
      "system_time,timestamp,accX,accY,accZ,gyroX,gyroY,gyroZ,roll,pitch,yaw,qX,qY,qZ,qW" := by
  decide

/-- What processTempData does to the members of the output file. -/
theorem WitMotion.processTempData_file (w : WitMotion L) :
    w.processTempData.1.saveData_ = w.saveData_ ∧
      w.processTempData.1.saveFileOpen = w.saveFileOpen ∧
      w.processTempData.1.savePath_ = w.savePath_ ∧
      w.processTempData.1.saveFileText =
        if (w.saveData_ && w.saveFileOpen) = true then
          w.saveFileText ++
            linesText ((WitMotion.samples w.processTempData.2).map IMUData.toCSVRow)
        else w.saveFileText := by
  have happ : ∀ t : String, t ++ linesText [] = t := fun t => String.append_empty t
  cases hq : w.data_buffer_ with
  | nil =>
    rw [WitMotion.processTempData_nil w hq]
    simp only [WitMotion.samples, List.map_nil, happ, ite_self, and_self]
  | cons temp rest =>
    cases hf : (w.lastData.add temp).full with
    | true =>
      rw [WitMotion.processTempData_full w temp rest hq hf]
      unfold WitMotion.writeDataIfNeeded
      by_cases hc : (w.saveData_ && w.saveFileOpen) = true
      · simp only [if_pos hc, WitMotion.samples, List.map_cons, List.map_nil, linesText,
          String.append_empty, String.append_assoc, and_self]
      · simp only [if_neg hc, and_self]
    | false =>
      rw [WitMotion.processTempData_not_full w temp rest hq hf]
      simp only [WitMotion.samples, List.map_nil, happ, ite_self, and_self]

theorem linesText_append (a b : List String) :
    linesText (a ++ b) = linesText a ++ linesText b := by
  induction a with
  | nil => exact (String.empty_append _).symm
  | cons x a ih =>
    show x ++ "\n" ++ linesText (a ++ b) = (x ++ "\n" ++ linesText a) ++ linesText b
    rw [ih]
    simp only [String.append_assoc]

theorem WitMotion.step_file (w : WitMotion L) (op : Op L) :
    (w.step op).1.saveData_ = w.saveData_ ∧
      (w.step op).1.saveFileOpen = w.saveFileOpen ∧
      (w.step op).1.savePath_ = w.savePath_ ∧
      (w.step op).1.saveFileText =
        if (w.saveData_ && w.saveFileOpen) = true then
          w.saveFileText ++
            linesText ((WitMotion.samples (w.step op).2).map IMUData.toCSVRow)
        else w.saveFileText := by
  cases op with
  | push u =>
    simp only [WitMotion.step, WitMotion.pushUpdate, WitMotion.samples, List.map_nil,
      linesText, String.append_empty, ite_self, and_self]
  | drain => exact WitMotion.processTempData_file w

/-- The output file after a run: nothing changes with persistence off; with persistence
on and the file open, one row per emitted sample is appended. -/
theorem WitMotion.run_file (ops : List (Op L)) (w : WitMotion L) :
    (WitMotion.run ops w).1.saveData_ = w.saveData_ ∧
      (WitMotion.run ops w).1.saveFileOpen = w.saveFileOpen ∧
      (WitMotion.run ops w).1.savePath_ = w.savePath_ ∧
      (WitMotion.run ops w).1.saveFileText =
        if (w.saveData_ && w.saveFileOpen) = true then
          w.saveFileText ++
            linesText ((WitMotion.samples (WitMotion.run ops w).2).map IMUData.toCSVRow)
        else w.saveFileText := by
  induction ops generalizing w with
  | nil =>
    simp only [WitMotion.run, WitMotion.samples, List.map_nil, linesText, String.append_empty,
      ite_self, and_self]
  | cons op ops ih =>
    obtain ⟨s1, s2, s3, s4⟩ := WitMotion.step_file w op
    obtain ⟨r1, r2, r3, r4⟩ := ih (w.step op).1
    rw [WitMotion.run]
    refine ⟨r1.trans s1, r2.trans s2, r3.trans s3, ?_⟩
    rw [r4, s1, s2, s4]
    by_cases hc : (w.saveData_ && w.saveFileOpen) = true
    · simp only [if_pos hc, WitMotion.samples_append, List.map_append, linesText_append,
        String.append_assoc]
    · simp only [if_neg hc]

/-- The signals, the accumulator and the FIFO after processTempData, as functions of
the accumulator and the FIFO before. -/
theorem WitMotion.processTempData_proj (w : WitMotion L) :
    w.processTempData.2 =
        (match w.data_buffer_ with
          | [] => []
          | temp :: _ =>
            if (w.lastData.add temp).full = true then [Signal.newData (w.lastData.add temp)]
            else []) ∧
      w.processTempData.1.lastData =
        (match w.data_buffer_ with
          | [] => w.lastData
          | temp :: _ =>
            if (w.lastData.add temp).full = true then IMUData.init
            else w.lastData.add temp) ∧
      w.processTempData.1.data_buffer_ = w.data_buffer_.tail := by
  rcases WitMotion.processTempData_cases w with ⟨hq, h⟩ |
      ⟨temp, rest, hq, hf, h1, h2, h3⟩ | ⟨temp, rest, hq, hf, h1, h2, h3⟩
  · rw [h, hq]; exact ⟨rfl, rfl, rfl⟩
  · rw [h1, h2, h3, hq]
    simp only [hf, if_true, List.tail_cons, and_self]
  · rw [h1, h2, h3, hq]
    simp only [hf, Bool.false_eq_true, if_false, List.tail_cons, and_self]

/-- The signals of a run depend only on the accumulator and the FIFO. -/
theorem WitMotion.run_signals_congr (ops : List (Op L)) (w v : WitMotion L)
    (hacc : w.lastData = v.lastData) (hbuf : w.data_buffer_ = v.data_buffer_) :
    (WitMotion.run ops w).2 = (WitMotion.run ops v).2 := by
  induction ops generalizing w v with
  | nil => rfl
  | cons op ops ih =>
    have hstep : (w.step op).2 = (v.step op).2 ∧
        (w.step op).1.lastData = (v.step op).1.lastData ∧
        (w.step op).1.data_buffer_ = (v.step op).1.data_buffer_ := by
      cases op with
      | push u =>
        simp only [WitMotion.step, WitMotion.pushUpdate, hacc, hbuf, and_self]
      | drain =>
        obtain ⟨a1, a2, a3⟩ := WitMotion.processTempData_proj w
        obtain ⟨b1, b2, b3⟩ := WitMotion.processTempData_proj v
        simp only [WitMotion.step]
        rw [a1, a2, a3, b1, b2, b3, hacc, hbuf]
        exact ⟨rfl, rfl, rfl⟩
    rw [WitMotion.run, WitMotion.run, hstep.1, ih _ _ hstep.2.1 hstep.2.2]

/-- What the constructor builds once the probing loop has returned a name. -/
theorem WitMotion.new_eq_some (fs : FileSystem) (port : String) (baudRate : Int)
    (saveData : Bool) (saveDir : String) (fuel : Nat) (w : WitMotion L)
    (h : WitMotion.new fs port baudRate saveData saveDir fuel = some w) :
    probeLoop fs saveDir fuel (saveDir ++ "/WitMotion_0.csv") 0 = some w.savePath_ ∧
      w.lastData = IMUData.init ∧ w.data_buffer_ = [] ∧
      w.saveData_ = (saveData && fs.canOpen w.savePath_) ∧
      w.saveFileOpen = (saveData && fs.canOpen w.savePath_) ∧
      w.saveFileText = if (saveData && fs.canOpen w.savePath_) = true then headerRow ++ "\n"
        else "" := by
  unfold WitMotion.new at h
  cases hp : probeLoop fs saveDir fuel (saveDir ++ "/WitMotion_0.csv") 0 with
  | none => rw [hp] at h; cases h
  | some filename =>
    rw [hp] at h
    simp only at h
    cases hs : saveData with
    | false =>
      rw [hs] at h
      simp only [Bool.false_eq_true, if_false, Option.some.injEq] at h
      subst h
      simp
    | true =>
      rw [hs] at h
      cases ho : fs.canOpen filename with
      | false =>
        rw [ho] at h
        simp only [if_true, Bool.false_eq_true, if_false, Option.some.injEq] at h
        subst h
        simp [ho]
      | true =>
        rw [ho] at h
        simp only [if_true, Option.some.injEq] at h
        subst h
        simp [ho]

end Persistence

/-! ## The probing loop of the constructor -/

section Probe

theorem probeName_zero (saveDir : String) :
    saveDir ++ "/WitMotion_0.csv" = probeName saveDir 0 := by
  unfold probeName
  rw [String.append_assoc, String.append_assoc]
  rfl

theorem wrapInt32_of_lt (x : Int) (h0 : 0 ≤ x) (h1 : x < 2 ^ 31) : wrapInt32 x = x := by
  unfold wrapInt32
  omega

/-- From the state (filename = name c, count = c + 1) the loop returns name n, the
first unused name, within n - c + 1 tests. -/
theorem probeLoop_from (fs : FileSystem) (saveDir : String) (n : Nat) (hn : n < 2 ^ 31)
    (hfree : fs.fileExists (probeName saveDir n) = false)
    (hused : ∀ m, m < n → fs.fileExists (probeName saveDir m) = true) :
    ∀ (d c : Nat) (count : Int) (fuel : Nat), c + d = n → (c < n → count = (c : Int) + 1) →
      d + 1 ≤ fuel →
      probeLoop fs saveDir fuel (probeName saveDir c) count = some (probeName saveDir n) := by
  intro d
  induction d with
  | zero =>
    intro c count fuel hc _ hfuel
    obtain ⟨f, rfl⟩ : ∃ f, fuel = f + 1 := ⟨fuel - 1, by omega⟩
    have : c = n := by omega
    subst this
    rw [probeLoop, hfree]
    rfl
  | succ d ih =>
    intro c count fuel hc hcount hfuel
    obtain ⟨f, rfl⟩ : ∃ f, fuel = f + 1 := ⟨fuel - 1, by omega⟩
    have hlt : c < n := by omega
    rw [probeLoop, hused c hlt, if_pos rfl, hcount hlt]
    have hcast : ((c : Int) + 1) = ((c + 1 : Nat) : Int) := by push_cast; rfl
    rw [hcast]
    refine ih (c + 1) _ f (by omega) ?_ (by omega)
    intro hlt2
    rw [wrapInt32_of_lt _ (by omega) (by omega)]

/-- With n the first unused number (n < 2^31), the loop of the constructor returns
name n whenever it may test its condition n + 2 times. -/
theorem probeLoop_least (fs : FileSystem) (saveDir : String) (n : Nat) (hn : n < 2 ^ 31)
    (hfree : fs.fileExists (probeName saveDir n) = false)
    (hused : ∀ m, m < n → fs.fileExists (probeName saveDir m) = true)
    (fuel : Nat) (hfuel : n + 2 ≤ fuel) :
    probeLoop fs saveDir fuel (saveDir ++ "/WitMotion_0.csv") 0 =
      some (probeName saveDir n) := by
  rw [probeName_zero]
  rcases Nat.eq_zero_or_pos n with h0 | h0
  · subst h0
    exact probeLoop_from fs saveDir 0 hn hfree hused 0 0 0 fuel rfl
      (fun h => absurd h (lt_irrefl 0)) (by omega)
  · obtain ⟨f, rfl⟩ : ∃ f, fuel = f + 1 := ⟨fuel - 1, by omega⟩
    have h := hused 0 h0
    rw [probeLoop]
    simp only [Nat.cast_zero] at h
    rw [h, if_pos rfl]
    have hw : wrapInt32 (0 + 1) = ((0 : Nat) : Int) + 1 := by decide
    rw [hw]
    exact probeLoop_from fs saveDir n hn hfree hused n 0 _ f (by omega) (fun _ => rfl)
      (by omega)

theorem WitMotion.new_of_probe {L : QtNum} (fs : FileSystem) (port : String)
    (baudRate : Int) (saveData : Bool) (saveDir : String) (fuel : Nat) (filename : String)
    (h : probeLoop fs saveDir fuel (saveDir ++ "/WitMotion_0.csv") 0 = some filename) :
    ∃ w : WitMotion L, WitMotion.new fs port baudRate saveData saveDir fuel = some w ∧
      w.savePath_ = filename := by
  unfold WitMotion.new
  rw [h]
  simp only
  split_ifs <;> exact ⟨_, rfl, rfl⟩

end Probe

/-! ## Frame lemmas on add -/

section Frame

variable {L : QtNum}

theorem IMUData.addKeys_system_time_of_not_valid (other : IMUData L) (keys : List String)
    (d : IMUData L) (h : "system_time" ∉ other.validFields) :
    (IMUData.addKeys other keys d).system_time = d.system_time := by
  induction keys generalizing d with
  | nil => rfl
  | cons key keys ih =>
    rw [IMUData.addKeys, ih]
    split_ifs with hkey
    · exact IMUData.set_system_time_ne d key _ (fun e => h (e ▸ hkey))
    · rfl

theorem IMUData.addKeys_timestamp_of_not_valid (other : IMUData L) (keys : List String)
    (d : IMUData L) (h : "timestamp" ∉ other.validFields) :
    (IMUData.addKeys other keys d).timestamp = d.timestamp := by
  induction keys generalizing d with
  | nil => rfl
  | cons key keys ih =>
    rw [IMUData.addKeys, ih]
    split_ifs with hkey
    · exact IMUData.set_timestamp_ne d key _ (fun e => h (e ▸ hkey))
    · rfl

theorem IMUData.addKeys_accX_of_not_valid (other : IMUData L) (keys : List String)
    (d : IMUData L) (h : "accX" ∉ other.validFields) :
    (IMUData.addKeys other keys d).accX = d.accX := by
  induction keys generalizing d with
  | nil => rfl
  | cons key keys ih =>
    rw [IMUData.addKeys, ih]
    split_ifs with hkey
    · exact IMUData.set_accX_ne d key _ (fun e => h (e ▸ hkey))
    · rfl

theorem IMUData.addKeys_accY_of_not_valid (other : IMUData L) (keys : List String)
    (d : IMUData L) (h : "accY" ∉ other.validFields) :
    (IMUData.addKeys other keys d).accY = d.accY := by
  induction keys generalizing d with
  | nil => rfl
  | cons key keys ih =>
    rw [IMUData.addKeys, ih]
    split_ifs with hkey
    · exact IMUData.set_accY_ne d key _ (fun e => h (e ▸ hkey))
    · rfl

theorem IMUData.addKeys_accZ_of_not_valid (other : IMUData L) (keys : List String)
    (d : IMUData L) (h : "accZ" ∉ other.validFields) :
    (IMUData.addKeys other keys d).accZ = d.accZ := by
  induction keys generalizing d with
  | nil => rfl
  | cons key keys ih =>
    rw [IMUData.addKeys, ih]
    split_ifs with hkey
    · exact IMUData.set_accZ_ne d key _ (fun e => h (e ▸ hkey))
    · rfl

theorem IMUData.addKeys_gyroX_of_not_valid (other : IMUData L) (keys : List String)
    (d : IMUData L) (h : "gyroX" ∉ other.validFields) :
    (IMUData.addKeys other keys d).gyroX = d.gyroX := by
  induction keys generalizing d with
  | nil => rfl
  | cons key keys ih =>
    rw [IMUData.addKeys, ih]
    split_ifs with hkey
    · exact IMUData.set_gyroX_ne d key _ (fun e => h (e ▸ hkey))
    · rfl

theorem IMUData.addKeys_gyroY_of_not_valid (other : IMUData L) (keys : List String)
    (d : IMUData L) (h : "gyroY" ∉ other.validFields) :
    (IMUData.addKeys other keys d).gyroY = d.gyroY := by
  induction keys generalizing d with
  | nil => rfl
  | cons key keys ih =>
    rw [IMUData.addKeys, ih]
    split_ifs with hkey
    · exact IMUData.set_gyroY_ne d key _ (fun e => h (e ▸ hkey))
    · rfl

theorem IMUData.addKeys_gyroZ_of_not_valid (other : IMUData L) (keys : List String)
    (d : IMUData L) (h : "gyroZ" ∉ other.validFields) :
    (IMUData.addKeys other keys d).gyroZ = d.gyroZ := by
  induction keys generalizing d with
  | nil => rfl
  | cons key keys ih =>
    rw [IMUData.addKeys, ih]
    split_ifs with hkey
    · exact IMUData.set_gyroZ_ne d key _ (fun e => h (e ▸ hkey))
    · rfl

theorem IMUData.addKeys_roll_of_not_valid (other : IMUData L) (keys : List String)
    (d : IMUData L) (h : "roll" ∉ other.validFields) :
    (IMUData.addKeys other keys d).roll = d.roll := by
  induction keys generalizing d with
  | nil => rfl
  | cons key keys ih =>
    rw [IMUData.addKeys, ih]
    split_ifs with hkey
    · exact IMUData.set_roll_ne d key _ (fun e => h (e ▸ hkey))
    · rfl

theorem IMUData.addKeys_pitch_of_not_valid (other : IMUData L) (keys : List String)
    (d : IMUData L) (h : "pitch" ∉ other.validFields) :
    (IMUData.addKeys other keys d).pitch = d.pitch := by
  induction keys generalizing d with
  | nil => rfl
  | cons key keys ih =>
    rw [IMUData.addKeys, ih]
    split_ifs with hkey
    · exact IMUData.set_pitch_ne d key _ (fun e => h (e ▸ hkey))
    · rfl

theorem IMUData.addKeys_yaw_of_not_valid (other : IMUData L) (keys : List String)
    (d : IMUData L) (h : "yaw" ∉ other.validFields) :
    (IMUData.addKeys other keys d).yaw = d.yaw := by
  induction keys generalizing d with
  | nil => rfl
  | cons key keys ih =>
    rw [IMUData.addKeys, ih]
    split_ifs with hkey
    · exact IMUData.set_yaw_ne d key _ (fun e => h (e ▸ hkey))
    · rfl

theorem IMUData.addKeys_qX_of_not_valid (other : IMUData L) (keys : List String)
    (d : IMUData L) (h : "qX" ∉ other.validFields) :
    (IMUData.addKeys other keys d).qX = d.qX := by
  induction keys generalizing d with
  | nil => rfl
  | cons key keys ih =>
    rw [IMUData.addKeys, ih]
    split_ifs with hkey
    · exact IMUData.set_qX_ne d key _ (fun e => h (e ▸ hkey))
    · rfl

theorem IMUData.addKeys_qY_of_not_valid (other : IMUData L) (keys : List String)
    (d : IMUData L) (h : "qY" ∉ other.validFields) :
    (IMUData.addKeys other keys d).qY = d.qY := by
  induction keys generalizing d with
  | nil => rfl
  | cons key keys ih =>
    rw [IMUData.addKeys, ih]
    split_ifs with hkey
    · exact IMUData.set_qY_ne d key _ (fun e => h (e ▸ hkey))
    · rfl

theorem IMUData.addKeys_qZ_of_not_valid (other : IMUData L) (keys : List String)
    (d : IMUData L) (h : "qZ" ∉ other.validFields) :
    (IMUData.addKeys other keys d).qZ = d.qZ := by
  induction keys generalizing d with
  | nil => rfl
  | cons key keys ih =>
    rw [IMUData.addKeys, ih]
    split_ifs with hkey
    · exact IMUData.set_qZ_ne d key _ (fun e => h (e ▸ hkey))
    · rfl

theorem IMUData.addKeys_qW_of_not_valid (other : IMUData L) (keys : List String)
    (d : IMUData L) (h : "qW" ∉ other.validFields) :
    (IMUData.addKeys other keys d).qW = d.qW := by
  induction keys generalizing d with
  | nil => rfl
  | cons key keys ih =>
    rw [IMUData.addKeys, ih]
    split_ifs with hkey
    · exact IMUData.set_qW_ne d key _ (fun e => h (e ▸ hkey))
    · rfl

theorem IMUData.addKeys_of_none_valid (other : IMUData L) (keys : List String)
    (d : IMUData L) (h : ∀ k ∈ keys, k ∉ other.validFields) :
    IMUData.addKeys other keys d = d := by
  induction keys generalizing d with
  | nil => rfl
  | cons key keys ih =>
    rw [IMUData.addKeys, if_neg (h key (List.mem_cons_self _ _))]
    exact ih d (fun k hk => h k (List.mem_cons_of_mem _ hk))

theorem IMUData.clear_eq_init (d : IMUData L) : d.clear = IMUData.init := rfl

theorem IMUData.init_not_full : (IMUData.init : IMUData L).full = false := by
  simp [IMUData.full, IMUData.init, IMUData.fieldOrder]

theorem WitMotion.run_lastData_not_full (ops : List (Op L)) (w : WitMotion L)
    (h : w.lastData.full = false) : (WitMotion.run ops w).1.lastData.full = false := by
  induction ops generalizing w with
  | nil => exact h
  | cons op ops ih =>
    rw [WitMotion.run]
    apply ih
    cases op with
    | push u => exact h
    | drain =>
      simp only [WitMotion.step]
      rcases WitMotion.processTempData_cases w with ⟨_, h0⟩ | ⟨temp, rest, _, _, _, h2, _⟩ |
          ⟨temp, rest, _, hf, _, h2, _⟩
      · rw [h0]; exact h
      · rw [h2]; exact IMUData.init_not_full
      · rw [h2]; exact hf

/-- What remains to be folded after a run: folding the FIFO content and the pushed
updates from the start gives the samples of the run followed by the fold of what is
still queued at the end. -/
theorem WitMotion.run_foldMergeDrain (ops : List (Op L)) (w : WitMotion L) :
    (foldMergeDrain (w.data_buffer_ ++ pushedUpdates ops) w.lastData).2 =
        WitMotion.samples (WitMotion.run ops w).2 ++
          (foldMergeDrain (WitMotion.run ops w).1.data_buffer_
            (WitMotion.run ops w).1.lastData).2 ∧
      (foldMergeDrain (w.data_buffer_ ++ pushedUpdates ops) w.lastData).1 =
        (foldMergeDrain (WitMotion.run ops w).1.data_buffer_
          (WitMotion.run ops w).1.lastData).1 := by
  induction ops generalizing w with
  | nil =>
    simp only [pushedUpdates, List.append_nil, WitMotion.run, WitMotion.samples,
      List.nil_append, and_self]
  | cons op ops ih =>
    cases op with
    | push u =>
      have h := ih (w.pushUpdate u)
      simp only [WitMotion.pushUpdate, List.append_assoc, List.singleton_append] at h
      simp only [pushedUpdates, WitMotion.run, WitMotion.step, WitMotion.samples,
        List.nil_append]
      exact h
    | drain =>
      simp only [pushedUpdates, WitMotion.run, WitMotion.step, WitMotion.samples_append]
      rcases WitMotion.processTempData_cases w with ⟨_, h0⟩ |
          ⟨temp, rest, hq, hf, h1, h2, h3⟩ | ⟨temp, rest, hq, hf, h1, h2, h3⟩
      · rw [h0]
        simp only [WitMotion.samples, List.nil_append]
        exact ih w
      · have h := ih w.processTempData.1
        rw [h2, h3] at h
        rw [hq, List.cons_append, foldMergeDrain, if_pos hf, IMUData.clear_eq_init, h1]
        simp only [WitMotion.samples, List.cons_append, List.nil_append, List.cons.injEq,
          true_and]
        exact h
      · have h := ih w.processTempData.1
        rw [h2, h3] at h
        rw [hq, List.cons_append, foldMergeDrain, h1]
        simp only [hf, Bool.false_eq_true, if_false, WitMotion.samples, List.nil_append]
        exact h

end Frame

/-! ## Lemmas on startReading and stop -/

section Lifecycle

variable {L : QtNum}

/-- What stop does: the notifier is removed, an open device is closed, finished is
emitted, and no other member changes. -/
theorem WitMotion.stop_eq (w : WitMotion L) :
    w.stop = ({ w with socketNotifier_ := false, fd := if 0 ≤ w.fd then -1 else w.fd },
      [Signal.finished]) := by
  unfold WitMotion.stop
  cases hn : w.socketNotifier_ <;> by_cases hf : 0 ≤ w.fd <;> simp [hn, hf]
  all_goals
    cases w
    simp_all

theorem WitMotion.stop_fd_neg (w : WitMotion L) : w.stop.1.fd < 0 := by
  rw [WitMotion.stop_eq]
  by_cases hf : 0 ≤ w.fd
  · simp [hf]
  · simp only [if_neg hf]
    exact not_le.mp hf

/-- After a stop, with no update queued and no new start, no step changes the FIFO, the
accumulator or the file, and none emits a sample. -/
theorem WitMotion.lifeRun_idle (ops : List (LifeOp L)) (w : WitMotion L)
    (hn : w.socketNotifier_ = false) (hq : w.data_buffer_ = [])
    (hops : ∀ r, LifeOp.start r ∉ ops) :
    WitMotion.samples (WitMotion.lifeRun ops w).2 = [] ∧
      (WitMotion.lifeRun ops w).1.saveFileText = w.saveFileText ∧
      (WitMotion.lifeRun ops w).1.lastData = w.lastData ∧
      (WitMotion.lifeRun ops w).1.data_buffer_ = [] := by
  induction ops generalizing w with
  | nil => exact ⟨rfl, rfl, rfl, hq⟩
  | cons op ops ih =>
    have hops1 : ∀ r, LifeOp.start r ∉ ops := fun r h => hops r (List.mem_cons_of_mem _ h)
    rw [WitMotion.lifeRun, WitMotion.samples_append]
    cases op with
    | start r => exact absurd (List.mem_cons_self _ _) (hops r)
    | ready us =>
      simp only [WitMotion.lifeStep, hn, Bool.false_eq_true, if_false, WitMotion.samples,
        List.nil_append]
      exact ih w hn hq hops1
    | drain =>
      simp only [WitMotion.lifeStep, WitMotion.processTempData_nil w hq, WitMotion.samples,
        List.nil_append]
      exact ih w hn hq hops1
    | stop =>
      simp only [WitMotion.lifeStep, WitMotion.stop_eq, WitMotion.samples, List.nil_append]
      exact ih _ rfl hq hops1

end Lifecycle

/-! ## Lemmas on the decoder and on handleSerialData -/

section Decoding

variable {L : QtNum}

theorem Decoder.with_pending_nil (d : Decoder) (h : d.pending = []) :
    { d with pending := [] } = d := by
  cases d
  simp only at h
  subst h
  rfl

/-- One byte of a frame with a wrong checksum, fed while the bytes p of the frame are
in progress: no event; the frame goes on, or is discarded at its last byte. -/
theorem Decoder.feed_bad_frame (F : FrameFormat) (bad p : List Nat) (c : Nat)
    (rest : List Nat) (d : Decoder) (hp : d.pending = p) (hbad : p ++ c :: rest = bad)
    (hhead : p = [] → F.isHeader c = true) (hlen : bad.length = F.frameLength)
    (hsum : F.checksumOk bad = false) :
    d.feed F c =
      (if rest = [] then { d with pending := [] } else { d with pending := p ++ [c] }, none) := by
  have hl : p.length + 1 + rest.length = F.frameLength := by
    rw [← hlen, ← hbad]
    simp only [List.length_append, List.length_cons]
    omega
  unfold Decoder.feed
  have h1 : ¬ (d.pending = [] ∧ F.isHeader c = false) := by
    rintro ⟨h, hc⟩
    rw [hhead (hp ▸ h)] at hc
    cases hc
  rw [if_neg h1, hp]
  by_cases hr : rest = []
  · subst hr
    have h2 : ¬ (p ++ [c]).length < F.frameLength := by
      simp only [List.length_append, List.length_cons, List.length_nil] at hl ⊢
      omega
    rw [if_neg h2, hbad, hsum]
    simp
  · have h2 : (p ++ [c]).length < F.frameLength := by
      have : 0 < rest.length := List.length_pos.mpr hr
      simp only [List.length_append, List.length_cons, List.length_nil] at hl ⊢
      omega
    rw [if_pos h2, if_neg hr]

/-- The rest of a frame with a wrong checksum leaves handleSerialData where it was,
with no frame in progress. -/
theorem WitMotion.handleSerialData_bad_frame (F : FrameFormat) (R : Regs) (now : String)
    (bad post : List Nat) (hlen : bad.length = F.frameLength)
    (hsum : F.checksumOk bad = false) :
    ∀ (rest p : List Nat) (w : WitMotion L) (d : Decoder), d.pending = p → p ++ rest = bad →
      rest ≠ [] → (p = [] → ∃ c cs, rest = c :: cs ∧ F.isHeader c = true) →
      WitMotion.handleSerialData F R now (rest ++ post) w d =
        WitMotion.handleSerialData F R now post w { d with pending := [] } := by
  intro rest
  induction rest with
  | nil => intro p w d _ _ h; exact absurd rfl h
  | cons c rest ih =>
    intro p w d hp hbad _ hhead
    have hh : p = [] → F.isHeader c = true := by
      intro h0
      obtain ⟨c1, cs, e, hc⟩ := hhead h0
      obtain ⟨rfl, -⟩ := List.cons.inj e
      exact hc
    have hfeed := Decoder.feed_bad_frame F bad p c rest d hp hbad hh hlen hsum
    rw [List.cons_append, WitMotion.handleSerialData]
    rw [hfeed]
    simp only
    by_cases hr : rest = []
    · subst hr
      simp only [if_true, List.nil_append]
    · simp only [if_neg hr]
      have h := ih (p ++ [c]) w { d with pending := p ++ [c] } rfl
        (by rw [List.append_assoc]; exact hbad) hr
        (fun h0 => absurd h0 (by simp))
      rw [h]

/-- The same for the decoder alone: no event. -/
theorem Decoder.feedAll_bad_frame (F : FrameFormat) (bad post : List Nat)
    (hlen : bad.length = F.frameLength) (hsum : F.checksumOk bad = false) :
    ∀ (rest p : List Nat) (d : Decoder), d.pending = p → p ++ rest = bad →
      rest ≠ [] → (p = [] → ∃ c cs, rest = c :: cs ∧ F.isHeader c = true) →
      Decoder.feedAll F (rest ++ post) d = Decoder.feedAll F post { d with pending := [] } := by
  intro rest
  induction rest with
  | nil => intro p d _ _ h; exact absurd rfl h
  | cons c rest ih =>
    intro p d hp hbad _ hhead
    have hh : p = [] → F.isHeader c = true := by
      intro h0
      obtain ⟨c1, cs, e, hc⟩ := hhead h0
      obtain ⟨rfl, -⟩ := List.cons.inj e
      exact hc
    have hfeed := Decoder.feed_bad_frame F bad p c rest d hp hbad hh hlen hsum
    rw [List.cons_append, Decoder.feedAll]
    rw [hfeed]
    simp only [Option.toList, List.nil_append]
    by_cases hr : rest = []
    · subst hr
      simp only [if_true, List.nil_append]
    · simp only [if_neg hr]
      have h := ih (p ++ [c]) { d with pending := p ++ [c] } rfl
        (by rw [List.append_assoc]; exact hbad) hr
        (fun h0 => absurd h0 (by simp))
      rw [h]

theorem WitMotion.handleSerialData_append (F : FrameFormat) (R : Regs) (now : String)
    (xs ys : List Nat) (w : WitMotion L) (d : Decoder) :
    WitMotion.handleSerialData F R now (xs ++ ys) w d =
      WitMotion.handleSerialData F R now ys (WitMotion.handleSerialData F R now xs w d).1
        (WitMotion.handleSerialData F R now xs w d).2 := by
  induction xs generalizing w d with
  | nil => rfl
  | cons c xs ih =>
    rw [List.cons_append, WitMotion.handleSerialData, WitMotion.handleSerialData]
    cases (d.feed F c).2 with
    | none => exact ih _ _
    | some ev => exact ih _ _

/-- The readiness handler changes only the FIFO. -/
theorem WitMotion.handleSerialData_lastData (F : FrameFormat) (R : Regs) (now : String)
    (xs : List Nat) (w : WitMotion L) (d : Decoder) :
    (WitMotion.handleSerialData F R now xs w d).1.lastData = w.lastData := by
  induction xs generalizing w d with
  | nil => rfl
  | cons c xs ih =>
    rw [WitMotion.handleSerialData]
    cases (d.feed F c).2 with
    | none => exact ih _ _
    | some ev => exact (ih _ _).trans rfl

theorem WitMotion.handleSerialData_decoder (F : FrameFormat) (R : Regs) (now : String)
    (xs : List Nat) (w : WitMotion L) (d : Decoder) :
    (WitMotion.handleSerialData F R now xs w d).2 = (Decoder.feedAll F xs d).1 := by
  induction xs generalizing w d with
  | nil => rfl
  | cons c xs ih =>
    rw [WitMotion.handleSerialData, Decoder.feedAll]
    cases (d.feed F c).2 with
    | none => exact ih _ _
    | some ev => exact ih _ _

end Decoding

/-! ## The exact-arithmetic instance satisfies the laws -/

namespace Ref

theorem digitChar_spec (d : Nat) (h : d < 10) :
    (Nat.digitChar d).isDigit = true ∧ (Nat.digitChar d).toNat - 48 = d ∧
      Nat.digitChar d ≠ '-' ∧ Nat.digitChar d ≠ '.' := by
  interval_cases d <;> decide

theorem digitsLE_eq_digits (fuel n : Nat) (h : n ≤ fuel) :
    digitsLE fuel n = Nat.digits 10 n := by
  induction fuel generalizing n with
  | zero =>
    have : n = 0 := by omega
    subst this; simp [digitsLE]
  | succ fuel ih =>
    unfold digitsLE
    split_ifs with h0
    · subst h0; simp
    · rw [Nat.digits_def' (by norm_num) (Nat.pos_of_ne_zero h0), ih _ (by omega)]

theorem parseNat_append_singleton (cs : List Char) (c : Char) :
    parseNat (cs ++ [c]) = 10 * parseNat cs + (c.toNat - 48) := by
  simp [parseNat, List.foldl_append]

theorem parseNat_digits (ds : List Nat) (h : ∀ d ∈ ds, d < 10) :
    parseNat (ds.reverse.map Nat.digitChar) = Nat.ofDigits 10 ds := by
  induction ds with
  | nil => rfl
  | cons d ds ih =>
    have hd := (digitChar_spec d (h d (List.mem_cons_self _ _))).2.1
    rw [List.reverse_cons, List.map_append, List.map_singleton, parseNat_append_singleton,
      ih (fun x hx => h x (List.mem_cons_of_mem _ hx)), hd, Nat.ofDigits_cons]
    omega

theorem parseNat_natChars (n : Nat) : parseNat (natChars n) = n := by
  unfold natChars
  split_ifs with h
  · subst h; rfl
  · rw [digitsLE_eq_digits n n le_rfl,
      parseNat_digits _ (fun d hd => Nat.digits_lt_base (by norm_num) hd), Nat.ofDigits_digits]

theorem natChars_isDigit (n : Nat) : ∀ c ∈ natChars n, c.isDigit = true := by
  unfold natChars
  split_ifs with h
  · intro c hc
    simp only [List.mem_singleton] at hc
    subst hc; decide
  · intro c hc
    rw [digitsLE_eq_digits n n le_rfl] at hc
    simp only [List.mem_map, List.mem_reverse] at hc
    obtain ⟨d, hd, rfl⟩ := hc
    exact (digitChar_spec d (Nat.digits_lt_base (by norm_num) hd)).1

theorem natChars_ne_nil (n : Nat) : natChars n ≠ [] := by
  unfold natChars
  split_ifs with h
  · simp
  · rw [digitsLE_eq_digits n n le_rfl]
    simp [Nat.digits_ne_nil_iff_ne_zero, h]

theorem parseNat_fracChars (m : Nat) (h : m < 10000) : parseNat (fracChars m) = m := by
  have h1 := (digitChar_spec (m / 1000 % 10) (Nat.mod_lt _ (by norm_num))).2.1
  have h2 := (digitChar_spec (m / 100 % 10) (Nat.mod_lt _ (by norm_num))).2.1
  have h3 := (digitChar_spec (m / 10 % 10) (Nat.mod_lt _ (by norm_num))).2.1
  have h4 := (digitChar_spec (m % 10) (Nat.mod_lt _ (by norm_num))).2.1
  simp only [parseNat, fracChars, List.foldl_cons, List.foldl_nil, h1, h2, h3, h4]
  omega

theorem fracChars_isDigit (m : Nat) : (fracChars m).all Char.isDigit = true := by
  have h1 := (digitChar_spec (m / 1000 % 10) (Nat.mod_lt _ (by norm_num))).1
  have h2 := (digitChar_spec (m / 100 % 10) (Nat.mod_lt _ (by norm_num))).1
  have h3 := (digitChar_spec (m / 10 % 10) (Nat.mod_lt _ (by norm_num))).1
  have h4 := (digitChar_spec (m % 10) (Nat.mod_lt _ (by norm_num))).1
  simp [fracChars, h1, h2, h3, h4]

theorem takeWhile_digits_point (ip fr : List Char) (h : ∀ c ∈ ip, c.isDigit = true) :
    (ip ++ '.' :: fr).takeWhile Char.isDigit = ip ∧
      (ip ++ '.' :: fr).dropWhile Char.isDigit = '.' :: fr := by
  induction ip with
  | nil => exact ⟨by simp [List.takeWhile], by simp [List.dropWhile]⟩
  | cons c cs ih =>
    have hc := h c (List.mem_cons_self _ _)
    have ih1 := ih (fun x hx => h x (List.mem_cons_of_mem _ hx))
    simp [List.takeWhile, List.dropWhile, hc, ih1.1, ih1.2]

theorem bodyChars_head (z : Int) : (bodyChars z).head? ≠ some '-' := by
  unfold bodyChars
  have hne := natChars_ne_nil (z.natAbs / 10000)
  have hd := natChars_isDigit (z.natAbs / 10000)
  cases hcs : natChars (z.natAbs / 10000) with
  | nil => exact absurd hcs hne
  | cons c cs =>
    have := hd c (hcs ▸ List.mem_cons_self _ _)
    simp only [List.cons_append, List.head?_cons, ne_eq, Option.some.injEq]
    rintro rfl
    revert this; decide

theorem showFixed4_data (z : Int) :
    (showFixed4 z).data = (if z < 0 then ['-'] else []) ++ bodyChars z := rfl

theorem body_of_showFixed4 (z : Int) :
    (if (showFixed4 z).data.head? = some '-' then (showFixed4 z).data.tail
      else (showFixed4 z).data) = bodyChars z ∧
    ((showFixed4 z).data.head? = some '-' ↔ z < 0) := by
  rw [showFixed4_data]
  by_cases hz : z < 0
  · simp [hz]
  · have := bodyChars_head z
    simp [hz, this]

theorem isFixed4_showFixed4 (z : Int) : isFixed4 (showFixed4 z) = true := by
  have hb := (body_of_showFixed4 z).1
  have ht := takeWhile_digits_point (natChars (z.natAbs / 10000))
    (fracChars (z.natAbs % 10000)) (natChars_isDigit _)
  have hf := fracChars_isDigit (z.natAbs % 10000)
  have hne := natChars_ne_nil (z.natAbs / 10000)
  unfold isFixed4
  simp only [hb]
  unfold bodyChars
  rw [ht.1, ht.2]
  simp only [fracChars, List.all_cons, List.all_nil, Bool.and_true, Bool.and_eq_true] at hf
  simp [fracChars, hf, hne]

theorem parseDecimal_showFixed4 (z : Int) :
    parseDecimal (showFixed4 z) = some ⟨z, 10000⟩ := by
  obtain ⟨hb, hs⟩ := body_of_showFixed4 z
  have ht := takeWhile_digits_point (natChars (z.natAbs / 10000))
    (fracChars (z.natAbs % 10000)) (natChars_isDigit _)
  have hf := fracChars_isDigit (z.natAbs % 10000)
  have hne := natChars_ne_nil (z.natAbs / 10000)
  have hlen : (fracChars (z.natAbs % 10000)).length = 4 := rfl
  have hemp : (natChars (z.natAbs / 10000)).isEmpty = false := by
    cases hcs : natChars (z.natAbs / 10000) with
    | nil => exact absurd hcs hne
    | cons c cs => rfl
  unfold parseDecimal
  simp only [hb]
  unfold bodyChars
  rw [ht.1, ht.2]
  simp only [hf, hemp, Bool.not_false, Bool.and_self, if_true, hlen, parseNat_natChars,
    parseNat_fracChars _ (Nat.mod_lt _ (by norm_num)), Option.some.injEq, Frac.mk.injEq]
  refine ⟨?_, by norm_num⟩
  by_cases hz : z < 0
  · rw [if_pos (hs.2 hz)]
    omega
  · rw [if_neg (fun h => hz (hs.1 h))]
    omega

theorem round4_fixed (z : Int) : round4 ⟨z, 10000⟩ = z := by
  unfold round4
  simp only
  split_ifs with hz <;> omega

theorem bodyChars_ofNat (m : Nat) :
    bodyChars (m : Int) = natChars (m / 10000) ++ '.' :: fracChars (m % 10000) := rfl

theorem showSigned_data (neg : Bool) (m : Nat) :
    (showSigned neg m).data = (if neg then ['-'] else []) ++ bodyChars (m : Int) := rfl

theorem body_of_showSigned (neg : Bool) (m : Nat) :
    decide ((showSigned neg m).data.head? = some '-') = neg ∧
    (if neg = true then (showSigned neg m).data.tail else (showSigned neg m).data) =
      natChars (m / 10000) ++ '.' :: fracChars (m % 10000) := by
  have h : decide ((showSigned neg m).data.head? = some '-') = neg ∧
      (if neg = true then (showSigned neg m).data.tail else (showSigned neg m).data) =
        bodyChars (m : Int) := by
    rw [showSigned_data]
    cases neg
    · have := bodyChars_head (m : Int)
      simp [this]
    · simp
  exact h

theorem isFixed4_showSigned (neg : Bool) (m : Nat) : isFixed4 (showSigned neg m) = true := by
  obtain ⟨hs, hb⟩ := body_of_showSigned neg m
  have hs1 : ((showSigned neg m).data.head? = some '-') ↔ neg = true :=
    ⟨fun h => hs.symm.trans (decide_eq_true h), fun h => of_decide_eq_true (hs.trans h)⟩
  have ht := takeWhile_digits_point (natChars (m / 10000))
    (fracChars (m % 10000)) (natChars_isDigit _)
  have hf := fracChars_isDigit (m % 10000)
  have hne := natChars_ne_nil (m / 10000)
  unfold isFixed4
  simp only [hs1, hb]
  rw [ht.1, ht.2]
  simp only [fracChars, List.all_cons, List.all_nil, Bool.and_true, Bool.and_eq_true] at hf
  simp [fracChars, hf, hne]

theorem parseSigned_showSigned (neg : Bool) (m : Nat) :
    parseSigned (showSigned neg m) = some ⟨neg, m, 10000⟩ := by
  obtain ⟨hs, hb⟩ := body_of_showSigned neg m
  have ht := takeWhile_digits_point (natChars (m / 10000))
    (fracChars (m % 10000)) (natChars_isDigit _)
  have hf := fracChars_isDigit (m % 10000)
  have hne := natChars_ne_nil (m / 10000)
  have hlen : (fracChars (m % 10000)).length = 4 := rfl
  have hemp : (natChars (m / 10000)).isEmpty = false := by
    cases hcs : natChars (m / 10000) with
    | nil => exact absurd hcs hne
    | cons c cs => rfl
  unfold parseSigned
  simp only [hs, hb]
  rw [ht.1, ht.2]
  simp only [hf, hemp, Bool.not_false, Bool.and_self, if_true, hlen, parseNat_natChars,
    parseNat_fracChars _ (Nat.mod_lt _ (by norm_num)), Option.some.injEq, SFrac.mk.injEq,
    true_and]
  refine ⟨?_, by norm_num⟩
  omega

theorem showSigned_eq_negZero (neg : Bool) (m : Nat) :
    showSigned neg m = "-0.0000" ↔ neg = true ∧ m = 0 := by
  constructor
  · intro h
    have h1 := parseSigned_showSigned neg m
    rw [h] at h1
    have h2 : parseSigned "-0.0000" = some ⟨true, 0, 10000⟩ := by decide
    rw [h2] at h1
    simp only [Option.some.injEq, SFrac.mk.injEq, and_true] at h1
    exact ⟨h1.1.symm, h1.2.symm⟩
  · rintro ⟨rfl, rfl⟩
    decide

end Ref

theorem refNum_printsFixed4 : refNum.PrintsFixed4 :=
  ⟨Ref.isFixed4_showFixed4 _, fun _ _ _ => Ref.isFixed4_showFixed4 _,
    fun _ _ _ => ⟨Ref.isFixed4_showFixed4 _, Ref.isFixed4_showFixed4 _,
      Ref.isFixed4_showFixed4 _, Ref.isFixed4_showFixed4 _⟩⟩

theorem exampleBank_int16 : IsInt16Bank exampleBank := by
  intro i
  show (-32768 : Int) ≤ 16384 ∧ (16384 : Int) < 32768
  decide

/-! ## The sign-keeping instance satisfies the laws -/

theorem signNum_number (x : Ref.SFrac) :
    signNum.number x =
      Ref.showSigned (x.neg && decide (x.num ≠ 0))
        ((2 * x.num * 10000 + x.den) / (2 * x.den)) := rfl

theorem signNum_toFloat_showSigned (neg : Bool) (m : Nat) :
    signNum.toFloat (Ref.showSigned neg m) = (⟨neg, m, 10000⟩, true) := by
  show (match Ref.parseSigned (Ref.showSigned neg m) with
        | some q => (q, true)
        | none => ((⟨false, 0, 1⟩ : Ref.SFrac), false)) = _
  rw [Ref.parseSigned_showSigned]

theorem signNum_reprints : signNum.Reprints := by
  intro x _
  rw [signNum_number x, signNum_toFloat_showSigned]
  refine ⟨rfl, ?_⟩
  rw [signNum_number]
  have hm : (2 * ((2 * x.num * 10000 + x.den) / (2 * x.den)) * 10000 + 10000) / (2 * 10000) =
      (2 * x.num * 10000 + x.den) / (2 * x.den) := by omega
  simp only [hm]
  by_cases hz : (x.neg && decide (x.num ≠ 0)) = true ∧
      (2 * x.num * 10000 + x.den) / (2 * x.den) = 0
  · rw [if_pos ((Ref.showSigned_eq_negZero _ _).mpr hz), hz.1, hz.2]
    decide
  · rw [if_neg (fun h => hz ((Ref.showSigned_eq_negZero _ _).mp h))]
    cases hs : (x.neg && decide (x.num ≠ 0))
    · rfl
    · have hne : (2 * x.num * 10000 + x.den) / (2 * x.den) ≠ 0 := fun h0 => hz ⟨hs, h0⟩
      simp [hne]

theorem signNum_printsFixed4 : signNum.PrintsFixed4 :=
  ⟨Ref.isFixed4_showSigned _ _, fun _ _ _ => Ref.isFixed4_showSigned _ _,
    fun _ _ _ => ⟨Ref.isFixed4_showSigned _ _, Ref.isFixed4_showSigned _ _,
      Ref.isFixed4_showSigned _ _, Ref.isFixed4_showSigned _ _⟩⟩

theorem signNum_number_eight :
    signNum.number (signNum.scaled 16384 16) = "8.0000" := by
  decide

/-- In the sign-keeping instance the quaternion text is "-0.0000" exactly for the raw
value -1. -/
theorem signNum_ratio_negZero (raw : Int) :
    signNum.number (signNum.ratio raw) = "-0.0000" ↔ raw = -1 := by
  rw [signNum_number, Ref.showSigned_eq_negZero]
  show ((xor (decide (raw < 0)) (decide ((32768 : Int) < 0)) &&
      decide (raw.natAbs * 1 ≠ 0)) = true ∧
    (2 * (raw.natAbs * 1) * 10000 + 1 * (32768 : Int).natAbs) /
      (2 * (1 * (32768 : Int).natAbs)) = 0) ↔ raw = -1
  have h32 : (32768 : Int).natAbs = 32768 := rfl
  simp only [h32, show decide ((32768 : Int) < 0) = false from rfl, Bool.xor_false,
    Bool.and_eq_true, decide_eq_true_eq]
  omega

/-- In the sign-keeping instance no acceleration, gyro or angle text is "-0.0000". -/
theorem signNum_scaled_ne_negZero (raw : Int) :
    signNum.number (signNum.scaled raw 16) ≠ "-0.0000" ∧
    signNum.number (signNum.scaled raw 2000) ≠ "-0.0000" ∧
    signNum.number (signNum.scaled raw 180) ≠ "-0.0000" := by
  have h32 : (32768 : Int).natAbs = 32768 := rfl
  have hgen : ∀ k : Nat, 2 ≤ k →
      ¬ ((xor (xor (decide (raw < 0)) (decide ((32768 : Int) < 0))) (decide ((k : Int) < 0)) &&
          decide (raw.natAbs * 1 * (k : Int).natAbs ≠ 0)) = true ∧
        (2 * (raw.natAbs * 1 * (k : Int).natAbs) * 10000 + 1 * (32768 : Int).natAbs * 1) /
          (2 * (1 * (32768 : Int).natAbs * 1)) = 0) := by
    intro k hk
    simp only [h32, Int.natAbs_ofNat, Bool.and_eq_true, decide_eq_true_eq]
    rintro ⟨⟨_, hnz⟩, hdiv⟩
    have hpos : 0 < raw.natAbs * 1 * k := Nat.pos_of_ne_zero hnz
    have h2 : 2 ≤ raw.natAbs * 1 * k := by
      rcases Nat.eq_zero_or_pos raw.natAbs with h0 | h0
      · rw [h0] at hpos; simp at hpos
      · have h1 : 1 ≤ raw.natAbs := h0
        calc 2 ≤ k := hk
          _ = 1 * 1 * k := by ring
          _ ≤ raw.natAbs * 1 * k := by gcongr
    omega
  refine ⟨?_, ?_, ?_⟩
  · rw [signNum_number, Ne, Ref.showSigned_eq_negZero]
    exact hgen 16 (by norm_num)
  · rw [signNum_number, Ne, Ref.showSigned_eq_negZero]
    exact hgen 2000 (by norm_num)
  · rw [signNum_number, Ne, Ref.showSigned_eq_negZero]
    exact hgen 180 (by norm_num)

theorem exampleHalfBank_int16 : IsInt16Bank exampleHalfBank := by
  intro i
  show (-32768 : Int) ≤ 8192 ∧ (8192 : Int) < 32768
  decide

theorem exampleMinusOneBank_int16 : IsInt16Bank exampleMinusOneBank := by
  intro i
  show (-32768 : Int) ≤ -1 ∧ (-1 : Int) < 32768
  decide

/-! ## C1 -/

/-- C1 fails as stated: in the sign-keeping instance the update built by
set("qX", "-0.00003") has qX present and reports "-0.0000" for it; after add the
accumulator reports "0.0000": the text "-0.0000" handed to set is read as negative
zero, which prints without a sign. -/
theorem add_reads_back_negative_zero :
    "qX" ∈ IMUData.fieldOrder ∧ "qX" ∈ exampleTinyNegative.validFields ∧
      exampleTinyNegative.getAsString "qX" = "-0.0000" ∧
      ((IMUData.init : IMUData signNum).add exampleTinyNegative).getAsString "qX" = "0.0000" ∧
      ((IMUData.init : IMUData signNum).add exampleTinyNegative).getAsString "qX" ≠
        exampleTinyNegative.getAsString "qX" := by
  refine ⟨by decide, by decide, by decide, by decide, by decide⟩

/-- C1, as the code has it. Merge overwrites and marks present: after a.add(u) every
canonical field k present in u is present in a, whatever a held for k before, and
a.getAsString(k) equals u.getAsString(k) for system_time and timestamp, for every
numeric field whose text the conversions keep (toFloat accepts it and the float read
prints as the same text), and so, under the laws of the Qt conversions, for every field
of an update built by the callback. Under the law a numeric text of u in fixed notation
is reported unchanged unless it is "-0.0000", which a reports as "0.0000". -/
theorem add_overwrites_and_marks_present (L : QtNum) (a u : IMUData L) (k : String)
    (hk : k ∈ IMUData.fieldOrder) (hu : k ∈ u.validFields) :
    k ∈ (a.add u).validFields ∧
    ((k = "system_time" ∨ k = "timestamp") → (a.add u).getAsString k = u.getAsString k) ∧
    (L.Stable (u.getAsString k) → (a.add u).getAsString k = u.getAsString k) ∧
    (L.Reprints → L.PrintsFixed4 → IsDecoded u →
      (a.add u).getAsString k = u.getAsString k) ∧
    (L.Reprints → k ≠ "system_time" → k ≠ "timestamp" →
      isFixed4 (u.getAsString k) = true →
      (a.add u).getAsString k =
        if u.getAsString k = "-0.0000" then "0.0000" else u.getAsString k) := by
  refine ⟨(IMUData.mem_add_validFields a u k).mpr (Or.inr ⟨hk, hu⟩), ?_, ?_, ?_, ?_⟩
  · intro ht
    exact IMUData.add_getAsString_of_stable a u k hk hu
      (ht.elim Or.inl (fun h => Or.inr (Or.inl h)))
  · intro hst
    exact IMUData.add_getAsString_of_stable a u k hk hu (Or.inr (Or.inr hst))
  · intro hL hP hdec
    exact IMUData.add_getAsString_of_stable a u k hk hu
      (IMUData.StableFields.key u (IsDecoded.stableFields hL hP u hdec) k hk hu)
  · intro hL h1 h2 hfix
    obtain ⟨x, hx⟩ := IMUData.getAsString_numeric_eq u k hk h1 h2
    rw [IMUData.add_getAsString_present a u k hk hu, hx]
    rw [hx] at hfix
    exact IMUData.set_getAsString_reprints hL a k x hk h1 h2 hfix

/-- An instance of C1 in the sign-keeping instance: the update the callback builds from
the example bank (qX = 0.5) merged into an accumulator that holds qX = -0.00003. -/
theorem add_overwrites_and_marks_present_witness :
    "qX" ∈ signDecoded.validFields ∧
      "qX" ∈ (exampleTinyNegative.add signDecoded).validFields ∧
      (exampleTinyNegative.add signDecoded).getAsString "qX" =
        signDecoded.getAsString "qX" ∧
      signDecoded.getAsString "qX" = "0.5000" :=
  have h := add_overwrites_and_marks_present signNum exampleTinyNegative signDecoded "qX"
    (by decide) (by decide)
  ⟨by decide, h.1,
    h.2.2.2.1 signNum_reprints signNum_printsFixed4
      ⟨sdkRegs, exampleBank, _, _, _, exampleBank_int16, rfl⟩,
    by decide⟩

/-! ## C2 -/

/-- C2 fails as stated: in the sign-keeping instance one update with all 15 fields
present and qX = -0.00003 is queued on an empty accumulator: the first drain step finds
the accumulator complete and emits the sample; the last (only) update in which qX is
present reports "-0.0000" for it, and the sample reports "0.0000". -/
theorem emitted_sample_reads_back_negative_zero :
    (signController [exampleFullTiny]).lastData = IMUData.init ∧
      (signController [exampleFullTiny]).data_buffer_ = [] ++ [exampleFullTiny] ∧
      (WitMotion.run (List.replicate 0 Op.drain) (signController [exampleFullTiny])).2 = [] ∧
      (WitMotion.run (List.replicate 0 Op.drain)
          (signController [exampleFullTiny])).1.processTempData.2 =
        [Signal.newData (IMUData.init.add exampleFullTiny)] ∧
      lastWith "qX" ([] ++ [exampleFullTiny]) = some exampleFullTiny ∧
      exampleFullTiny.getAsString "qX" = "-0.0000" ∧
      (IMUData.init.add exampleFullTiny).getAsString "qX" = "0.0000" ∧
      ¬ ∃ u, lastWith "qX" ([] ++ [exampleFullTiny]) = some u ∧
        (IMUData.init.add exampleFullTiny).getAsString "qX" = u.getAsString "qX" := by
  have hlast : lastWith "qX" ([] ++ [exampleFullTiny]) = some exampleFullTiny := by
    rw [lastWith_append_singleton, if_pos (by decide)]
  have hu : exampleFullTiny.getAsString "qX" = "-0.0000" := by decide
  have hs : (IMUData.init.add exampleFullTiny).getAsString "qX" = "0.0000" := by decide
  refine ⟨rfl, rfl, rfl, ?_, hlast, hu, hs, ?_⟩
  · exact congrArg Prod.snd
      (WitMotion.processTempData_full (signController [exampleFullTiny]) exampleFullTiny []
        rfl (by decide))
  · rintro ⟨u, h1, h2⟩
    rw [hlast] at h1
    obtain rfl := Option.some.inj h1
    rw [hs, hu] at h2
    exact absurd h2 (by decide)

/-- C2, as the code has it. Last-write-wins in the emitted sample: when the updates u1..un
are drained into an empty accumulator by successive processTempData steps, no sample is
emitted before step n, and step n emits the sample s, then for each canonical field k
there is a last update u in which k is present, and s reports u's text for k when k is
system_time or timestamp or u's text for k is kept by the conversions (toFloat accepts
it and the float read prints as the same text); under the law a numeric text in fixed
notation is reported unchanged unless it is "-0.0000", which s reports as "0.0000".
Under the laws of the Qt conversions, when u1..un are built by the callback, s reports
for every canonical field the text of the last update in which it is present. -/
theorem emitted_sample_last_write_wins (L : QtNum) (w : WitMotion L)
    (us : List (IMUData L)) (un s : IMUData L)
    (hempty : w.lastData = IMUData.init) (hq : w.data_buffer_ = us ++ [un])
    (hquiet : (WitMotion.run (List.replicate us.length Op.drain) w).2 = [])
    (hemit : (WitMotion.run (List.replicate us.length Op.drain) w).1.processTempData.2 =
      [Signal.newData s]) :
    (∀ k ∈ IMUData.fieldOrder,
      ∃ u, lastWith k (us ++ [un]) = some u ∧
        ((k = "system_time" ∨ k = "timestamp" ∨ L.Stable (u.getAsString k)) →
          s.getAsString k = u.getAsString k) ∧
        (L.Reprints → k ≠ "system_time" → k ≠ "timestamp" →
          isFixed4 (u.getAsString k) = true →
          s.getAsString k =
            if u.getAsString k = "-0.0000" then "0.0000" else u.getAsString k)) ∧
    (L.Reprints → L.PrintsFixed4 → (∀ u ∈ us ++ [un], IsDecoded u) →
      ∀ k ∈ IMUData.fieldOrder,
        ∃ u, lastWith k (us ++ [un]) = some u ∧ s.getAsString k = u.getAsString k) := by
  have hs : s = (us ++ [un]).foldl IMUData.add IMUData.init ∧ s.full = true := by
    have h := WitMotion.emitted_after_quiet w us un s hq hquiet hemit
    rw [hempty] at h
    exact h
  have hlast : ∀ k ∈ IMUData.fieldOrder,
      ∃ u, lastWith k (us ++ [un]) = some u ∧ u ∈ us ++ [un] ∧ k ∈ u.validFields ∧
        ∃ d1 : IMUData L, s.getAsString k = (d1.set k (u.getAsString k)).getAsString k := by
    intro k hk
    have hpres : k ∈ s.validFields := (IMUData.full_iff s).mp hs.2 k hk
    rw [hs.1] at hpres
    have hget := foldl_add_getAsString k hk (us ++ [un]) (IMUData.init : IMUData L)
    rcases foldl_add_validFields k _ _ hpres with h | h
    · exact absurd h (Finset.not_mem_empty k)
    · obtain ⟨u, hu⟩ := Option.isSome_iff_exists.mp h
      rw [hu] at hget
      obtain ⟨d1, hd1⟩ := hget
      have hfind := hu
      unfold lastWith at hfind
      have hmem := List.mem_of_find?_eq_some hfind
      have hprop := List.find?_some hfind
      exact ⟨u, hu, List.mem_reverse.mp hmem, of_decide_eq_true hprop,
        d1, by rw [hs.1]; exact hd1⟩
  refine ⟨?_, ?_⟩
  · intro k hk
    obtain ⟨u, hu, _, _, d1, hd1⟩ := hlast k hk
    refine ⟨u, hu, ?_, ?_⟩
    · intro hst
      rw [hd1]
      exact IMUData.set_getAsString_of_stable d1 k _ hk hst
    · intro hL h1 h2 hfix
      obtain ⟨x, hx⟩ := IMUData.getAsString_numeric_eq u k hk h1 h2
      rw [hd1, hx]
      rw [hx] at hfix
      exact IMUData.set_getAsString_reprints hL d1 k x hk h1 h2 hfix
  · intro hL hP hdec k hk
    obtain ⟨u, hu, hmem, hv, d1, hd1⟩ := hlast k hk
    refine ⟨u, hu, ?_⟩
    rw [hd1]
    exact IMUData.set_getAsString_of_stable d1 k _ hk
      (IMUData.StableFields.key u (IsDecoded.stableFields hL hP u (hdec u hmem)) k hk hv)

/-- An instance of C2 in the sign-keeping instance: the callback's update for the
acceleration group of a bank holding 8192 (accX = 4) is drained first, then its update
for all groups of the example bank (accX = 8); the emitted sample reports for accX the
text of the second update. -/
theorem emitted_sample_last_write_wins_witness :
    (signController [signDecodedAcc, signDecoded]).processTempData.1.processTempData.2 =
        [Signal.newData ((IMUData.init.add signDecodedAcc).add signDecoded)] ∧
      signDecodedAcc.getAsString "accX" = "4.0000" ∧
      ∃ u, lastWith "accX" ([signDecodedAcc] ++ [signDecoded]) = some u ∧
        ((IMUData.init.add signDecodedAcc).add signDecoded).getAsString "accX" =
          u.getAsString "accX" :=
  ⟨by rfl, by decide,
    (emitted_sample_last_write_wins signNum (signController [signDecodedAcc, signDecoded])
      [signDecodedAcc] signDecoded ((IMUData.init.add signDecodedAcc).add signDecoded)
      rfl rfl (by rfl) (by rfl)).2 signNum_reprints signNum_printsFixed4
      (fun u hu => by
        simp only [List.singleton_append, List.mem_cons, List.mem_singleton,
          List.not_mem_nil, or_false] at hu
        rcases hu with rfl | rfl
        · exact ⟨sdkRegs, exampleHalfBank, _, _, _, exampleHalfBank_int16, rfl⟩
        · exact ⟨sdkRegs, exampleBank, _, _, _, exampleBank_int16, rfl⟩)
      "accX" (by decide)⟩

/-! ## C3 -/

/-- C3. Drain on a complete accumulator: when the merge of the popped update leaves all
15 canonical fields present, processTempData emits exactly one sample, the merged
accumulator (all 15 fields present), and afterwards the accumulator is a freshly
constructed IMUData: time strings empty, every float 0, present set empty. -/
theorem processTempData_complete (L : QtNum) (w : WitMotion L) (temp : IMUData L)
    (rest : List (IMUData L)) (hq : w.data_buffer_ = temp :: rest)
    (hfull : ∀ k ∈ IMUData.fieldOrder, k ∈ (w.lastData.add temp).validFields) :
    w.processTempData.2 = [Signal.newData (w.lastData.add temp)] ∧
      (w.lastData.add temp).full = true ∧
      w.processTempData.1.lastData = IMUData.init ∧
      w.processTempData.1.lastData.system_time = "" ∧
      w.processTempData.1.lastData.timestamp = "" ∧
      (∀ k ∈ IMUData.fieldOrder, k ≠ "system_time" → k ≠ "timestamp" →
        w.processTempData.1.lastData.getAsString k = L.number L.zero) ∧
      w.processTempData.1.lastData.validFields = ∅ ∧
      w.processTempData.1.data_buffer_ = rest := by
  have hf : (w.lastData.add temp).full = true := (IMUData.full_iff _).mpr hfull
  rw [WitMotion.processTempData_full w temp rest hq hf]
  refine ⟨rfl, hf, rfl, rfl, rfl, ?_, rfl, ?_⟩
  · intro k hk h1 h2
    rw [IMUData.mem_fieldOrder_iff] at hk
    rcases hk with h | h | h | h | h | h | h | h | h | h | h | h | h | h | h <;>
      first
        | exact absurd h h1
        | exact absurd h h2
        | (subst h; simp [IMUData.getAsString, IMUData.init])
  · exact (WitMotion.writeDataIfNeeded_lastData _ _).2

/-- An instance of C3: an update with all 15 fields reaches an empty accumulator. -/
theorem processTempData_complete_witness :
    (exampleController [exampleFull]).processTempData.2 =
        [Signal.newData (IMUData.init.add exampleFull)] ∧
      (exampleController [exampleFull]).processTempData.1.lastData = IMUData.init :=
  have h := processTempData_complete refNum (exampleController [exampleFull]) exampleFull []
    rfl (by decide)
  ⟨h.1, h.2.2.1⟩

/-! ## C4 -/

/-- C4. Drain on an incomplete accumulator: when, after the merge of the popped update,
some canonical field is not present (full() is false), processTempData emits no
signal, writes nothing to the output file, and leaves the merged accumulator as the
merge produced it. -/
theorem processTempData_incomplete (L : QtNum) (w : WitMotion L) (temp : IMUData L)
    (rest : List (IMUData L)) (hq : w.data_buffer_ = temp :: rest)
    (hmiss : ∃ k ∈ IMUData.fieldOrder, k ∉ (w.lastData.add temp).validFields) :
    (w.lastData.add temp).full = false ∧
      w.processTempData.2 = [] ∧
      w.processTempData.1.saveFileText = w.saveFileText ∧
      w.processTempData.1.saveFileOpen = w.saveFileOpen ∧
      w.processTempData.1.lastData = w.lastData.add temp := by
  have hf : (w.lastData.add temp).full = false := by
    cases h : (w.lastData.add temp).full with
    | false => rfl
    | true =>
      obtain ⟨k, hk, hn⟩ := hmiss
      exact absurd ((IMUData.full_iff _).mp h k hk) hn
  rw [WitMotion.processTempData_not_full w temp rest hq hf]
  exact ⟨hf, rfl, rfl, rfl, rfl⟩

/-- An instance of C4: an update with accX only reaches an empty accumulator. -/
theorem processTempData_incomplete_witness :
    (exampleController [exampleUpdate]).processTempData.2 = [] ∧
      (exampleController [exampleUpdate]).processTempData.1.saveFileText =
        (exampleController [exampleUpdate]).saveFileText ∧
      (exampleController [exampleUpdate]).processTempData.1.lastData =
        IMUData.init.add exampleUpdate :=
  have h := processTempData_incomplete refNum (exampleController [exampleUpdate])
    exampleUpdate [] rfl ⟨"qW", by decide, by decide⟩
  ⟨h.2.1, h.2.2.1, h.2.2.2.2⟩

/-! ## C5 -/

/-- C5. Every Completed Sample emitted by processTempData in a run of pushes (of updates
built by the callback from a bank of int16 registers) and drain steps that starts from
an empty accumulator and an empty FIFO has all 15 canonical fields present, and for
every field other than system_time and timestamp getAsString returns text in fixed
notation with exactly 4 digits after the decimal point. -/
theorem completed_sample_fields (L : QtNum) (hP : L.PrintsFixed4) (w : WitMotion L)
    (hacc : w.lastData = IMUData.init) (hbuf : w.data_buffer_ = [])
    (ops : List (Op L)) (hops : ∀ u, Op.push u ∈ ops → IsDecoded u)
    (s : IMUData L) (hs : s ∈ WitMotion.samples (WitMotion.run ops w).2) :
    (∀ k ∈ IMUData.fieldOrder, k ∈ s.validFields) ∧
      ∀ k ∈ IMUData.fieldOrder, k ≠ "system_time" → k ≠ "timestamp" →
        isFixed4 (s.getAsString k) = true := by
  have h := WitMotion.run_samples_fixed4 hP ops w (hacc ▸ IMUData.init_numericFixed4 hP)
    (by rw [hbuf]; intro u hu; cases hu)
    (fun u hu => IsDecoded.numericFixed4 hP u (hops u hu)) s hs
  exact ⟨(IMUData.full_iff s).mp h.1, h.2⟩

/-- An instance of C5: one event covering all five register groups, then one drain step. -/
theorem completed_sample_fields_witness :
    (∀ k ∈ IMUData.fieldOrder, k ∈ (IMUData.init.add exampleDecoded).validFields) ∧
      ∀ k ∈ IMUData.fieldOrder, k ≠ "system_time" → k ≠ "timestamp" →
        isFixed4 ((IMUData.init.add exampleDecoded).getAsString k) = true :=
  completed_sample_fields refNum refNum_printsFixed4 (exampleController []) rfl rfl
    [Op.push exampleDecoded, Op.drain]
    (fun u hu => by
      simp only [List.mem_cons, Op.push.injEq, List.mem_singleton, reduceCtorEq, or_false,
        List.not_mem_nil] at hu
      exact ⟨sdkRegs, exampleBank, _, _, _, exampleBank_int16, hu⟩)
    (IMUData.init.add exampleDecoded) (List.Mem.head _)

/-! ## C6 -/

/-- C6 fails as stated: in the sign-keeping instance, with the SDK addresses and the
quaternion registers holding -1, the 4-decimal formatting of sReg[q0]/32768 is
"-0.0000", and the update the callback builds reports "0.0000" for qX: set reads the
text as negative zero, which prints without a sign. -/
theorem quaternion_minus_one_reports_zero :
    IsInt16Bank exampleMinusOneBank ∧ sdkRegs.q3 ∈ visitedRegs 0x51 4 ∧
      signNum.number
        (signNum.div (signNum.ofInt (exampleMinusOneBank (sdkRegs.q0 + 0)))
          (signNum.ofInt 32768)) = "-0.0000" ∧
      signDecodedMinusOne.getAsString (["qX", "qY", "qZ", "qW"].getD 0 "") = "0.0000" ∧
      signDecodedMinusOne.getAsString (["qX", "qY", "qZ", "qW"].getD 0 "") ≠
        signNum.number
          (signNum.div (signNum.ofInt (exampleMinusOneBank (sdkRegs.q0 + 0)))
            (signNum.ofInt 32768)) :=
  ⟨exampleMinusOneBank_int16, by decide, by decide, by decide, by decide⟩

/-- C6, as the code has it. Register Interpreter scale rules: for every bank of int16
registers and under the laws of the Qt conversions, when the event covers the group, the
update built by the callback reports for accX/accY/accZ the 4-decimal text of
sReg[AX+j]/32768*16, for gyroX/Y/Z that of sReg[GX+j]/32768*2000, for roll/pitch/yaw
that of sReg[Roll+j]/32768*180 and for qX/qY/qZ/qW that of sReg[q0+j]/32768 (j-th
register to j-th listed field), except that the text "-0.0000" is reported as "0.0000".
For every field present in the update, the accumulator reports the same text after the
merge, and so does the Completed Sample emitted once the updates queued behind it, none
of which holds the field, have been merged. In the sign-keeping exact instance a raw
acceleration register of 16384 yields "8.0000" in the update, in the accumulator and in
that Completed Sample, the quaternion text is "-0.0000" exactly for the raw value -1,
and no acceleration, gyro or angle text is "-0.0000". -/
theorem register_scale_rules (L : QtNum) (hL : L.Reprints) (hP : L.PrintsFixed4) (R : Regs)
    (hR : R.CaseLabelsDistinct) (sReg : Nat → Int) (hbank : IsInt16Bank sReg)
    (now : String) (uiReg uiRegNum : Nat) :
    (R.AZ ∈ visitedRegs uiReg uiRegNum → ∀ j, j < 3 →
      (regCallback R sReg now uiReg uiRegNum : IMUData L).getAsString
          (["accX", "accY", "accZ"].getD j "") =
        if L.number (L.mul (L.div (L.ofInt (sReg (R.AX + j))) (L.ofInt 32768))
            (L.ofInt 16)) = "-0.0000" then "0.0000"
        else L.number (L.mul (L.div (L.ofInt (sReg (R.AX + j))) (L.ofInt 32768))
            (L.ofInt 16))) ∧
    (R.GZ ∈ visitedRegs uiReg uiRegNum → ∀ j, j < 3 →
      (regCallback R sReg now uiReg uiRegNum : IMUData L).getAsString
          (["gyroX", "gyroY", "gyroZ"].getD j "") =
        if L.number (L.mul (L.div (L.ofInt (sReg (R.GX + j))) (L.ofInt 32768))
            (L.ofInt 2000)) = "-0.0000" then "0.0000"
        else L.number (L.mul (L.div (L.ofInt (sReg (R.GX + j))) (L.ofInt 32768))
            (L.ofInt 2000))) ∧
    (R.Yaw ∈ visitedRegs uiReg uiRegNum → ∀ j, j < 3 →
      (regCallback R sReg now uiReg uiRegNum : IMUData L).getAsString
          (["roll", "pitch", "yaw"].getD j "") =
        if L.number (L.mul (L.div (L.ofInt (sReg (R.Roll + j))) (L.ofInt 32768))
            (L.ofInt 180)) = "-0.0000" then "0.0000"
        else L.number (L.mul (L.div (L.ofInt (sReg (R.Roll + j))) (L.ofInt 32768))
            (L.ofInt 180))) ∧
    (R.q3 ∈ visitedRegs uiReg uiRegNum → ∀ j, j < 4 →
      (regCallback R sReg now uiReg uiRegNum : IMUData L).getAsString
          (["qX", "qY", "qZ", "qW"].getD j "") =
        if L.number (L.div (L.ofInt (sReg (R.q0 + j))) (L.ofInt 32768)) = "-0.0000"
        then "0.0000"
        else L.number (L.div (L.ofInt (sReg (R.q0 + j))) (L.ofInt 32768))) ∧
    (∀ k ∈ IMUData.fieldOrder,
      k ∈ (regCallback R sReg now uiReg uiRegNum : IMUData L).validFields →
      ∀ (w : WitMotion L) (vs : List (IMUData L)),
        w.data_buffer_ = regCallback R sReg now uiReg uiRegNum :: vs →
        (w.lastData.add (regCallback R sReg now uiReg uiRegNum)).getAsString k =
            (regCallback R sReg now uiReg uiRegNum : IMUData L).getAsString k ∧
          ∀ s : IMUData L, (∀ v ∈ vs, k ∉ v.validFields) →
            (WitMotion.run (List.replicate vs.length Op.drain) w).2 = [] →
            (WitMotion.run (List.replicate vs.length Op.drain) w).1.processTempData.2 =
              [Signal.newData s] →
            s.getAsString k =
              (regCallback R sReg now uiReg uiRegNum : IMUData L).getAsString k) ∧
    (R.AZ ∈ visitedRegs uiReg uiRegNum → ∀ j, j < 3 → sReg (R.AX + j) = 16384 →
      (regCallback R sReg now uiReg uiRegNum : IMUData signNum).getAsString
          (["accX", "accY", "accZ"].getD j "") = "8.0000" ∧
        ∀ (w : WitMotion signNum) (vs : List (IMUData signNum)),
          w.data_buffer_ = regCallback R sReg now uiReg uiRegNum :: vs →
          (w.lastData.add (regCallback R sReg now uiReg uiRegNum)).getAsString
              (["accX", "accY", "accZ"].getD j "") = "8.0000" ∧
          ∀ s : IMUData signNum,
            (∀ v ∈ vs, ["accX", "accY", "accZ"].getD j "" ∉ v.validFields) →
            (WitMotion.run (List.replicate vs.length Op.drain) w).2 = [] →
            (WitMotion.run (List.replicate vs.length Op.drain) w).1.processTempData.2 =
              [Signal.newData s] →
            s.getAsString (["accX", "accY", "accZ"].getD j "") = "8.0000") ∧
    (∀ raw : Int,
      (signNum.number (signNum.div (signNum.ofInt raw) (signNum.ofInt 32768)) = "-0.0000" ↔
        raw = -1) ∧
      signNum.number (signNum.mul (signNum.div (signNum.ofInt raw) (signNum.ofInt 32768))
        (signNum.ofInt 16)) ≠ "-0.0000" ∧
      signNum.number (signNum.mul (signNum.div (signNum.ofInt raw) (signNum.ofInt 32768))
        (signNum.ofInt 2000)) ≠ "-0.0000" ∧
      signNum.number (signNum.mul (signNum.div (signNum.ofInt raw) (signNum.ofInt 32768))
        (signNum.ofInt 180)) ≠ "-0.0000") := by
  obtain ⟨hacc, hgyro, hang, hquat⟩ :=
    regCallback_scale_text hL hP R hR sReg hbank now uiReg uiRegNum
  have hmerge : ∀ (M : QtNum), M.Reprints → M.PrintsFixed4 → ∀ k ∈ IMUData.fieldOrder,
      k ∈ (regCallback R sReg now uiReg uiRegNum : IMUData M).validFields →
      ∀ (w : WitMotion M) (vs : List (IMUData M)),
        w.data_buffer_ = regCallback R sReg now uiReg uiRegNum :: vs →
        (w.lastData.add (regCallback R sReg now uiReg uiRegNum)).getAsString k =
            (regCallback R sReg now uiReg uiRegNum : IMUData M).getAsString k ∧
          ∀ s : IMUData M, (∀ v ∈ vs, k ∉ v.validFields) →
            (WitMotion.run (List.replicate vs.length Op.drain) w).2 = [] →
            (WitMotion.run (List.replicate vs.length Op.drain) w).1.processTempData.2 =
              [Signal.newData s] →
            s.getAsString k =
              (regCallback R sReg now uiReg uiRegNum : IMUData M).getAsString k := by
    intro M hM hMP k hk hv w vs hq
    exact WitMotion.merge_keeps_text w _ vs hq k hk hv
      (IMUData.StableFields.key _
        (IsDecoded.stableFields hM hMP _ ⟨R, sReg, now, uiReg, uiRegNum, hbank, rfl⟩) k hk hv)
  refine ⟨hacc, hgyro, hang, hquat, hmerge L hL hP, ?_, ?_⟩
  · intro hv j hj hraw
    have hkey : ["accX", "accY", "accZ"].getD j "" ∈ IMUData.fieldOrder ∧
        ["accX", "accY", "accZ"].getD j "" ∈ regKeys R R.AZ := by
      rw [mem_regKeys R hR]
      interval_cases j <;> exact ⟨by decide, Or.inr (Or.inl ⟨rfl, by decide⟩)⟩
    have hpres : ["accX", "accY", "accZ"].getD j "" ∈
        (regCallback R sReg now uiReg uiRegNum : IMUData signNum).validFields :=
      (regCallback_validFields R sReg now uiReg uiRegNum _).mpr ⟨R.AZ, hv, hkey.2⟩
    have hu : (regCallback R sReg now uiReg uiRegNum : IMUData signNum).getAsString
        (["accX", "accY", "accZ"].getD j "") = "8.0000" := by
      rw [(regCallback_scale_text signNum_reprints signNum_printsFixed4 R hR sReg hbank now
        uiReg uiRegNum).1 hv j hj, hraw, signNum_number_eight]
      decide
    refine ⟨hu, ?_⟩
    intro w vs hq
    have h := hmerge signNum signNum_reprints signNum_printsFixed4 _ hkey.1 hpres w vs hq
    exact ⟨h.1.trans hu, fun s hvs hquiet hemit => (h.2 s hvs hquiet hemit).trans hu⟩
  · intro raw
    exact ⟨signNum_ratio_negZero raw, signNum_scaled_ne_negZero raw⟩

/-- An instance of C6 in the sign-keeping instance: with the SDK addresses and every
register at 16384, the update for the event (0x30, 0x25) reports accX = "8.0000"; it
completes an empty accumulator, and the sample emitted reports accX = "8.0000". -/
theorem register_scale_rules_witness :
    signDecoded.getAsString "accX" = "8.0000" ∧
      (signController [signDecoded]).processTempData.2 =
        [Signal.newData (IMUData.init.add signDecoded)] ∧
      (IMUData.init.add signDecoded).getAsString "accX" = "8.0000" :=
  have h := (register_scale_rules signNum signNum_reprints signNum_printsFixed4 sdkRegs
    (by decide) exampleBank exampleBank_int16 "2025-01-01T00:00:00.000Z" 0x30 0x25).2.2.2.2.2.1
    (by decide) 0 (by decide) rfl
  have hemit : (signController [signDecoded]).processTempData.2 =
      [Signal.newData (IMUData.init.add signDecoded)] := by rfl
  ⟨h.1, hemit,
    (h.2 (signController [signDecoded]) [] rfl).2 (IMUData.init.add signDecoded)
      (fun _ hv => absurd hv (List.not_mem_nil _)) rfl hemit⟩

/-! ## C7 -/

/-- C7. Register range dispatch: for every event (uiReg, uiRegNum) the callback runs the
switch on exactly the addresses uiReg, uiReg + 1, ..., uiReg + uiRegNum - 1 (uint32_t
arithmetic), and the update it pushes has timestamp and system_time present iff MS is
among them, accX/accY/accZ iff AZ is, gyroX/Y/Z iff GZ is, roll/pitch/yaw iff Yaw is,
qX/qY/qZ/qW iff q3 is, and no other field; an event whose range contains none of these
registers yields an update with no field present. -/
theorem register_range_dispatch (L : QtNum) (R : Regs) (hR : R.CaseLabelsDistinct)
    (sReg : Nat → Int) (now : String) (uiReg uiRegNum : Nat) (hu : uiReg < 2 ^ 32) :
    (∀ w : WitMotion L, (w.onRegisterUpdate R sReg now uiReg uiRegNum).data_buffer_ =
        w.data_buffer_ ++ [regCallback R sReg now uiReg uiRegNum]) ∧
      (regCallback R sReg now uiReg uiRegNum : IMUData L) =
        (visitedRegs uiReg uiRegNum).foldl (fun t a => regCase R sReg now a t)
          IMUData.init ∧
      (∀ a, a ∈ visitedRegs uiReg uiRegNum ↔ ∃ i, i < uiRegNum ∧ a = (uiReg + i) % 2 ^ 32) ∧
      (uiReg + uiRegNum ≤ 2 ^ 32 →
        ∀ a, a ∈ visitedRegs uiReg uiRegNum ↔ uiReg ≤ a ∧ a < uiReg + uiRegNum) ∧
      (∀ k ∈ ["timestamp", "system_time"],
        k ∈ (regCallback R sReg now uiReg uiRegNum : IMUData L).validFields ↔
          R.MS ∈ visitedRegs uiReg uiRegNum) ∧
      (∀ k ∈ ["accX", "accY", "accZ"],
        k ∈ (regCallback R sReg now uiReg uiRegNum : IMUData L).validFields ↔
          R.AZ ∈ visitedRegs uiReg uiRegNum) ∧
      (∀ k ∈ ["gyroX", "gyroY", "gyroZ"],
        k ∈ (regCallback R sReg now uiReg uiRegNum : IMUData L).validFields ↔
          R.GZ ∈ visitedRegs uiReg uiRegNum) ∧
      (∀ k ∈ ["roll", "pitch", "yaw"],
        k ∈ (regCallback R sReg now uiReg uiRegNum : IMUData L).validFields ↔
          R.Yaw ∈ visitedRegs uiReg uiRegNum) ∧
      (∀ k ∈ ["qX", "qY", "qZ", "qW"],
        k ∈ (regCallback R sReg now uiReg uiRegNum : IMUData L).validFields ↔
          R.q3 ∈ visitedRegs uiReg uiRegNum) ∧
      (∀ k ∈ (regCallback R sReg now uiReg uiRegNum : IMUData L).validFields,
        k ∈ IMUData.fieldOrder) ∧
      (R.MS ∉ visitedRegs uiReg uiRegNum → R.AZ ∉ visitedRegs uiReg uiRegNum →
        R.GZ ∉ visitedRegs uiReg uiRegNum → R.Yaw ∉ visitedRegs uiReg uiRegNum →
        R.q3 ∉ visitedRegs uiReg uiRegNum →
        (regCallback R sReg now uiReg uiRegNum : IMUData L).validFields = ∅) := by
  obtain ⟨n1, n2, n3, n4, n5, n6, n7, n8, n9, n10⟩ := hR.ne
  have hmem : ∀ k, k ∈ (regCallback R sReg now uiReg uiRegNum : IMUData L).validFields ↔
      (R.MS ∈ visitedRegs uiReg uiRegNum ∧ k ∈ ["timestamp", "system_time"]) ∨
      (R.AZ ∈ visitedRegs uiReg uiRegNum ∧ k ∈ ["accX", "accY", "accZ"]) ∨
      (R.GZ ∈ visitedRegs uiReg uiRegNum ∧ k ∈ ["gyroX", "gyroY", "gyroZ"]) ∨
      (R.Yaw ∈ visitedRegs uiReg uiRegNum ∧ k ∈ ["roll", "pitch", "yaw"]) ∨
      (R.q3 ∈ visitedRegs uiReg uiRegNum ∧ k ∈ ["qX", "qY", "qZ", "qW"]) := by
    intro k
    rw [regCallback_validFields]
    constructor
    · rintro ⟨a, ha, hk⟩
      rw [mem_regKeys R hR] at hk
      rcases hk with ⟨rfl, h⟩ | ⟨rfl, h⟩ | ⟨rfl, h⟩ | ⟨rfl, h⟩ | ⟨rfl, h⟩
      · exact Or.inl ⟨ha, h⟩
      · exact Or.inr (Or.inl ⟨ha, h⟩)
      · exact Or.inr (Or.inr (Or.inl ⟨ha, h⟩))
      · exact Or.inr (Or.inr (Or.inr (Or.inl ⟨ha, h⟩)))
      · exact Or.inr (Or.inr (Or.inr (Or.inr ⟨ha, h⟩)))
    · rintro (⟨ha, h⟩ | ⟨ha, h⟩ | ⟨ha, h⟩ | ⟨ha, h⟩ | ⟨ha, h⟩)
      · exact ⟨_, ha, (mem_regKeys R hR _ k).mpr (Or.inl ⟨rfl, h⟩)⟩
      · exact ⟨_, ha, (mem_regKeys R hR _ k).mpr (Or.inr (Or.inl ⟨rfl, h⟩))⟩
      · exact ⟨_, ha, (mem_regKeys R hR _ k).mpr (Or.inr (Or.inr (Or.inl ⟨rfl, h⟩)))⟩
      · exact ⟨_, ha, (mem_regKeys R hR _ k).mpr (Or.inr (Or.inr (Or.inr (Or.inl ⟨rfl, h⟩))))⟩
      · exact ⟨_, ha, (mem_regKeys R hR _ k).mpr (Or.inr (Or.inr (Or.inr (Or.inr ⟨rfl, h⟩))))⟩
  refine ⟨fun _ => rfl, regLoop_eq_foldl R sReg now uiRegNum uiReg _,
    fun a => mem_visitedRegs a uiReg uiRegNum hu,
    fun hn a => mem_visitedRegs_of_le a uiReg uiRegNum hn, ?_, ?_, ?_, ?_, ?_, ?_, ?_⟩
  · intro k hk
    rw [hmem]
    simp only [List.mem_cons, List.mem_singleton, List.not_mem_nil, or_false] at hk
    rcases hk with rfl | rfl <;> simp
  · intro k hk
    rw [hmem]
    simp only [List.mem_cons, List.mem_singleton, List.not_mem_nil, or_false] at hk
    rcases hk with rfl | rfl | rfl <;> simp
  · intro k hk
    rw [hmem]
    simp only [List.mem_cons, List.mem_singleton, List.not_mem_nil, or_false] at hk
    rcases hk with rfl | rfl | rfl <;> simp
  · intro k hk
    rw [hmem]
    simp only [List.mem_cons, List.mem_singleton, List.not_mem_nil, or_false] at hk
    rcases hk with rfl | rfl | rfl <;> simp
  · intro k hk
    rw [hmem]
    simp only [List.mem_cons, List.mem_singleton, List.not_mem_nil, or_false] at hk
    rcases hk with rfl | rfl | rfl | rfl <;> simp
  · intro k hk
    rw [hmem] at hk
    rw [IMUData.mem_fieldOrder_iff]
    simp only [List.mem_cons, List.mem_singleton, List.not_mem_nil, or_false] at hk
    tauto
  · intro h1 h2 h3 h4 h5
    ext k
    rw [hmem]
    simp [h1, h2, h3, h4, h5]

/-- An instance of C7: with the SDK addresses, the event (0x34, 3) covers AX, AY, AZ only. -/
theorem register_range_dispatch_witness :
    (∀ k ∈ ["accX", "accY", "accZ"],
      k ∈ (regCallback sdkRegs exampleBank "" 0x34 3 : IMUData refNum).validFields ↔
        sdkRegs.AZ ∈ visitedRegs 0x34 3) ∧
    (∀ k ∈ (regCallback sdkRegs exampleBank "" 0x34 3 : IMUData refNum).validFields,
      k ∈ IMUData.fieldOrder) :=
  have h := register_range_dispatch refNum sdkRegs (by decide) exampleBank "" 0x34 3
    (by decide)
  ⟨h.2.2.2.2.2.1, h.2.2.2.2.2.2.2.2.2.1⟩

/-! ## C8 -/

/-- C8. Persisted file content: when the constructor is run with saveData = true and
the file opens, then after any sequence of pushes and processTempData steps the text of
the file is the header line "system_time,timestamp,accX,...,qW" followed by one line
per emitted Completed Sample, in order, each the 15 values getAsString reports for the
sample, in canonical field order, joined by commas. -/
theorem persisted_file_content (L : QtNum) (fs : FileSystem) (port : String)
    (baudRate : Int) (saveDir : String) (fuel : Nat) (w : WitMotion L)
    (hnew : WitMotion.new fs port baudRate true saveDir fuel = some w)
    (hopen : fs.canOpen w.savePath_ = true) (ops : List (Op L)) :
    (WitMotion.run ops w).1.saveFileText =
        linesText
          ("system_time,timestamp,accX,accY,accZ,gyroX,gyroY,gyroZ,roll,pitch,yaw,qX,qY,qZ,qW" ::
            (WitMotion.samples (WitMotion.run ops w).2).map
              (fun s => ",".intercalate (IMUData.fieldOrder.map s.getAsString))) := by
  obtain ⟨-, -, -, h1, h2, h3⟩ := WitMotion.new_eq_some fs port baudRate true saveDir fuel w hnew
  rw [hopen] at h1 h2 h3
  have hrun := (WitMotion.run_file ops w).2.2.2
  rw [h1, h2, h3] at hrun
  simp only [Bool.and_self, if_true] at hrun
  rw [hrun, ← headerRow_eq]
  rfl

/-- An instance of C8: the controller built in exampleFileSystem receives one update with all
15 fields and drains it. -/
theorem persisted_file_content_witness :
    (WitMotion.run [Op.push exampleFull, Op.drain] exampleConstructed).1.saveFileText =
      linesText
        ("system_time,timestamp,accX,accY,accZ,gyroX,gyroY,gyroZ,roll,pitch,yaw,qX,qY,qZ,qW" ::
          (WitMotion.samples
              (WitMotion.run [Op.push exampleFull, Op.drain] exampleConstructed).2).map
            (fun s => ",".intercalate (IMUData.fieldOrder.map s.getAsString))) :=
  persisted_file_content refNum exampleFileSystem "/dev/ttyUSB0" 115200 "rec" 4
    exampleConstructed rfl rfl [Op.push exampleFull, Op.drain]

/-! ## C9 -/

/-- C9. Non-colliding file name: when some name WitMotion_n.csv with n in the range of
the `int` counter (0 <= n < 2^31) is unused in the target directory, the probing loop
of the constructor terminates (every bound from n + 2 tests on is enough), and the
chosen savePath_ is saveDir/WitMotion_n.csv for the least n whose file does not exist;
the chosen path does not name an existing file. -/
theorem constructor_picks_least_unused (L : QtNum) (fs : FileSystem) (port : String)
    (baudRate : Int) (saveData : Bool) (saveDir : String)
    (h : ∃ n : Nat, n < 2 ^ 31 ∧ fs.fileExists (probeName saveDir n) = false) :
    ∃ n : Nat, fs.fileExists (probeName saveDir n) = false ∧
      (∀ m : Nat, m < n → fs.fileExists (probeName saveDir m) = true) ∧
      ∀ fuel, n + 2 ≤ fuel →
        ∃ w : WitMotion L, WitMotion.new fs port baudRate saveData saveDir fuel = some w ∧
          w.savePath_ = probeName saveDir n ∧ fs.fileExists w.savePath_ = false := by
  have hex : ∃ n : Nat, fs.fileExists (probeName saveDir n) = false := by
    obtain ⟨n, -, hn⟩ := h
    exact ⟨n, hn⟩
  have hfree := Nat.find_spec hex
  have hused : ∀ m : Nat, m < Nat.find hex → fs.fileExists (probeName saveDir m) = true := by
    intro m hm
    have := Nat.find_min hex hm
    simpa using this
  have hlt : Nat.find hex < 2 ^ 31 := by
    obtain ⟨n, hn, hf⟩ := h
    exact lt_of_le_of_lt (Nat.find_min' hex hf) hn
  refine ⟨Nat.find hex, hfree, hused, ?_⟩
  intro fuel hfuel
  obtain ⟨w, hw, hp⟩ := WitMotion.new_of_probe (L := L) fs port baudRate saveData saveDir fuel _
    (probeLoop_least fs saveDir _ hlt hfree hused fuel hfuel)
  exact ⟨w, hw, hp, hp ▸ hfree⟩

/-- An instance of C9: in exampleFileSystem the names 0 and 1 are taken and 2 is free. -/
theorem constructor_picks_least_unused_witness :
    ∃ n : Nat, exampleFileSystem.fileExists (probeName "rec" n) = false ∧
      (∀ m : Nat, m < n → exampleFileSystem.fileExists (probeName "rec" m) = true) ∧
      ∀ fuel, n + 2 ≤ fuel →
        ∃ w : WitMotion refNum,
          WitMotion.new exampleFileSystem "/dev/ttyUSB0" 115200 true "rec" fuel = some w ∧
            w.savePath_ = probeName "rec" n ∧ exampleFileSystem.fileExists w.savePath_ = false :=
  constructor_picks_least_unused refNum exampleFileSystem "/dev/ttyUSB0" 115200 true "rec"
    ⟨2, by decide, by decide⟩

/-! ## C10 -/

/-- C10. Output-file-open failure is non-fatal and permanent: when the constructor is
run with saveData = true and the file cannot be opened, it sets saveData_ to false and
writes nothing; after any sequence of pushes and processTempData steps saveData_ is
still false and the file text still empty (no header, no row), while the signals
emitted are those emitted by a controller built the same way in a file system where
the file opens. -/
theorem open_failure_disables_persistence (L : QtNum) (fs : FileSystem) (port : String)
    (baudRate : Int) (saveDir : String) (fuel : Nat) (w : WitMotion L)
    (hnew : WitMotion.new fs port baudRate true saveDir fuel = some w)
    (hfail : fs.canOpen w.savePath_ = false) :
    w.saveData_ = false ∧ w.saveFileText = "" ∧
      ∀ ops : List (Op L),
        (WitMotion.run ops w).1.saveData_ = false ∧
          (WitMotion.run ops w).1.saveFileText = "" ∧
          ∀ (fs2 : FileSystem) (w2 : WitMotion L), fs2.fileExists = fs.fileExists →
            WitMotion.new fs2 port baudRate true saveDir fuel = some w2 →
            w2.saveData_ = true →
            (WitMotion.run ops w).2 = (WitMotion.run ops w2).2 := by
  obtain ⟨-, hacc, hbuf, h1, -, h3⟩ :=
    WitMotion.new_eq_some fs port baudRate true saveDir fuel w hnew
  rw [hfail] at h1 h3
  simp only [Bool.and_false, Bool.false_eq_true, if_false] at h1 h3
  refine ⟨h1, h3, ?_⟩
  intro ops
  obtain ⟨r1, -, -, r4⟩ := WitMotion.run_file ops w
  rw [h1] at r1
  rw [h1, h3] at r4
  simp only [Bool.false_and, Bool.false_eq_true, if_false] at r4
  refine ⟨r1, r4, ?_⟩
  intro fs2 w2 _ hnew2 _
  obtain ⟨-, hacc2, hbuf2, -, -, -⟩ :=
    WitMotion.new_eq_some fs2 port baudRate true saveDir fuel w2 hnew2
  exact WitMotion.run_signals_congr ops w w2 (hacc.trans hacc2.symm) (hbuf.trans hbuf2.symm)

/-- An instance of C10: the controller built in exampleReadOnlyFileSystem receives one update
with all 15 fields and drains it; the sample is emitted as in exampleFileSystem. -/
theorem open_failure_disables_persistence_witness :
    exampleDecodeOnly.saveData_ = false ∧
      (WitMotion.run [Op.push exampleFull, Op.drain] exampleDecodeOnly).1.saveFileText = "" ∧
      (WitMotion.run [Op.push exampleFull, Op.drain] exampleDecodeOnly).2 =
        (WitMotion.run [Op.push exampleFull, Op.drain] exampleConstructed).2 :=
  have h := open_failure_disables_persistence refNum exampleReadOnlyFileSystem "/dev/ttyUSB0"
    115200 "rec" 4 exampleDecodeOnly rfl rfl
  ⟨h.1, (h.2.2 [Op.push exampleFull, Op.drain]).2.1,
    (h.2.2 [Op.push exampleFull, Op.drain]).2.2 exampleFileSystem exampleConstructed rfl rfl
      rfl⟩

/-! ## C11 -/

/-- C11, as the code has it: a call to stop() made after a first stop() changes no
member (fd stays negative, at -1 when the device had been open or never opened with
another value; the readiness notifier stays absent) and, like every call to stop(),
emits the finished notification once. -/
theorem stop_after_stop (L : QtNum) (w : WitMotion L) :
    w.stop.1.stop.1 = w.stop.1 ∧
      w.stop.1.stop.2 = [Signal.finished] ∧
      w.stop.1.fd < 0 ∧
      (0 ≤ w.fd ∨ w.fd = -1 → w.stop.1.fd = -1) ∧
      w.stop.1.socketNotifier_ = false := by
  have hneg := WitMotion.stop_fd_neg w
  refine ⟨?_, ?_, hneg, ?_, ?_⟩
  · rw [WitMotion.stop_eq w.stop.1, if_neg (not_le.mpr hneg)]
    rw [WitMotion.stop_eq w]
  · rw [WitMotion.stop_eq w.stop.1]
  · rw [WitMotion.stop_eq w]
    rintro (h | h)
    · simp [h]
    · simp [h]
  · rw [WitMotion.stop_eq w]

/-- C11 fails as stated: on a controller that is reading, the second of two calls to
stop() is not a no-op, it emits finished again. -/
theorem second_stop_emits_finished :
    ¬ ((exampleController []).stop.1.stop.1 = (exampleController []).stop.1 ∧
        (exampleController []).stop.1.stop.2 = []) := by
  rintro ⟨-, h⟩
  rw [WitMotion.stop_eq] at h
  cases h

/-! ## C12 -/

/-- C12. Device-open failure: when serial_open returns a negative value, startReading
emits finished exactly once, registers no readiness notifier (the member keeps its
value, absent for a controller that was not reading, such as a freshly constructed
one), leaves fd negative, and touches neither the FIFO nor the accumulator. -/
theorem startReading_open_failure (L : QtNum) (w : WitMotion L) (openResult : Int)
    (hfail : openResult < 0) :
    (w.startReading openResult).2 = [Signal.finished] ∧
      (w.startReading openResult).1.socketNotifier_ = w.socketNotifier_ ∧
      (w.socketNotifier_ = false → (w.startReading openResult).1.socketNotifier_ = false) ∧
      (∀ (fs : FileSystem) (port : String) (baudRate : Int) (saveData : Bool)
          (saveDir : String) (fuel : Nat),
        WitMotion.new fs port baudRate saveData saveDir fuel = some w →
          (w.startReading openResult).1.socketNotifier_ = false) ∧
      (w.startReading openResult).1.fd = openResult ∧
      (w.startReading openResult).1.fd < 0 ∧
      (w.startReading openResult).1.data_buffer_ = w.data_buffer_ ∧
      (w.startReading openResult).1.lastData = w.lastData := by
  have h : w.startReading openResult = ({ w with fd := openResult }, [Signal.finished]) := by
    unfold WitMotion.startReading
    simp only [hfail, if_true]
  rw [h]
  refine ⟨rfl, rfl, fun h0 => h0, ?_, rfl, hfail, rfl, rfl⟩
  intro fs port baudRate saveData saveDir fuel hnew
  unfold WitMotion.new at hnew
  cases hp : probeLoop fs saveDir fuel (saveDir ++ "/WitMotion_0.csv") 0 with
  | none => rw [hp] at hnew; cases hnew
  | some filename =>
    rw [hp] at hnew
    simp only at hnew
    split_ifs at hnew <;>
      (simp only [Option.some.injEq] at hnew
       subst hnew
       rfl)

/-- An instance of C12: the controller built in exampleFileSystem starts and serial_open
returns -1. -/
theorem startReading_open_failure_witness :
    (exampleConstructed.startReading (-1)).2 = [Signal.finished] ∧
      (exampleConstructed.startReading (-1)).1.socketNotifier_ = false ∧
      (exampleConstructed.startReading (-1)).1.fd < 0 :=
  have h := startReading_open_failure refNum exampleConstructed (-1) (by decide)
  ⟨h.1, h.2.2.2.1 exampleFileSystem "/dev/ttyUSB0" 115200 true "rec" 4 rfl, h.2.2.2.2.2.1⟩

/-! ## C13 -/

/-- C13, as the code has it: stop() itself emits no newData, writes no row and leaves
the FIFO and the accumulator as they are (a partially filled accumulator is not
flushed); it removes the readiness notifier and leaves fd negative; a processTempData
step right after stop() emits the samples and writes the text it would without the
stop; and when the FIFO is empty at stop(), no sequence of steps that follows without
a new start (readiness, processTempData, stop) emits newData, writes a row or changes
the accumulator. -/
theorem stop_keeps_pending_data (L : QtNum) (w : WitMotion L) :
    WitMotion.samples w.stop.2 = [] ∧
      w.stop.1.saveFileText = w.saveFileText ∧
      w.stop.1.data_buffer_ = w.data_buffer_ ∧
      w.stop.1.lastData = w.lastData ∧
      w.stop.1.socketNotifier_ = false ∧
      w.stop.1.fd < 0 ∧
      w.stop.1.processTempData.2 = w.processTempData.2 ∧
      w.stop.1.processTempData.1.saveFileText = w.processTempData.1.saveFileText ∧
      (w.data_buffer_ = [] → ∀ ops : List (LifeOp L), (∀ r, LifeOp.start r ∉ ops) →
        WitMotion.samples (WitMotion.lifeRun ops w.stop.1).2 = [] ∧
          (WitMotion.lifeRun ops w.stop.1).1.saveFileText = w.saveFileText ∧
          (WitMotion.lifeRun ops w.stop.1).1.lastData = w.lastData) := by
  have hneg := WitMotion.stop_fd_neg w
  have hs := WitMotion.stop_eq w
  have h1 : w.stop.1.saveFileText = w.saveFileText := by rw [hs]
  have h2 : w.stop.1.data_buffer_ = w.data_buffer_ := by rw [hs]
  have h3 : w.stop.1.lastData = w.lastData := by rw [hs]
  have h4 : w.stop.1.socketNotifier_ = false := by rw [hs]
  have h5 : w.stop.1.saveData_ = w.saveData_ ∧ w.stop.1.saveFileOpen = w.saveFileOpen := by
    rw [hs]; exact ⟨rfl, rfl⟩
  have hsig : w.stop.1.processTempData.2 = w.processTempData.2 := by
    rw [(WitMotion.processTempData_proj w.stop.1).1, (WitMotion.processTempData_proj w).1,
      h2, h3]
  refine ⟨?_, h1, h2, h3, h4, hneg, hsig, ?_, ?_⟩
  · rw [hs]; rfl
  · rw [(WitMotion.processTempData_file w.stop.1).2.2.2,
      (WitMotion.processTempData_file w).2.2.2, hsig, h1, h5.1, h5.2]
  · intro hq ops hops
    obtain ⟨a1, a2, a3, -⟩ := WitMotion.lifeRun_idle ops w.stop.1 h4 (h2.trans hq) hops
    exact ⟨a1, a2.trans h1, a3.trans h3⟩

/-- C13 fails as stated: with an update that completes the sample still queued at
stop(), the processTempData step that follows the stop emits the sample and writes its
row. -/
theorem drain_after_stop_emits_sample :
    WitMotion.samples
        (WitMotion.lifeRun [LifeOp.stop, LifeOp.drain] (exampleController [exampleFull])).2 =
        [IMUData.init.add exampleFull] ∧
      (WitMotion.lifeRun [LifeOp.stop, LifeOp.drain]
          (exampleController [exampleFull])).1.saveFileText ≠
        (exampleController [exampleFull]).saveFileText := by
  refine ⟨rfl, ?_⟩
  decide

/-! ## C14 -/

/-- C14. Accumulator never stays complete: in every state reached from a freshly
constructed controller by any sequence of pushes and processTempData steps (steps that
find the FIFO empty included), the accumulator lastData is not complete: full() is
false. -/
theorem accumulator_never_stays_complete (L : QtNum) (fs : FileSystem) (port : String)
    (baudRate : Int) (saveData : Bool) (saveDir : String) (fuel : Nat) (w : WitMotion L)
    (hnew : WitMotion.new fs port baudRate saveData saveDir fuel = some w)
    (ops : List (Op L)) :
    (WitMotion.run ops w).1.lastData.full = false := by
  obtain ⟨-, hacc, -⟩ := WitMotion.new_eq_some fs port baudRate saveData saveDir fuel w hnew
  exact WitMotion.run_lastData_not_full ops w (hacc ▸ IMUData.init_not_full)

/-- An instance of C14: the controller built in exampleFileSystem receives an update
with all 15 fields, drains it, and drains once more on the empty FIFO. -/
theorem accumulator_never_stays_complete_witness :
    (WitMotion.run [Op.push exampleFull, Op.drain, Op.drain] exampleConstructed).1.lastData.full =
      false :=
  accumulator_never_stays_complete refNum exampleFileSystem "/dev/ttyUSB0" 115200 true "rec" 4
    exampleConstructed rfl [Op.push exampleFull, Op.drain, Op.drain]

/-! ## C15 -/

/-- C15. Corrupted frames are dropped silently: when the bytes pre leave the decoder with
no frame in progress and bad is a frame (it starts with a header and has the frame
length) whose checksum does not match, the decoder emits no event for bad and is left
as it was before it, so handleSerialData pushes no update for it: feeding pre, bad and
then any bytes post gives the FIFO and the decoder that feeding pre and post gives, and
the accumulator is untouched.  The decoder is the one modelled from the spec. -/
theorem corrupted_frame_dropped (L : QtNum) (F : FrameFormat) (R : Regs) (now : String)
    (w : WitMotion L) (d : Decoder) (pre bad post : List Nat)
    (hlen : bad.length = F.frameLength)
    (hhead : ∃ c cs, bad = c :: cs ∧ F.isHeader c = true)
    (hsum : F.checksumOk bad = false)
    (hsync : (Decoder.feedAll F pre d).1.pending = []) :
    Decoder.feedAll F bad (Decoder.feedAll F pre d).1 = ((Decoder.feedAll F pre d).1, []) ∧
      WitMotion.handleSerialData F R now (pre ++ bad) w d =
        WitMotion.handleSerialData F R now pre w d ∧
      WitMotion.handleSerialData F R now (pre ++ bad ++ post) w d =
        WitMotion.handleSerialData F R now (pre ++ post) w d ∧
      (WitMotion.handleSerialData F R now (pre ++ bad) w d).1.data_buffer_ =
        (WitMotion.handleSerialData F R now pre w d).1.data_buffer_ ∧
      (WitMotion.handleSerialData F R now (pre ++ bad ++ post) w d).1.lastData = w.lastData := by
  have hne : bad ≠ [] := by
    obtain ⟨c, cs, e, -⟩ := hhead
    rw [e]; exact List.cons_ne_nil _ _
  have hsync2 : (WitMotion.handleSerialData F R now pre w d).2.pending = [] := by
    rw [WitMotion.handleSerialData_decoder]; exact hsync
  have hkey : ∀ post1 : List Nat,
      WitMotion.handleSerialData F R now (pre ++ bad ++ post1) w d =
        WitMotion.handleSerialData F R now (pre ++ post1) w d := by
    intro post1
    rw [List.append_assoc, WitMotion.handleSerialData_append,
      WitMotion.handleSerialData_bad_frame F R now bad post1 hlen hsum bad [] _ _ hsync2
        (List.nil_append _) hne (fun _ => hhead),
      Decoder.with_pending_nil _ hsync2, ← WitMotion.handleSerialData_append]
  have hbad : WitMotion.handleSerialData F R now (pre ++ bad) w d =
      WitMotion.handleSerialData F R now pre w d := by
    have h := hkey []
    rw [List.append_nil, List.append_nil] at h
    exact h
  refine ⟨?_, hbad, hkey post, by rw [hbad], WitMotion.handleSerialData_lastData _ _ _ _ _ _⟩
  have h := Decoder.feedAll_bad_frame F bad [] hlen hsum bad [] _ hsync (List.nil_append _) hne
    (fun _ => hhead)
  rw [List.append_nil, Decoder.with_pending_nil _ hsync] at h
  rw [h]
  rfl

/-- An instance of C15: with the example frame layout, a frame with a corrupted checksum
between two valid frames changes nothing. -/
theorem corrupted_frame_dropped_witness :
    Decoder.feedAll exampleFormat exampleBadFrame
        (Decoder.feedAll exampleFormat exampleGoodFrame exampleDecoder).1 =
        ((Decoder.feedAll exampleFormat exampleGoodFrame exampleDecoder).1, []) ∧
      WitMotion.handleSerialData exampleFormat sdkRegs ""
          (exampleGoodFrame ++ exampleBadFrame ++ exampleGoodFrame) (exampleController [])
          exampleDecoder =
        WitMotion.handleSerialData exampleFormat sdkRegs ""
          (exampleGoodFrame ++ exampleGoodFrame) (exampleController []) exampleDecoder :=
  have h := corrupted_frame_dropped refNum exampleFormat sdkRegs "" (exampleController [])
    exampleDecoder exampleGoodFrame exampleBadFrame exampleGoodFrame rfl
    ⟨0x55, _, rfl, rfl⟩ (by decide) (by decide)
  ⟨h.1, h.2.2.1⟩

/-! ## C16 -/

/-- C16. The FIFO pipeline is a pure fold in push order: for every list of updates
u1..un and every interleaving of their push steps with processTempData steps that
starts with an empty accumulator and an empty FIFO and ends with the FIFO empty, the
Completed Samples emitted, in order, and the final accumulator are those of the fold
of merge-then-drain-if-complete over u1..un from the empty accumulator. -/
theorem pipeline_is_fold (L : QtNum) (w : WitMotion L) (ops : List (Op L))
    (us : List (IMUData L)) (hus : pushedUpdates ops = us)
    (hacc : w.lastData = IMUData.init) (hbuf : w.data_buffer_ = [])
    (hend : (WitMotion.run ops w).1.data_buffer_ = []) :
    WitMotion.samples (WitMotion.run ops w).2 = (foldMergeDrain us IMUData.init).2 ∧
      (WitMotion.run ops w).1.lastData = (foldMergeDrain us IMUData.init).1 := by
  obtain ⟨h1, h2⟩ := WitMotion.run_foldMergeDrain ops w
  rw [hbuf, hacc, List.nil_append, hus, hend] at h1 h2
  simp only [foldMergeDrain, List.append_nil] at h1 h2
  exact ⟨h1.symm, h2.symm⟩

/-- An instance of C16: two updates are pushed before the first drain step, and one
more drain step finds the FIFO empty. -/
theorem pipeline_is_fold_witness :
    WitMotion.samples
        (WitMotion.run [Op.push exampleUpdate, Op.push exampleFull, Op.drain, Op.drain,
          Op.drain] (exampleController [])).2 =
        (foldMergeDrain [exampleUpdate, exampleFull] IMUData.init).2 ∧
      (WitMotion.run [Op.push exampleUpdate, Op.push exampleFull, Op.drain, Op.drain,
          Op.drain] (exampleController [])).1.lastData =
        (foldMergeDrain [exampleUpdate, exampleFull] IMUData.init).1 :=
  pipeline_is_fold refNum (exampleController [])
    [Op.push exampleUpdate, Op.push exampleFull, Op.drain, Op.drain, Op.drain]
    [exampleUpdate, exampleFull] rfl rfl rfl (by rfl)

/-! ## C17 -/

/-- C17. Merge touches only the fields of the update: after a.add(u) every key k that is
not present in u has the presence status it had in a and reports the same text, and
each of the 15 members whose key is not present in u holds the value it held in a; in
particular merging an update with no field present, such as the one the callback builds
for an event that covers none of the registers of the switch, leaves the accumulator
unchanged. -/
theorem add_touches_only_update_fields (L : QtNum) (a u : IMUData L) :
    (∀ k, k ∉ u.validFields →
      ((k ∈ (a.add u).validFields ↔ k ∈ a.validFields) ∧
        (a.add u).getAsString k = a.getAsString k)) ∧
      ("system_time" ∉ u.validFields → (a.add u).system_time = a.system_time) ∧
      ("timestamp" ∉ u.validFields → (a.add u).timestamp = a.timestamp) ∧
      ("accX" ∉ u.validFields → (a.add u).accX = a.accX) ∧
      ("accY" ∉ u.validFields → (a.add u).accY = a.accY) ∧
      ("accZ" ∉ u.validFields → (a.add u).accZ = a.accZ) ∧
      ("gyroX" ∉ u.validFields → (a.add u).gyroX = a.gyroX) ∧
      ("gyroY" ∉ u.validFields → (a.add u).gyroY = a.gyroY) ∧
      ("gyroZ" ∉ u.validFields → (a.add u).gyroZ = a.gyroZ) ∧
      ("roll" ∉ u.validFields → (a.add u).roll = a.roll) ∧
      ("pitch" ∉ u.validFields → (a.add u).pitch = a.pitch) ∧
      ("yaw" ∉ u.validFields → (a.add u).yaw = a.yaw) ∧
      ("qX" ∉ u.validFields → (a.add u).qX = a.qX) ∧
      ("qY" ∉ u.validFields → (a.add u).qY = a.qY) ∧
      ("qZ" ∉ u.validFields → (a.add u).qZ = a.qZ) ∧
      ("qW" ∉ u.validFields → (a.add u).qW = a.qW) ∧
      (u.validFields = ∅ → a.add u = a) ∧
      (∀ (R : Regs) (sReg : Nat → Int) (now : String) (uiReg uiRegNum : Nat),
        (∀ x ∈ visitedRegs uiReg uiRegNum,
          x ≠ R.MS ∧ x ≠ R.AZ ∧ x ≠ R.GZ ∧ x ≠ R.Yaw ∧ x ≠ R.q3) →
        a.add (regCallback R sReg now uiReg uiRegNum) = a) := by
  have hnone : ∀ v : IMUData L, v.validFields = ∅ → a.add v = a := by
    intro v hv
    exact IMUData.addKeys_of_none_valid v _ a (fun k _ => by rw [hv]; exact Finset.not_mem_empty k)
  refine ⟨?_,
    IMUData.addKeys_system_time_of_not_valid u _ a,
    IMUData.addKeys_timestamp_of_not_valid u _ a,
    IMUData.addKeys_accX_of_not_valid u _ a,
    IMUData.addKeys_accY_of_not_valid u _ a,
    IMUData.addKeys_accZ_of_not_valid u _ a,
    IMUData.addKeys_gyroX_of_not_valid u _ a,
    IMUData.addKeys_gyroY_of_not_valid u _ a,
    IMUData.addKeys_gyroZ_of_not_valid u _ a,
    IMUData.addKeys_roll_of_not_valid u _ a,
    IMUData.addKeys_pitch_of_not_valid u _ a,
    IMUData.addKeys_yaw_of_not_valid u _ a,
    IMUData.addKeys_qX_of_not_valid u _ a,
    IMUData.addKeys_qY_of_not_valid u _ a,
    IMUData.addKeys_qZ_of_not_valid u _ a,
    IMUData.addKeys_qW_of_not_valid u _ a,
    hnone u, ?_⟩
  · intro k hk
    refine ⟨?_, IMUData.add_getAsString_of_not_valid a u k hk⟩
    rw [IMUData.mem_add_validFields]
    constructor
    · rintro (h | ⟨-, h⟩)
      · exact h
      · exact absurd h hk
    · exact Or.inl
  · intro R sReg now uiReg uiRegNum hv
    apply hnone
    ext k
    rw [regCallback_validFields]
    simp only [Finset.not_mem_empty, iff_false, not_exists, not_and]
    intro x hx
    obtain ⟨h1, h2, h3, h4, h5⟩ := hv x hx
    simp [regKeys, h1, h2, h3, h4, h5]

/-- An instance of C17: accX = 1.5 merged into an accumulator holding accX = 7 and qW;
qW is absent from the update and keeps its status and its value. -/
theorem add_touches_only_update_fields_witness :
    "qW" ∉ exampleUpdate.validFields ∧
      ("qW" ∈ (exampleAccumulator.add exampleUpdate).validFields ↔
        "qW" ∈ exampleAccumulator.validFields) ∧
      (exampleAccumulator.add exampleUpdate).qW = exampleAccumulator.qW :=
  have h := add_touches_only_update_fields refNum exampleAccumulator exampleUpdate
  ⟨by decide, (h.1 "qW" (by decide)).1, h.2.2.2.2.2.2.2.2.2.2.2.2.2.2.2.1 (by decide)⟩

end WitIMU
